import Mathlib

/-!
# grmgr: a goroutine concurrency limiter with adaptive throttling

Shallow embedding of `grmgrNoStats.go` (the variant that keeps the counters in the
`Limiter` struct) and proofs about its event loop `PowerOn`, followed by `log.go` and by the
statistics variant `grmgr.go`: its function `report` and its loop (namespace `Stats`).

Modelling conventions

* Go `int` is 64 bits wide.  The addition `v.c += v.up` of the ThrottleUp handler is taken
  modulo 2^64 (`wrapInt`): a limiter registered with the largest `int` as its ceiling
  overflows there at its first ThrottleUp.  The byte counter `e` of the registration loop
  wraps as well, and is kept modulo 256.  All other `int`, `time.Time` and `time.Duration`
  values are mathematical integers (times and durations in nanoseconds): the counters
  move by one per message, and `v.c -= v.down` leaves the 64-bit range only from a ceiling
  within `down` of -2^63; the development is about runs in which these do not overflow.
* The map `rLimit` of type `map[Routine]*Limiter` is an association list.  A `*Limiter`
  is held by exactly one map entry, so mutation through the pointer is a `store` at the
  key the pointer was found under.
* `time.Now()` is an input of the event that reads it.
* A send on a limiter's channel `l.ch` is recorded as the stored name of that limiter in
  the list of notifications the step returns; the send is taken to be received, so the
  handler goes on.
* Calls to `logAlert` and `logDebug` do not touch limiter state and are left out; the loop
  is only entered after `logAlert("Started.")` has returned, that is with a logger set.
-/

namespace Grmgr

/-- Go: `type Routine = string`. -/
abbrev Routine := String

/-- Go: `type Limiter struct`.  `Ceiling` is an alias of `int`.  The channel `ch` carries no
data and is left out; `wg` is the counter of the embedded `sync.WaitGroup`; the field `on`
is spelled `on_`. -/
structure Limiter where
  r : Routine
  or : Routine
  c : Int
  maxc : Int
  minc : Int
  up : Int
  down : Int
  hold : Int
  on_ : Bool
  wg : Int
  rCnt : Int
  rWait : Int
  throttleDownActioned : Int
  throttleUpActioned : Int
deriving DecidableEq, Repr

/-- Go: `type rLimiterMap map[Routine]*Limiter`. -/
abbrev rLimiterMap := List (Routine × Limiter)

/-- Go: `l, ok := rLimit[r]`. -/
def lookup : rLimiterMap → Routine → Option Limiter
  | [], _ => none
  | (k, v) :: m, r => if k = r then some v else lookup m r

/-- Go: `rLimit[r] = l`; also the write-back of a limiter mutated through its pointer. -/
def store : rLimiterMap → Routine → Limiter → rLimiterMap
  | [], r, l => [(r, l)]
  | (k, v) :: m, r, l => if k = r then (k, l) :: m else (k, v) :: store m r l

/-- Go: `delete(rLimit, r)`. -/
def delete : rLimiterMap → Routine → rLimiterMap
  | [], _ => []
  | (k, v) :: m, r => if k = r then delete m r else (k, v) :: delete m r

/-- The struct literal of `NewConfig` together with the two timestamp assignments, for an
already parsed hold duration and `t0 := time.Now()`. -/
def newLimiter (r : Routine) (c : Int) (down up : Int) (min : Int) (hold t0 : Int) :
    Limiter :=
  { r := r, or := r, c := c, maxc := c, minc := min, up := up, down := down, hold := hold,
    on_ := true, wg := 0, rCnt := 0, rWait := 0,
    throttleDownActioned := t0, throttleUpActioned := t0 }

/-- Go: `NewConfig`.  `parseDuration` stands for `time.ParseDuration`; `none` is the
`panic(err)` of the error branch, in which nothing is sent on `registerCh`. -/
def NewConfig (parseDuration : String → Option Int) (t0 : Int) (r : String) (c : Int)
    (down up : Int) (min : Int) (h : String) : Option Limiter :=
  match parseDuration h with
  | none => none
  | some hold => some (newLimiter r c down up min hold t0)

/-- Go: `New`; `min` is the optional variadic argument. -/
def New (parseDuration : String → Option Int) (t0 : Int) (r : String) (c : Int)
    (min : List Int) : Option Limiter :=
  let m : Int := match min with
    | [] => 1
    | m0 :: _ => m0
  NewConfig parseDuration t0 r c 2 1 m "30s"

/-- The messages the select loop of `PowerOn` receives.  `register` carries the arguments
of the `NewConfig` call that sent the limiter (hold already parsed, `t0` read by the
caller); the throttle events carry the `time.Now()` read by the handler. -/
inductive Event where
  | register (r : Routine) (c : Int) (down up : Int) (min : Int) (hold t0 : Int)
  | EndCh (r : Routine)
  | rAskCh (r : Routine)
  | throttleDownCh (r : Routine) (t0 : Int)
  | throttleUpCh (r : Routine) (t0 : Int)
  | unRegisterCh (r : Routine)
  | ctxDone
deriving DecidableEq, Repr

/-- Result of one iteration of the select loop. -/
inductive Step where
  /-- the loop goes round again; `sent` lists the limiters whose channel got a send -/
  | next (m : rLimiterMap) (sent : List Routine)
  /-- the `return` of the `ctx.Done()` case -/
  | stop (m : rLimiterMap)
  /-- the goroutine panics -/
  | panic
  /-- the inner registration loop did not finish within its fuel -/
  | diverge
deriving DecidableEq, Repr

/-- The inner `for` of `case l = <-registerCh`: starting from `l.r = r` and byte `e`, append
`string(e)` and increment `e` while the name is a key of `rLimit`. -/
def uniqueLabel (m : rLimiterMap) : Nat → Routine → Nat → Option Routine
  | 0, _, _ => none
  | fuel + 1, r, e =>
    match lookup m r with
    | none => some r
    | some _ => uniqueLabel m fuel (r.push (Char.ofNat e)) ((e + 1) % 256)

/-- Body of `case r = <-rAskCh` on the limiter found: `wg.Add(1)`, then grant or wait.
The flag tells whether `l.ch <- struct{}{}` was executed. -/
def rAsk (l : Limiter) : Limiter × Bool :=
  let l1 := { l with wg := l.wg + 1 }
  if l1.rCnt < l1.c then ({ l1 with rCnt := l1.rCnt + 1 }, true)
  else ({ l1 with rWait := l1.rWait + 1 }, false)

/-- Body of `case r = <-EndCh` on the limiter found.  `wg.Done()` panics when the counter
would become negative (`none`). -/
def rEnd (l : Limiter) : Option (Limiter × Bool) :=
  if l.wg - 1 < 0 then none
  else
    let l1 := { l with wg := l.wg - 1, rCnt := l.rCnt - 1 }
    if 0 < l1.rWait ∧ l1.rCnt < l1.c then
      some ({ l1 with rCnt := l1.rCnt + 1, rWait := l1.rWait - 1 }, true)
    else some (l1, false)

/-- Go: `math.MaxInt64`, the largest `int`. -/
def maxInt : Int := 9223372036854775807

/-- Go: `math.MinInt64`, the least `int`. -/
def minInt : Int := -9223372036854775808

/-- The value a 64-bit `int` takes for the mathematical result `x` of an addition: `x`
modulo 2^64, in the range from `minInt` to `maxInt`. -/
def wrapInt (x : Int) : Int :=
  (x + 9223372036854775808) % 18446744073709551616 - 9223372036854775808

/-- Body of the `for _, v := range allr` loop of `case r = <-throttleDownCh`. -/
def throttleDown (t0 : Int) (v : Limiter) : Limiter :=
  if t0 - v.throttleDownActioned < v.hold then v
  else if t0 - v.throttleUpActioned < v.hold then v
  else
    let v1 := { v with c := v.c - v.down, throttleDownActioned := t0 }
    if v1.c < v1.minc then { v1 with c := v1.minc } else v1

/-- Body of the `for _, v := range allr` loop of `case r = <-throttleUpCh`; `v.c += v.up`
is an addition of two `int`s and wraps. -/
def throttleUp (t0 : Int) (v : Limiter) : Limiter :=
  if t0 - v.throttleDownActioned < v.hold then v
  else if t0 - v.throttleUpActioned < v.hold then v
  else
    let v1 := { v with c := wrapInt (v.c + v.up), throttleUpActioned := t0 }
    if v1.maxc < v1.c then { v1 with c := v1.maxc } else v1

/-- The throttle cases build `allr`: the whole map for `"__all"`, else the single entry
`allr[r] = rLimit[r]`, whose nil pointer (unknown `r`) is dereferenced by the loop body. -/
def throttle (f : Limiter → Limiter) (m : rLimiterMap) (r : Routine) : Step :=
  if r = "__all" then .next (m.map (fun p => (p.1, f p.2))) []
  else
    match lookup m r with
    | some v => .next (store m r (f v)) []
    | none => .panic

/-- One iteration of the `for { select { ... } }` loop of `PowerOn`. -/
def step (m : rLimiterMap) : Event → Step
  | .register r c down up min hold t0 =>
    match uniqueLabel m (m.length + 1) r 65 with
    | some r1 => .next (store m r1 { newLimiter r c down up min hold t0 with r := r1 }) []
    | none => .diverge
  | .EndCh r =>
    match lookup m r with
    | some l =>
      match rEnd l with
      | some (l1, sent) => .next (store m r l1) (if sent then [r] else [])
      | none => .panic
    | none => .panic
  | .rAskCh r =>
    match lookup m r with
    | some l => .next (store m r (rAsk l).1) (if (rAsk l).2 then [r] else [])
    | none => .panic
  | .throttleDownCh r t0 => throttle (throttleDown t0) m r
  | .throttleUpCh r t0 => throttle (throttleUp t0) m r
  | .unRegisterCh r => .next (delete m r) []
  | .ctxDone => .stop m

/-- The loop run over a finite sequence of messages; notifications are concatenated.  No
message is processed after a `stop`, `panic` or `diverge`. -/
def run : rLimiterMap → List Event → Step
  | m, [] => .next m []
  | m, e :: es =>
    match step m e with
    | .next m1 s1 =>
      match run m1 es with
      | .next m2 s2 => .next m2 (s1 ++ s2)
      | other => other
    | other => other

/-- Go: `PowerOn`, from `rLimit = make(rLimiterMap)`. -/
def PowerOn (es : List Event) : Step := run [] es

/-- The throttle message of a direction: `throttleUpCh` when `up`, else `throttleDownCh`. -/
def throttleMsg (up : Bool) (r : Routine) (t0 : Int) : Event :=
  if up then .throttleUpCh r t0 else .throttleDownCh r t0

/-- After a throttle action applied at `t1` to a limiter with hold `h ≥ 0`, one of the two
timestamps is at or after `t1`. -/
def HeldSince (h t1 : Int) (l : Limiter) : Prop :=
  l.hold = h ∧ 0 ≤ h ∧ (t1 ≤ l.throttleDownActioned ∨ t1 ≤ l.throttleUpActioned)

/-- The limiter after ThrottleDown loop bodies at the times `ts`, in order. -/
def throttleDowns (l : Limiter) (ts : List Int) : Limiter :=
  ts.foldl (fun v t => throttleDown t v) l

/-- Each ThrottleDown of the sequence finds both hold checks passed when it is processed. -/
def downsApplied : Limiter → List Int → Bool
  | _, [] => true
  | l, t :: ts =>
    decide (l.hold ≤ t - l.throttleDownActioned ∧ l.hold ≤ t - l.throttleUpActioned) &&
      downsApplied (throttleDown t l) ts

/-- Number of keys of the map with at least `n` characters. -/
def longKeys (m : rLimiterMap) (n : Nat) : Nat :=
  m.countP (fun p => decide (n ≤ p.1.length))

/-- Every limiter held by the map satisfies `P`. -/
def AllLimiters (P : Limiter → Prop) (m : rLimiterMap) : Prop :=
  ∀ r l, lookup m r = some l → P l

/-- The name the specification gives a colliding registration: `n` followed by the first
`k` characters of the sequence with values 65, 66, ... modulo 256. -/
def suffixed (n : Routine) (k : Nat) : Routine :=
  ⟨n.data ++ (List.range k).map (fun i => Char.ofNat ((65 + i) % 256))⟩

/-- The keys of the map. -/
def keys (m : rLimiterMap) : List Routine := m.map Prod.fst

/-- The messages `NewConfig` sends on `registerCh`: none when `time.ParseDuration` fails
(the `panic(err)` comes first), else the one `registerCh <- &l`. -/
def NewConfigSends (parseDuration : String → Option Int) (t0 : Int) (r : String) (c : Int)
    (down up : Int) (min : Int) (h : String) : List Event :=
  match parseDuration h with
  | none => []
  | some hold => [.register r c down up min hold t0]

/-- A limiter registered with ceiling `c` and floor `min` whose ThrottleUp addition stays
within 64 bits: both bounds as registered, the ceiling between them, non-negative steps,
`min` an `int` and `c + up` at most the largest `int`. -/
def CeilingFixed (c min : Int) (l : Limiter) : Prop :=
  l.maxc = c ∧ l.minc = min ∧ min ≤ l.c ∧ l.c ≤ c ∧ 0 ≤ l.down ∧ 0 ≤ l.up ∧
    minInt ≤ min ∧ c + l.up ≤ maxInt

/-- Counters of a limiter on which `Wait()` and the active count agree: both counters
non-negative, the WaitGroup counter their sum, and nobody waiting while nobody is
admitted. -/
def DrainOk (l : Limiter) : Prop :=
  0 ≤ l.rCnt ∧ 0 ≤ l.rWait ∧ l.wg = l.rCnt + l.rWait ∧ (l.rWait ≤ 0 ∨ 1 ≤ l.rCnt)

/-- The limiter held under `r`, if there is one, has a ceiling of at least 1. -/
def ceilingPositive (m : rLimiterMap) (r : Routine) : Bool :=
  match lookup m r with
  | some l => decide (1 ≤ l.c)
  | none => true

/-- The ceiling of the limiter held under `r` stays at least 1 while the loop processes
`es` from the registry `m`: it is at least 1 in `m` and in every state the loop passes
through. -/
def ceilingStays (r : Routine) : rLimiterMap → List Event → Bool
  | m, [] => ceilingPositive m r
  | m, e :: es =>
    ceilingPositive m r &&
      match step m e with
      | .next m1 _ => ceilingStays r m1 es
      | _ => true

/-- The registry and the notifications an iteration of the loop leaves behind when it
completes: the loop goes round again, or `PowerOn` returns from the `ctx.Done()` case, which
writes nothing and sends nothing.  A panic leaves no state. -/
def Step.after : Step → Option (rLimiterMap × List Routine)
  | .next m sent => some (m, sent)
  | .stop m => some (m, [])
  | .panic => none
  | .diverge => none

/-- The number of waiters the registry records for a name: `rWait` of the limiter held under
the name, and none, that is 0, for a name that has no limiter. -/
def waiters (m : rLimiterMap) (r : Routine) : Int :=
  match lookup m r with
  | some l => l.rWait
  | none => 0

/-- The events that are to leave `rCnt` of the limiter held under `r` as it is: the two
throttle messages, a registration, the Unregister of another name, the shutdown, and an
Acquire that sends no notification. -/
def leavesActive (r : Routine) (e : Event) (sent : List Routine) : Bool :=
  match e with
  | .register _ _ _ _ _ _ _ => true
  | .EndCh _ => false
  | .rAskCh _ => decide (sent = [])
  | .throttleDownCh _ _ => true
  | .throttleUpCh _ _ => true
  | .unRegisterCh q => decide (q ≠ r)
  | .ctxDone => true

/-! ### Logging (`log.go`)

The `*log.Logger` is nil or a logger, known by its prefix; what it prints is recorded, and
`Print` itself is taken not to fail.  `LogLvl` is an `int` with `Alert = 0`, `Debug = 1`,
`NoLog = 2`. -/

/-- The package variables `logr`, `logLvl`, `errlogr` (set or not), the lines printed
through `logr`, and the calls made to `errlogr`. -/
structure LogState where
  logr : Option String
  logLvl : Int
  errlogr : Bool
  out : List String
  errs : List (String × String)
deriving DecidableEq, Repr

/-- How a call into `log.go` ends: it returns, it panics, or `logr.Fatal` exits the process
after printing. -/
inductive LogResult where
  | ok (st : LogState)
  | panic
  | exit (st : LogState)
deriving DecidableEq, Repr

/-- Go: `SetLogger`; `level` is the variadic argument. -/
def SetLogger (st : LogState) (lg : Option String) (level : List Int) : LogResult :=
  if 1 < level.length then .panic
  else
    let lvl : Int := match level with
      | [] => 0
      | l0 :: _ => l0
    .ok { st with logr := lg, logLvl := lvl }

/-- Go: `logErr`. -/
def logErr (st : LogState) (e : String) : LogResult :=
  match st.logr with
  | none => .panic
  | some pfx =>
    let st1 := if st.errlogr then { st with errs := st.errs ++ [(pfx, e)] } else st
    .ok { st1 with out := st1.out ++ ["|error|" ++ e] }

/-- Go: `LogFail`. -/
def LogFail (st : LogState) (e : String) : LogResult :=
  match st.logr with
  | none => .panic
  | some pfx =>
    let st1 := if st.errlogr then { st with errs := st.errs ++ [(pfx, e)] } else st
    .exit { st1 with out := st1.out ++ ["|fatal|" ++ e] }

/-- Go: `logDebug`. -/
def logDebug (st : LogState) (s : String) : LogResult :=
  match st.logr with
  | none => .panic
  | some _ => if st.logLvl = 1 then .ok { st with out := st.out ++ ["|info|" ++ s] } else .ok st

/-- Go: `logAlert`. -/
def logAlert (st : LogState) (s : String) : LogResult :=
  match st.logr with
  | none => .panic
  | some _ => if st.logLvl ≤ 1 then .ok { st with out := st.out ++ ["|alert|" ++ s] } else .ok st

/-! ### The statistics variant (`grmgr.go`): sampling and `report`

Maps that are only read at a key and ranged over to update each entry on its own are
functions from keys to optional values.  `reportLoop` and `report` carry the quotient
`float64(sum) / float64(kk)` as the exact rational quotient of the two integers, which is
what the code computes whenever that quotient is a double (a whole number below 2^53, as
for equal samples, or zero); `reportLoopF64` and `reportF64` carry it rounded to a double. -/

/-- Go: `snapInterval = 2`. -/
def snapInterval : Nat := 2

/-- Go: `snapReportInterval = 10`. -/
def snapReportInterval : Nat := 10

/-- Go: `reportInterval`. -/
def reportInterval : List Nat := [10, 20, 40, 60, 120, 180, 300, 600, 1200, 2400, 3600, 7200]

/-- Go: `numSamplesAtRepInterval`, as filled by `init`. -/
def numSamplesAtRepInterval : List Nat := reportInterval.map (fun v => v / snapInterval)

/-- The map `sample` that `report` puts in `reportAvg[k]`: key `v / snapInterval` with value
`float64(0)` for every `v` of `reportInterval`. -/
def sampleInit (snapInterval : Nat) : Nat → Option ℚ :=
  fun i => if i ∈ reportInterval.map (fun v => v / snapInterval) then some 0 else none

/-- The loop `for i := len(v); i > 0; i--` of `report` on the samples still to visit
(newest first), with the running `ii`, `sum`, `reportAvg[k]` and `snap[k]`.  An average is
written when `ii` is a key of `reportAvg[k]`; `snap[k] = v[1:]` when `ii` is the last
entry of `ns`. -/
def reportLoop (v : List Int) (last : Nat) :
    List Int → Nat → Int → (Nat → Option ℚ) → List Int → (Nat → Option ℚ) × List Int
  | [], _, _, avg, sk => (avg, sk)
  | x :: rest, ii, sum, avg, sk =>
    let avg1 := if (avg (ii + 1)).isSome then
        Function.update avg (ii + 1) (some (((sum + x : Int) : ℚ) / ((ii + 1 : Nat) : ℚ)))
      else avg
    let sk1 := if ii + 1 = last then v.tail else sk
    reportLoop v last rest (ii + 1) (sum + x) avg1 sk1

/-- Go: `report`, up to the hand-over to the database: the map `reportAvg` and the map
`snap` as the loop leaves it.  `ns[len(ns)-1]` is the last entry of
`numSamplesAtRepInterval`. -/
def report (snap : Routine → Option (List Int)) (snapInterval : Nat) :
    (Routine → Option (Nat → Option ℚ)) × (Routine → Option (List Int)) :=
  (fun k => (snap k).map (fun v =>
      (reportLoop v (numSamplesAtRepInterval.getLastD 0) v.reverse 0 0
        (sampleInit snapInterval) v).1),
    fun k => (snap k).map (fun v =>
      (reportLoop v (numSamplesAtRepInterval.getLastD 0) v.reverse 0 0
        (sampleInit snapInterval) v).2))

/-! #### The quotient as a `float64`

`float64(sum) / float64(kk)` is a division of two IEEE 754 doubles: each conversion and the
division give the double nearest to the exact result, a tie going to the even mantissa.  A
double is kept as its mantissa and binary exponent, `m * 2 ^ e` with `2 ^ 52 ≤ |m| < 2 ^ 53`
(or `m = 0`); the exponent is not bounded, which is the double for every magnitude in the
normal range, as are all quotients of an `int` sum by a sample count. -/

/-- The integer part of the binary logarithm of `n ≥ 1`, by at most `fuel` halvings. -/
def log2Floor : Nat → Nat → Nat
  | 0, _ => 0
  | fuel + 1, n => if n < 2 then 0 else log2Floor fuel (n / 2) + 1

/-- The natural number nearest to `N / D`, a tie going to the even one. -/
def roundHalfEven (N D : Nat) : Nat :=
  if 2 * (N % D) < D then N / D
  else if D < 2 * (N % D) then N / D + 1
  else if (N / D) % 2 = 0 then N / D else N / D + 1

/-- The exponent `e` with `2 ^ 52 ≤ (N / D) / 2 ^ e < 2 ^ 53`, for `N, D ≥ 1`. -/
def f64Exp (N D : Nat) : Int :=
  let e0 : Int := (log2Floor N N : Int) - (log2Floor D D : Int) - 52
  if N * 2 ^ (-e0).toNat < 2 ^ 52 * (D * 2 ^ e0.toNat) then e0 - 1 else e0

/-- The double nearest to `N / D`, for `N, D ≥ 1`: `N / D` scaled by `2 ^ e` into the range
of a 53-bit mantissa, rounded to a whole number, and normalised when the rounding reaches
`2 ^ 53`. -/
def f64Pos (N D : Nat) : Nat × Int :=
  let e := f64Exp N D
  let m := roundHalfEven (N * 2 ^ (-e).toNat) (D * 2 ^ e.toNat)
  if m = 2 ^ 53 then (2 ^ 52, e + 1) else (m, e)

/-- The double nearest to `num / den`, as mantissa and exponent; `(0, 0)` is zero. -/
def f64Parts (num : Int) (den : Nat) : Int × Int :=
  if num = 0 ∨ den = 0 then (0, 0)
  else (num.sign * ((f64Pos num.natAbs den).1 : Int), (f64Pos num.natAbs den).2)

/-- Go: the conversion `float64(x)` of an `int`. -/
def float64 (x : Int) : Int × Int := f64Parts x 1

/-- Go: `a / b` on `float64`, for `b` other than zero. -/
def f64Div (a b : Int × Int) : Int × Int :=
  ((f64Parts (a.1 * b.1.sign) b.1.natAbs).1,
    (f64Parts (a.1 * b.1.sign) b.1.natAbs).2 + a.2 - b.2)

/-- The rational number a double stands for. -/
def f64Val (p : Int × Int) : ℚ := (p.1 : ℚ) * (2 : ℚ) ^ p.2

/-- Go: `float64(sum) / float64(kk)`. -/
def avgF64 (sum : Int) (kk : Nat) : ℚ := f64Val (f64Div (float64 sum) (float64 (kk : Int)))

/-- The loop of `report` as `reportLoop`, with the average written as the double the code
computes, `float64(sum) / float64(kk)`, where `reportLoop` writes the exact quotient. -/
def reportLoopF64 (v : List Int) (last : Nat) :
    List Int → Nat → Int → (Nat → Option ℚ) → List Int → (Nat → Option ℚ) × List Int
  | [], _, _, avg, sk => (avg, sk)
  | x :: rest, ii, sum, avg, sk =>
    let avg1 := if (avg (ii + 1)).isSome then
        Function.update avg (ii + 1) (some (avgF64 (sum + x) (ii + 1)))
      else avg
    let sk1 := if ii + 1 = last then v.tail else sk
    reportLoopF64 v last rest (ii + 1) (sum + x) avg1 sk1

/-- Go: `report` as `report`, with the averages as the doubles the code computes. -/
def reportF64 (snap : Routine → Option (List Int)) (snapInterval : Nat) :
    (Routine → Option (Nat → Option ℚ)) × (Routine → Option (List Int)) :=
  (fun k => (snap k).map (fun v =>
      (reportLoopF64 v (numSamplesAtRepInterval.getLastD 0) v.reverse 0 0
        (sampleInit snapInterval) v).1),
    fun k => (snap k).map (fun v =>
      (reportLoopF64 v (numSamplesAtRepInterval.getLastD 0) v.reverse 0 0
        (sampleInit snapInterval) v).2))

/-- The variables of the statistics `PowerOn` that the `snapCh` case reads and writes. -/
structure Snapshots where
  rCnt : Routine → Option Int
  csnap : Routine → Option (List Int)
  csnap_ : Routine → Option (List Int)
  s : Nat
  rsnap : Nat

/-- The statistics `PowerOn` before its loop: empty maps, `s` and `rsnap` zero. -/
def Snapshots.init : Snapshots :=
  { rCnt := fun _ => none, csnap := fun _ => none, csnap_ := fun _ => none, s := 0, rsnap := 0 }

/-- Body of `case <-snapCh`; the second component is the `reportAvg` of the call of
`report`, when it is called. -/
def snapCh (st : Snapshots) : Snapshots × Option (Routine → Option (Nat → Option ℚ)) :=
  let s := st.s + 1
  let rsnap := st.rsnap + snapInterval
  let csnap : Routine → Option (List Int) := fun k =>
    match st.rCnt k with
    | some v => some ((st.csnap k).getD [] ++ [v])
    | none => st.csnap k
  if rsnap = snapReportInterval then
    let csnap_ : Routine → Option (List Int) := fun k =>
      match csnap k with
      | some v =>
        if v.length < s then st.csnap_ k
        else some ((st.csnap_ k).getD [] ++ v.drop (v.length - s))
      | none => st.csnap_ k
    let rep := report csnap_ snapInterval
    ({ rCnt := st.rCnt, csnap := csnap, csnap_ := rep.2, s := 0, rsnap := 0 }, some rep.1)
  else ({ rCnt := st.rCnt, csnap := csnap, csnap_ := st.csnap_, s := s, rsnap := rsnap }, none)

/-- A run of sampling ticks.  Each tick comes with the map `rCnt` as the other handlers
have left it by then; those handlers are taken not to touch `csnap`, `csnap_`, `s` and
`rsnap` (no Unregister between the ticks).  The list holds what each tick reported. -/
def snapRun : Snapshots → List (Routine → Option Int) →
    Snapshots × List (Option (Routine → Option (Nat → Option ℚ)))
  | st, [] => (st, [])
  | st, rc :: rest =>
    let r1 := snapCh { st with rCnt := rc }
    let r2 := snapRun r1.1 rest
    (r2.1, r1.2 :: r2.2)

/-- Number of samples a history map holds for `k`. -/
def histLen (h : Routine → Option (List Int)) (k : Routine) : Nat := ((h k).getD []).length

/-- Number of samples `csnap_` holds for a limiter sampled since the start, after `j`
calls of `report`: five are appended before each call, and the call drops one when it
finds 3600 or more. -/
def flushLen : Nat → Nat
  | 0 => 0
  | j + 1 => if 3600 ≤ flushLen j + 5 then flushLen j + 4 else flushLen j + 5

/-- Go: `col` of `report`, the names of the columns that hold the averages. -/
def col : List String :=
  ["s10", "s20", "s40", "m1", "m2", "m3", "m5", "m10", "m20", "m40", "h1", "h2"]

/-- The members `report` adds to the merge of one limiter, `m.AddMember(c, v[ns[i]])` for
`i, c := range col`; indexing the map `v` at an absent key gives `0`. -/
def mergeMembers (v : Nat → Option ℚ) : List (String × ℚ) :=
  (List.zip col numSamplesAtRepInterval).map (fun p => (p.1, (v p.2).getD 0))

/-- Assignment `m[r] = v` (`some`) or `delete(m, r)` (`none`) on a map kept as a function. -/
def setAt {α : Type} (m : Routine → Option α) (r : Routine) (v : Option α) :
    Routine → Option α :=
  fun k => if k = r then v else m k

/-- The zero `time.Time`, in nanoseconds from the Unix epoch: the value of the package
variables `throttleDownActioned` and `throttleUpActioned` before any throttle message. -/
def zeroTime : Int := -62135596800000000000

namespace Stats

/-- Go (`grmgr.go`): `type Limiter struct`; the counters are in the maps `rCnt` and `rWait`. -/
structure Limiter where
  r : Routine
  or : Routine
  c : Int
  maxc : Int
  minc : Int
  up : Int
  down : Int
  hold : Int
  on_ : Bool
deriving DecidableEq, Repr

/-- The variables of the statistics `PowerOn` and the package variables its loop uses.
`reportOn` tells whether the snapshot goroutine, the only caller of `wgSnap.Done()`, was
started. -/
structure Actor extends Snapshots where
  rLimit : Routine → Option Limiter
  rWait : Routine → Option Int
  throttleDownActioned : Int
  throttleUpActioned : Int
  reportOn : Bool

/-- The messages of the statistics loop.  `register` carries the arguments of `NewConfig`,
the strings the calls of `uuid.MakeUID` would return, and a bound on the iterations of the
uniqueness loop that are followed. -/
inductive Event where
  | register (r : Routine) (c down up min hold : Int) (uid : Nat → Routine) (fuel : Nat)
  | EndCh (r : Routine)
  | rAskCh (r : Routine)
  | throttleDownCh (r : Routine) (t0 : Int)
  | throttleUpCh (r : Routine) (t0 : Int)
  | snapCh
  | unRegisterCh (r : Routine)
  | ctxDone

/-- Result of one iteration of the statistics loop. -/
inductive Step where
  /-- the loop goes round again; `rep` is the `reportAvg` of a call of `report` -/
  | next (st : Actor) (sent : List Routine) (rep : Option (Routine → Option (Nat → Option ℚ)))
  /-- the function returns; no case of this variant has a `return` -/
  | stop (st : Actor)
  /-- the goroutine panics -/
  | panic
  /-- the uniqueness loop did not finish within the bound -/
  | diverge
  /-- the goroutine blocks for ever in `wgSnap.Wait()` -/
  | hang

/-- The state a step continues with, if it does. -/
def Step.state : Step → Option Actor
  | .next st _ _ => some st
  | _ => none

/-- The notifications a step sent, if it continues. -/
def Step.sent : Step → List Routine
  | .next _ s _ => s
  | _ => []

/-- The `reportAvg` a step produced, if any. -/
def Step.rep : Step → Option (Routine → Option (Nat → Option ℚ))
  | .next _ _ rep => rep
  | _ => none

/-- The inner `for` of `case l = <-registerCh` in `grmgr.go`: while the name is a key, append
`string(e)`, increment `e`, and once `e > 175` replace the name by a fresh UUID (the `n`-th
one). -/
def uniqueLabel (rLimit : Routine → Option Limiter) (uid : Nat → Routine) :
    Nat → Routine → Nat → Nat → Option Routine
  | 0, _, _, _ => none
  | fuel + 1, r, e, n =>
    match rLimit r with
    | none => some r
    | some _ =>
      if 175 < (e + 1) % 256 then uniqueLabel rLimit uid fuel (uid n) ((e + 1) % 256) (n + 1)
      else uniqueLabel rLimit uid fuel (r.push (Char.ofNat e)) ((e + 1) % 256) n

/-- Body of the loop `for _, v := range rLimit` of `case r = <-throttleDownCh`; the two
timestamps are the package variables. -/
def throttleDown (downAt upAt t0 : Int) (v : Limiter) : Limiter :=
  if t0 - downAt < v.hold then v
  else if t0 - upAt < v.hold then v
  else
    let v1 := { v with c := v.c - v.down }
    if v1.c < v1.minc then { v1 with c := v1.minc } else v1

/-- Body of the loop `for _, v := range rLimit` of `case r = <-throttleUpCh`. -/
def throttleUp (downAt upAt t0 : Int) (v : Limiter) : Limiter :=
  if t0 - downAt < v.hold then v
  else if t0 - upAt < v.hold then v
  else
    let v1 := { v with c := wrapInt (v.c + v.up) }
    if v1.maxc < v1.c then { v1 with c := v1.maxc } else v1

/-- One iteration of the `for { select { ... } }` loop of the statistics `PowerOn`.  The
throttle cases build `allr` from the name received and then range over `rLimit`; they
assign the timestamp after the loop. -/
def step (st : Actor) : Event → Step
  | .register r c down up min hold uid fuel =>
    match uniqueLabel st.rLimit uid fuel r 65 0 with
    | none => .diverge
    | some r1 =>
      let l : Limiter :=
        { r := r1, or := r, c := c, maxc := c, minc := min, up := up, down := down,
          hold := hold, on_ := true }
      .next { st with
          rLimit := setAt st.rLimit r1 (some l)
          rCnt := setAt st.rCnt r1 (some 0)
          rWait := setAt st.rWait r1 (some 0) } [] none
  | .EndCh r =>
    let cnt := (st.rCnt r).getD 0 - 1
    let st1 : Actor := { st with rCnt := setAt st.rCnt r (some cnt) }
    match st.rWait r with
    | none => .next st1 [] none
    | some b =>
      if 0 < b then
        match st.rLimit r with
        | none => .panic
        | some l =>
          if cnt < l.c then
            .next { st1 with
                rCnt := setAt st1.rCnt r (some (cnt + 1))
                rWait := setAt st1.rWait r (some (b - 1)) } [r] none
          else .next st1 [] none
      else .next st1 [] none
  | .rAskCh r =>
    match st.rLimit r with
    | none => .panic
    | some l =>
      if (st.rCnt r).getD 0 < l.c then
        .next { st with rCnt := setAt st.rCnt r (some ((st.rCnt r).getD 0 + 1)) } [r] none
      else
        .next { st with rWait := setAt st.rWait r (some ((st.rWait r).getD 0 + 1)) } [] none
  | .throttleDownCh _ t0 =>
    .next { st with
        rLimit := fun k =>
          (st.rLimit k).map (throttleDown st.throttleDownActioned st.throttleUpActioned t0)
        throttleDownActioned := t0 } [] none
  | .throttleUpCh _ t0 =>
    .next { st with
        rLimit := fun k =>
          (st.rLimit k).map (throttleUp st.throttleDownActioned st.throttleUpActioned t0)
        throttleUpActioned := t0 } [] none
  | .snapCh =>
    .next { st with toSnapshots := (snapCh st.toSnapshots).1 } [] (snapCh st.toSnapshots).2
  | .unRegisterCh r =>
    .next { st with
        rLimit := setAt st.rLimit r none
        rCnt := setAt st.rCnt r none
        rWait := setAt st.rWait r none
        csnap := setAt st.csnap r none } [] none
  | .ctxDone => if st.reportOn then .next st [] none else .hang

/-- The statistics loop over a finite sequence of messages: notifications are concatenated
and the latest `reportAvg` is kept. -/
def run : Actor → List Event → Step
  | st, [] => .next st [] none
  | st, e :: es =>
    match step st e with
    | .next st1 s1 rep1 =>
      match run st1 es with
      | .next st2 s2 rep2 => .next st2 (s1 ++ s2) (if rep2.isSome then rep2 else rep1)
      | other => other
    | other => other

/-- Go (`grmgr.go`): `PowerOn`, from empty maps and zero timestamps; `reportOn` is what the
configuration made of it. -/
def PowerOn (reportOn : Bool) (es : List Event) : Step :=
  run { toSnapshots := Snapshots.init, rLimit := fun _ => none, rWait := fun _ => none,
        throttleDownActioned := zeroTime, throttleUpActioned := zeroTime,
        reportOn := reportOn } es

end Stats

/-! ## The map operations -/

theorem lookup_store_self (m : rLimiterMap) (r : Routine) (l : Limiter) :
    lookup (store m r l) r = some l := by
  induction m with
  | nil => simp [store, lookup]
  | cons p m ih =>
    obtain ⟨k, v⟩ := p
    by_cases hk : k = r
    · simp [store, lookup, hk]
    · simp [store, lookup, hk, ih]

theorem lookup_store_ne (m : rLimiterMap) (r q : Routine) (l : Limiter) (h : q ≠ r) :
    lookup (store m r l) q = lookup m q := by
  induction m with
  | nil =>
    have h1 : ¬ r = q := fun e => h e.symm
    simp [store, lookup, h1]
  | cons p m ih =>
    obtain ⟨k, v⟩ := p
    by_cases hk : k = r
    · have h1 : ¬ k = q := fun e => h (e.symm.trans hk)
      simp [store, lookup, hk, h1]
      subst hk
      simp [h1]
    · by_cases hq : k = q
      · subst hq
        simp [store, lookup, hk]
      · simp [store, lookup, hk, hq, ih]

theorem lookup_map (f : Limiter → Limiter) (m : rLimiterMap) (r : Routine) :
    lookup (m.map (fun p => (p.1, f p.2))) r = (lookup m r).map f := by
  induction m with
  | nil => simp [lookup]
  | cons p m ih =>
    obtain ⟨k, v⟩ := p
    by_cases hk : k = r
    · simp [lookup, hk]
    · simp [lookup, hk, ih]

theorem lookup_delete_self (m : rLimiterMap) (r : Routine) : lookup (delete m r) r = none := by
  induction m with
  | nil => simp [delete, lookup]
  | cons p m ih =>
    obtain ⟨k, v⟩ := p
    by_cases hk : k = r
    · simp [delete, hk, ih]
    · simp [delete, lookup, hk, ih]

theorem lookup_delete_ne (m : rLimiterMap) (r q : Routine) (h : q ≠ r) :
    lookup (delete m r) q = lookup m q := by
  induction m with
  | nil => simp [delete, lookup]
  | cons p m ih =>
    obtain ⟨k, v⟩ := p
    by_cases hk : k = r
    · have h1 : ¬ k = q := fun e => h (e.symm.trans hk)
      simp [delete, lookup, hk, ih]
      subst hk
      simp [h1]
    · by_cases hq : k = q
      · subst hq
        simp [delete, lookup, hk]
      · simp [delete, lookup, hk, hq, ih]

theorem store_lookup_self (m : rLimiterMap) (r : Routine) (l : Limiter)
    (h : lookup m r = some l) : store m r l = m := by
  induction m with
  | nil => simp [lookup] at h
  | cons p m ih =>
    obtain ⟨k, v⟩ := p
    by_cases hk : k = r
    · simp [lookup, hk] at h
      simp [store, hk, h]
    · simp [lookup, hk] at h
      simp [store, hk, ih h]

theorem store_store (m : rLimiterMap) (r : Routine) (a b : Limiter) :
    store (store m r a) r b = store m r b := by
  induction m with
  | nil => simp [store]
  | cons p m ih =>
    obtain ⟨k, v⟩ := p
    by_cases hk : k = r
    · simp [store, hk]
    · simp [store, hk, ih]

/-! ## Runs -/

theorem run_cons_next (m m1 : rLimiterMap) (e : Event) (es : List Event) (s1 : List Routine)
    (h : step m e = .next m1 s1) :
    run m (e :: es) =
      match run m1 es with
      | .next m2 s2 => .next m2 (s1 ++ s2)
      | other => other := by
  simp [run, h]

theorem run_append (es1 es2 : List Event) : ∀ (m m1 : rLimiterMap) (s1 : List Routine),
    run m es1 = .next m1 s1 →
    run m (es1 ++ es2) =
      match run m1 es2 with
      | .next m2 s2 => .next m2 (s1 ++ s2)
      | other => other := by
  induction es1 with
  | nil =>
    intro m m1 s1 h
    simp [run] at h
    obtain ⟨rfl, rfl⟩ := h
    cases hr : run m es2 <;> simp [hr]
  | cons e es ih =>
    intro m m1 s1 h
    cases hs : step m e with
    | next ma sa =>
      rw [run_cons_next m ma e es sa hs] at h
      cases hr : run ma es with
      | next mb sb =>
        rw [hr] at h
        simp at h
        obtain ⟨rfl, rfl⟩ := h
        rw [List.cons_append, run_cons_next m ma e (es ++ es2) sa hs, ih ma mb sb hr]
        cases run mb es2 <;> simp
      | stop mb => rw [hr] at h; simp at h
      | panic => rw [hr] at h; simp at h
      | diverge => rw [hr] at h; simp at h
    | stop ma => simp [run, hs] at h
    | panic => simp [run, hs] at h
    | diverge => simp [run, hs] at h

/-! ## Registration: the uniqueness loop finishes -/

theorem longKeys_le_length (m : rLimiterMap) (n : Nat) : longKeys m n ≤ m.length :=
  List.countP_le_length _

theorem longKeys_succ_le (m : rLimiterMap) (n : Nat) : longKeys m (n + 1) ≤ longKeys m n := by
  induction m with
  | nil => simp [longKeys]
  | cons p m ih =>
    simp only [longKeys, List.countP_cons] at ih ⊢
    by_cases h1 : n + 1 ≤ p.1.length
    · have h0 : n ≤ p.1.length := by omega
      simp [h1, h0, ih]
    · by_cases h0 : n ≤ p.1.length
      · simp [h1, h0]; omega
      · simp [h1, h0, ih]

theorem longKeys_lt_of_lookup (m : rLimiterMap) (r : Routine) (l : Limiter)
    (h : lookup m r = some l) : longKeys m (r.length + 1) < longKeys m r.length := by
  induction m with
  | nil => simp [lookup] at h
  | cons p m ih =>
    obtain ⟨k, v⟩ := p
    by_cases hk : k = r
    · subst hk
      have := longKeys_succ_le m k.length
      simp only [longKeys, List.countP_cons] at this ⊢
      simp
      omega
    · simp [lookup, hk] at h
      have := ih h
      simp only [longKeys, List.countP_cons] at this ⊢
      by_cases h1 : r.length + 1 ≤ k.length
      · have h0 : r.length ≤ k.length := by omega
        simp [h1, h0, this]
      · by_cases h0 : r.length ≤ k.length
        · simp [h1, h0]; omega
        · simp [h1, h0, this]

/-- With more fuel than there are keys at least as long as the candidate, the uniqueness
loop returns a name, and that name is not a key of the map. -/
theorem uniqueLabel_total (m : rLimiterMap) : ∀ (fuel : Nat) (r : Routine) (e : Nat),
    longKeys m r.length < fuel →
    ∃ r1, uniqueLabel m fuel r e = some r1 ∧ lookup m r1 = none := by
  intro fuel
  induction fuel with
  | zero => intro r e h; omega
  | succ fuel ih =>
    intro r e h
    cases hl : lookup m r with
    | none => exact ⟨r, by simp [uniqueLabel, hl], hl⟩
    | some v =>
      have hlt := longKeys_lt_of_lookup m r v hl
      have hlen : (r.push (Char.ofNat e)).length = r.length + 1 := String.length_push _
      obtain ⟨r1, h1, h2⟩ := ih (r.push (Char.ofNat e)) ((e + 1) % 256) (by rw [hlen]; omega)
      exact ⟨r1, by simp [uniqueLabel, hl, h1], h2⟩

/-- The `registerCh` case always completes: it stores the new limiter under a name that was
free, sends nothing, and the loop continues. -/
theorem step_register (m : rLimiterMap) (r : Routine) (c : Int) (down up : Int)
    (min : Int) (hold t0 : Int) :
    ∃ r1, uniqueLabel m (m.length + 1) r 65 = some r1 ∧ lookup m r1 = none ∧
      step m (.register r c down up min hold t0) =
        .next (store m r1 { newLimiter r c down up min hold t0 with r := r1 }) [] := by
  obtain ⟨r1, h1, h2⟩ := uniqueLabel_total m (m.length + 1) r 65
    (Nat.lt_succ_of_le (longKeys_le_length m r.length))
  exact ⟨r1, h1, h2, by simp [step, h1]⟩

/-! ## Repeated Acquire and Release on one limiter -/

theorem step_rAsk_grant (m : rLimiterMap) (r : Routine) (l : Limiter)
    (h : lookup m r = some l) (hlt : l.rCnt < l.c) :
    step m (.rAskCh r) =
      .next (store m r { l with wg := l.wg + 1, rCnt := l.rCnt + 1 }) [r] := by
  simp [step, h, rAsk, hlt]

theorem step_rAsk_wait (m : rLimiterMap) (r : Routine) (l : Limiter)
    (h : lookup m r = some l) (hge : l.c ≤ l.rCnt) :
    step m (.rAskCh r) =
      .next (store m r { l with wg := l.wg + 1, rWait := l.rWait + 1 }) [] := by
  have hn : ¬ l.rCnt < l.c := not_lt.mpr hge
  simp [step, h, rAsk, hn]

theorem step_rEnd_wake (m : rLimiterMap) (r : Routine) (l : Limiter)
    (h : lookup m r = some l) (hwg : 1 ≤ l.wg) (hw : 0 < l.rWait) (hc : l.rCnt - 1 < l.c) :
    step m (.EndCh r) =
      .next (store m r { l with wg := l.wg - 1, rWait := l.rWait - 1 }) [r] := by
  have h0 : ¬ l.wg - 1 < 0 := by omega
  simp [step, h, rEnd, h0, hw, hc]

/-- While the ceiling is not reached, `n` Acquires are all granted. -/
theorem run_rAsk_grant (r : Routine) : ∀ (n : Nat) (m : rLimiterMap) (l : Limiter),
    lookup m r = some l → l.rCnt + n ≤ l.c →
    run m (List.replicate n (.rAskCh r)) =
      .next (store m r { l with wg := l.wg + n, rCnt := l.rCnt + n }) (List.replicate n r) := by
  intro n
  induction n with
  | zero =>
    intro m l h _
    have e : ({ l with wg := l.wg + (0 : Nat), rCnt := l.rCnt + (0 : Nat) } : Limiter) = l := by
      cases l; simp
    rw [e, store_lookup_self m r l h]
    simp [run]
  | succ n ih =>
    intro m l h hle
    have hlt : l.rCnt < l.c := by push_cast at hle; omega
    have hi := ih (store m r { l with wg := l.wg + 1, rCnt := l.rCnt + 1 })
      { l with wg := l.wg + 1, rCnt := l.rCnt + 1 } (lookup_store_self _ _ _)
      (by push_cast at hle; show l.rCnt + 1 + (n : Int) ≤ l.c; omega)
    rw [List.replicate_succ, run_cons_next _ _ _ _ _ (step_rAsk_grant m r l h hlt), hi]
    simp only [store_store, List.replicate_succ, List.singleton_append]
    congr 3
    · push_cast; omega
    · push_cast; omega

/-- Once the ceiling is reached, `n` further Acquires are all made to wait. -/
theorem run_rAsk_wait (r : Routine) : ∀ (n : Nat) (m : rLimiterMap) (l : Limiter),
    lookup m r = some l → l.c ≤ l.rCnt →
    run m (List.replicate n (.rAskCh r)) =
      .next (store m r { l with wg := l.wg + n, rWait := l.rWait + n }) [] := by
  intro n
  induction n with
  | zero =>
    intro m l h _
    have e : ({ l with wg := l.wg + (0 : Nat), rWait := l.rWait + (0 : Nat) } : Limiter) = l := by
      cases l; simp
    rw [e, store_lookup_self m r l h]
    simp [run]
  | succ n ih =>
    intro m l h hge
    have hi := ih (store m r { l with wg := l.wg + 1, rWait := l.rWait + 1 })
      { l with wg := l.wg + 1, rWait := l.rWait + 1 } (lookup_store_self _ _ _) hge
    rw [List.replicate_succ, run_cons_next _ _ _ _ _ (step_rAsk_wait m r l h hge), hi]
    simp only [store_store, List.nil_append]
    congr 3
    · push_cast; omega
    · push_cast; omega

/-- With the limiter full and `k` callers waiting, `k` Releases wake one waiter each. -/
theorem run_rEnd_wake (r : Routine) : ∀ (k : Nat) (m : rLimiterMap) (l : Limiter),
    lookup m r = some l → (k : Int) ≤ l.rWait → (k : Int) ≤ l.wg → l.rCnt ≤ l.c →
    run m (List.replicate k (.EndCh r)) =
      .next (store m r { l with wg := l.wg - k, rWait := l.rWait - k }) (List.replicate k r) := by
  intro k
  induction k with
  | zero =>
    intro m l h _ _ _
    have e : ({ l with wg := l.wg - (0 : Nat), rWait := l.rWait - (0 : Nat) } : Limiter) = l := by
      cases l; simp
    rw [e, store_lookup_self m r l h]
    simp [run]
  | succ k ih =>
    intro m l h hw hg hc
    push_cast at hw hg
    have hi := ih (store m r { l with wg := l.wg - 1, rWait := l.rWait - 1 })
      { l with wg := l.wg - 1, rWait := l.rWait - 1 } (lookup_store_self _ _ _)
      (by show (k : Int) ≤ l.rWait - 1; omega) (by show (k : Int) ≤ l.wg - 1; omega) hc
    rw [List.replicate_succ,
      run_cons_next _ _ _ _ _ (step_rEnd_wake m r l h (by omega) (by omega) (by omega)), hi]
    simp only [store_store, List.replicate_succ, List.singleton_append]
    congr 3
    · push_cast; omega
    · push_cast; omega

/-! ## Admission and release -/

/-- C1 (Acquire step): for a limiter `l` stored under `r`, the `rAskCh` handler sends exactly
one notification, adds 1 to `rCnt` and keeps `rWait` when `rCnt < c`; it sends nothing, adds
1 to `rWait` and keeps `rCnt` when `c ≤ rCnt`.  In both cases only the WaitGroup counter
changes besides. -/
theorem acquire_step (m : rLimiterMap) (r : Routine) (l : Limiter)
    (h : lookup m r = some l) :
    (l.rCnt < l.c →
      step m (.rAskCh r) =
          .next (store m r { l with wg := l.wg + 1, rCnt := l.rCnt + 1 }) [r] ∧
        ∃ l1, lookup (store m r { l with wg := l.wg + 1, rCnt := l.rCnt + 1 }) r = some l1 ∧
          l1.rCnt = l.rCnt + 1 ∧ l1.rWait = l.rWait) ∧
    (l.c ≤ l.rCnt →
      step m (.rAskCh r) =
          .next (store m r { l with wg := l.wg + 1, rWait := l.rWait + 1 }) [] ∧
        ∃ l1, lookup (store m r { l with wg := l.wg + 1, rWait := l.rWait + 1 }) r = some l1 ∧
          l1.rWait = l.rWait + 1 ∧ l1.rCnt = l.rCnt) := by
  constructor
  · intro hlt
    refine ⟨?_, _, lookup_store_self _ _ _, rfl, rfl⟩
    simp [step, h, rAsk, hlt]
  · intro hge
    have hn : ¬ l.rCnt < l.c := not_lt.mpr hge
    refine ⟨?_, _, lookup_store_self _ _ _, rfl, rfl⟩
    simp [step, h, rAsk, hn]

/-- Witness for C1: a limiter with ceiling 1, admitted once and then made to wait. -/
theorem acquire_step_witness :
    lookup [("a", newLimiter "a" 1 2 1 1 30 0)] "a" = some (newLimiter "a" 1 2 1 1 30 0) ∧
    run [("a", newLimiter "a" 1 2 1 1 30 0)] [.rAskCh "a", .rAskCh "a"] =
      .next [("a", { newLimiter "a" 1 2 1 1 30 0 with wg := 2, rCnt := 1, rWait := 1 })] ["a"] ∧
    step [("a", newLimiter "a" 1 2 1 1 30 0)] (.rAskCh "a") =
      .next (store [("a", newLimiter "a" 1 2 1 1 30 0)] "a"
        { newLimiter "a" 1 2 1 1 30 0 with
          wg := (newLimiter "a" 1 2 1 1 30 0).wg + 1,
          rCnt := (newLimiter "a" 1 2 1 1 30 0).rCnt + 1 }) ["a"] :=
  ⟨by decide, by decide,
    ((acquire_step [("a", newLimiter "a" 1 2 1 1 30 0)] "a" (newLimiter "a" 1 2 1 1 30 0)
      (by decide)).1 (by decide)).1⟩

/-- C2 as stated fails: a Release for a registered limiter with no Acquire outstanding panics
in `wg.Done()`, so `rCnt` is not decremented and the loop does not continue. -/
theorem release_step_unguarded_counterexample :
    PowerOn [.register "a" 5 2 1 1 30 0] = .next [("a", newLimiter "a" 5 2 1 1 30 0)] [] ∧
    PowerOn [.register "a" 5 2 1 1 30 0, .EndCh "a"] = .panic ∧
    ¬ ∃ m1 sent l1, step [("a", newLimiter "a" 5 2 1 1 30 0)] (.EndCh "a") = .next m1 sent ∧
        lookup m1 "a" = some l1 ∧ l1.rCnt = (newLimiter "a" 5 2 1 1 30 0).rCnt - 1 := by
  refine ⟨by decide, by decide, ?_⟩
  rintro ⟨m1, sent, l1, h, -⟩
  have hp : step [("a", newLimiter "a" 5 2 1 1 30 0)] (.EndCh "a") = .panic := by decide
  rw [hp] at h
  cases h

/-- C2 (Release step, amended): for a limiter `l` stored under `r` whose WaitGroup counter is
at least 1, the `EndCh` handler decrements `wg` and `rCnt`; then, if `rWait > 0` and the
decremented `rCnt` is below `c`, it sends exactly one notification, increments `rCnt` and
decrements `rWait`; otherwise it sends nothing and changes nothing else.  So `rCnt` ends
unchanged (a waiter was woken) or one lower (none was). -/
theorem release_step (m : rLimiterMap) (r : Routine) (l : Limiter)
    (h : lookup m r = some l) (hwg : 1 ≤ l.wg) :
    ((0 < l.rWait ∧ l.rCnt - 1 < l.c) →
      step m (.EndCh r) =
        .next (store m r { l with wg := l.wg - 1, rWait := l.rWait - 1 }) [r]) ∧
    (¬ (0 < l.rWait ∧ l.rCnt - 1 < l.c) →
      step m (.EndCh r) =
        .next (store m r { l with wg := l.wg - 1, rCnt := l.rCnt - 1 }) []) ∧
    (∃ m1 sent l1, step m (.EndCh r) = .next m1 sent ∧ lookup m1 r = some l1 ∧
      sent.length ≤ 1 ∧
      ((sent = [r] ∧ l1.rCnt = l.rCnt) ∨ (sent = [] ∧ l1.rCnt = l.rCnt - 1))) := by
  have hw : ¬ l.wg - 1 < 0 := by omega
  have h1 : (0 < l.rWait ∧ l.rCnt - 1 < l.c) →
      step m (.EndCh r) =
        .next (store m r { l with wg := l.wg - 1, rWait := l.rWait - 1 }) [r] := by
    intro hc
    simp [step, h, rEnd, hw, hc]
  have h2 : ¬ (0 < l.rWait ∧ l.rCnt - 1 < l.c) →
      step m (.EndCh r) =
        .next (store m r { l with wg := l.wg - 1, rCnt := l.rCnt - 1 }) [] := by
    intro hc
    simp only [step, h, rEnd, hw, if_false]
    rw [if_neg hc]
    simp
  refine ⟨h1, h2, ?_⟩
  by_cases hc : 0 < l.rWait ∧ l.rCnt - 1 < l.c
  · exact ⟨_, _, _, h1 hc, lookup_store_self _ _ _, by simp, Or.inl ⟨rfl, rfl⟩⟩
  · exact ⟨_, _, _, h2 hc, lookup_store_self _ _ _, by simp, Or.inr ⟨rfl, rfl⟩⟩

/-- Witness for C2: ceiling 1, two Acquires (one admitted, one waiting); the
Release wakes the waiter. -/
theorem release_step_witness :
    lookup [("a", { newLimiter "a" 1 2 1 1 30 0 with wg := 2, rCnt := 1, rWait := 1 })] "a" =
      some { newLimiter "a" 1 2 1 1 30 0 with wg := 2, rCnt := 1, rWait := 1 } ∧
    (1 : Int) ≤ ({ newLimiter "a" 1 2 1 1 30 0 with wg := 2, rCnt := 1, rWait := 1 } : Limiter).wg ∧
    PowerOn [.register "a" 1 2 1 1 30 0, .rAskCh "a", .rAskCh "a", .EndCh "a"] =
      .next [("a", { newLimiter "a" 1 2 1 1 30 0 with wg := 1, rCnt := 1, rWait := 0 })]
        ["a", "a"] ∧
    step [("a", { newLimiter "a" 1 2 1 1 30 0 with wg := 2, rCnt := 1, rWait := 1 })]
        (.EndCh "a") =
      .next (store [("a", { newLimiter "a" 1 2 1 1 30 0 with wg := 2, rCnt := 1, rWait := 1 })]
        "a" { newLimiter "a" 1 2 1 1 30 0 with wg := 2 - 1, rCnt := 1, rWait := 1 - 1 })
        ["a"] :=
  ⟨by decide, by decide, by decide,
    (release_step [("a", { newLimiter "a" 1 2 1 1 30 0 with wg := 2, rCnt := 1, rWait := 1 })]
      "a" { newLimiter "a" 1 2 1 1 30 0 with wg := 2, rCnt := 1, rWait := 1 }
      (by decide) (by decide)).1 (by decide)⟩

theorem step_rEnd_sent_le_one (m m1 : rLimiterMap) (q : Routine) (sent : List Routine)
    (h : step m (.EndCh q) = .next m1 sent) : sent.length ≤ 1 := by
  simp only [step] at h
  cases hl : lookup m q with
  | none => simp [hl] at h
  | some l =>
    cases he : rEnd l with
    | none => simp [hl, he] at h
    | some p =>
      obtain ⟨l1, b⟩ := p
      simp [hl, he] at h
      obtain ⟨-, rfl⟩ := h
      cases b <;> simp

/-- C3 (bounded admission): register a limiter with ceiling `C ≥ 0` in any registry and let
`r1` be the name it is stored under.  Of `N > C` Acquires exactly `C` are granted, leaving
`rCnt = C` and `rWait = N - C`; then for every `k ≤ N - C`, `k` Releases send exactly `k`
notifications and leave `rCnt = C`, `rWait = N - C - k`, the next Release (if `k < N - C`)
sending exactly one.  No Release step ever sends more than one notification. -/
theorem bounded_admission (m0 : rLimiterMap) (r : Routine) (C : Int) (down up : Int)
    (min : Int) (hold t0 : Int) (N : Nat) (hC : 0 ≤ C) (hN : C < N) :
    ∃ r1 m1, step m0 (.register r C down up min hold t0) = .next m1 [] ∧
      lookup m1 r1 = some { newLimiter r C down up min hold t0 with r := r1 } ∧
    ∃ m2 l2, run m1 (List.replicate N (.rAskCh r1)) = .next m2 (List.replicate C.toNat r1) ∧
      lookup m2 r1 = some l2 ∧ l2.rCnt = C ∧ l2.rWait = N - C ∧
    (∀ k : Nat, (k : Int) ≤ N - C →
      ∃ m3 l3, run m2 (List.replicate k (.EndCh r1)) = .next m3 (List.replicate k r1) ∧
        lookup m3 r1 = some l3 ∧ l3.rCnt = C ∧ l3.rWait = N - C - k ∧
        ((k : Int) < N - C → ∃ m4, step m3 (.EndCh r1) = .next m4 [r1])) ∧
    (∀ (m m4 : rLimiterMap) (q : Routine) (sent : List Routine),
      step m (.EndCh q) = .next m4 sent → sent.length ≤ 1) := by
  obtain ⟨r1, -, -, hreg⟩ := step_register m0 r C down up min hold t0
  have hn : (C.toNat : Int) = C := Int.toNat_of_nonneg hC
  have hsplit : N = C.toNat + (N - C.toNat) := by omega
  obtain ⟨l0, hl0⟩ : ∃ l0 : Limiter, l0 = { newLimiter r C down up min hold t0 with r := r1 } :=
    ⟨_, rfl⟩
  have f0 : l0.rCnt = 0 ∧ l0.rWait = 0 ∧ l0.wg = 0 ∧ l0.c = C := by
    subst hl0; simp [newLimiter]
  obtain ⟨f1, f2, f3, f4⟩ := f0
  rw [← hl0] at hreg
  -- the C granted Acquires
  have hA := run_rAsk_grant r1 C.toNat (store m0 r1 l0) l0 (lookup_store_self m0 r1 l0)
    (by omega)
  -- the N - C waiting Acquires
  have hB := run_rAsk_wait r1 (N - C.toNat)
    (store (store m0 r1 l0) r1 { l0 with wg := l0.wg + C.toNat, rCnt := l0.rCnt + C.toNat })
    { l0 with wg := l0.wg + C.toNat, rCnt := l0.rCnt + C.toNat }
    (lookup_store_self _ r1 _) (show l0.c ≤ l0.rCnt + (C.toNat : Int) by omega)
  have hAB := run_append _ (List.replicate (N - C.toNat) (Event.rAskCh r1)) _ _ _ hA
  rw [hB, ← List.replicate_add, ← hsplit] at hAB
  simp only [List.append_nil, store_store] at hAB
  refine ⟨r1, _, hreg, by rw [lookup_store_self, hl0], _, _, hAB, lookup_store_self _ _ _,
    (show l0.rCnt + (C.toNat : Int) = C by omega),
    (show l0.rWait + ((N - C.toNat : Nat) : Int) = N - C by omega), ?_,
    step_rEnd_sent_le_one⟩
  intro k hk
  have hE := run_rEnd_wake r1 k
    (store m0 r1 { l0 with wg := l0.wg + C.toNat + (N - C.toNat : Nat),
                           rCnt := l0.rCnt + C.toNat,
                           rWait := l0.rWait + (N - C.toNat : Nat) })
    { l0 with wg := l0.wg + C.toNat + (N - C.toNat : Nat), rCnt := l0.rCnt + C.toNat,
              rWait := l0.rWait + (N - C.toNat : Nat) }
    (lookup_store_self _ r1 _)
    (show (k : Int) ≤ l0.rWait + ((N - C.toNat : Nat) : Int) by omega)
    (show (k : Int) ≤ l0.wg + (C.toNat : Int) + ((N - C.toNat : Nat) : Int) by omega)
    (show l0.rCnt + (C.toNat : Int) ≤ l0.c by omega)
  simp only [store_store] at hE
  refine ⟨_, _, hE, lookup_store_self _ _ _,
    (show l0.rCnt + (C.toNat : Int) = C by omega),
    (show l0.rWait + ((N - C.toNat : Nat) : Int) - k = N - C - k by omega), ?_⟩
  intro hlt
  exact ⟨_, step_rEnd_wake _ r1 _ (lookup_store_self _ _ _)
    (show (1 : Int) ≤ l0.wg + (C.toNat : Int) + ((N - C.toNat : Nat) : Int) - k by omega)
    (show (0 : Int) < l0.rWait + ((N - C.toNat : Nat) : Int) - k by omega)
    (show l0.rCnt + (C.toNat : Int) - 1 < l0.c by omega)⟩

/-- Witness for C3: ceiling 2 and three Acquires in the empty registry. -/
theorem bounded_admission_witness :
    ((0 : Int) ≤ 2 ∧ (2 : Int) < ((3 : Nat) : Int)) ∧
    PowerOn [.register "a" 2 2 1 1 30 0, .rAskCh "a", .rAskCh "a", .rAskCh "a", .EndCh "a"] =
      .next [("a", { newLimiter "a" 2 2 1 1 30 0 with wg := 2, rCnt := 2, rWait := 0 })]
        ["a", "a", "a"] ∧
    ∃ r1 m1, step [] (.register "a" 2 2 1 1 30 0) = .next m1 [] ∧
      lookup m1 r1 = some { newLimiter "a" 2 2 1 1 30 0 with r := r1 } ∧
    ∃ m2 l2, run m1 (List.replicate 3 (.rAskCh r1)) = .next m2 (List.replicate (2 : Int).toNat r1) ∧
      lookup m2 r1 = some l2 ∧ l2.rCnt = 2 ∧ l2.rWait = ((3 : Nat) : Int) - 2 ∧
    (∀ k : Nat, (k : Int) ≤ ((3 : Nat) : Int) - 2 →
      ∃ m3 l3, run m2 (List.replicate k (.EndCh r1)) = .next m3 (List.replicate k r1) ∧
        lookup m3 r1 = some l3 ∧ l3.rCnt = 2 ∧ l3.rWait = ((3 : Nat) : Int) - 2 - k ∧
        ((k : Int) < ((3 : Nat) : Int) - 2 → ∃ m4, step m3 (.EndCh r1) = .next m4 [r1])) ∧
    (∀ (m m4 : rLimiterMap) (q : Routine) (sent : List Routine),
      step m (.EndCh q) = .next m4 sent → sent.length ≤ 1) :=
  ⟨⟨by decide, by decide⟩, by decide,
    bounded_admission [] "a" 2 2 1 1 30 0 3 (by decide) (by decide)⟩

/-! ## Invariants of the loop -/

theorem lookup_store (m : rLimiterMap) (r q : Routine) (l : Limiter) :
    lookup (store m r l) q = if q = r then some l else lookup m q := by
  by_cases h : q = r
  · subst h; simp [lookup_store_self]
  · simp [h, lookup_store_ne m r q l h]

theorem lookup_delete (m : rLimiterMap) (r q : Routine) :
    lookup (delete m r) q = if q = r then none else lookup m q := by
  by_cases h : q = r
  · subst h; simp [lookup_delete_self]
  · simp [h, lookup_delete_ne m r q h]

theorem AllLimiters_store (P : Limiter → Prop) (m : rLimiterMap) (r : Routine) (l : Limiter)
    (hm : AllLimiters P m) (hl : P l) : AllLimiters P (store m r l) := by
  intro q l1 h
  rw [lookup_store] at h
  by_cases hq : q = r
  · simp [hq] at h; subst h; exact hl
  · simp [hq] at h; exact hm q l1 h

/-- One loop iteration keeps a per-limiter property that every handler body keeps and
that holds of the limiter a registration stores. -/
theorem step_preserves (P : Limiter → Prop) (m m1 : rLimiterMap) (e : Event)
    (sent : List Routine) (hstep : step m e = .next m1 sent) (hm : AllLimiters P m)
    (hreg : ∀ r c down up min hold t0 r1, e = .register r c down up min hold t0 →
      P { newLimiter r c down up min hold t0 with r := r1 })
    (hask : ∀ r l, e = .rAskCh r → P l → P (rAsk l).1)
    (hend : ∀ r l l1 b, e = .EndCh r → P l → rEnd l = some (l1, b) → P l1)
    (hdown : ∀ r t l, e = .throttleDownCh r t → P l → P (throttleDown t l))
    (hup : ∀ r t l, e = .throttleUpCh r t → P l → P (throttleUp t l)) :
    AllLimiters P m1 := by
  have hthr : ∀ (f : Limiter → Limiter) (r : Routine), (∀ l, P l → P (f l)) →
      throttle f m r = .next m1 sent → AllLimiters P m1 := by
    intro f r hf ht
    unfold throttle at ht
    by_cases hr : r = "__all"
    · simp [hr] at ht
      obtain ⟨rfl, -⟩ := ht
      intro q l1 h
      rw [lookup_map] at h
      cases hl : lookup m q with
      | none => simp [hl] at h
      | some l => simp [hl] at h; subst h; exact hf l (hm q l hl)
    · cases hl : lookup m r with
      | none => simp [hr, hl] at ht
      | some l =>
        simp [hr, hl] at ht
        obtain ⟨rfl, -⟩ := ht
        exact AllLimiters_store P m r _ hm (hf l (hm r l hl))
  cases e with
  | register r c down up min hold t0 =>
    obtain ⟨r1, -, -, h1⟩ := step_register m r c down up min hold t0
    rw [h1] at hstep
    simp at hstep
    obtain ⟨rfl, -⟩ := hstep
    exact AllLimiters_store P m r1 _ hm (hreg r c down up min hold t0 r1 rfl)
  | EndCh r =>
    simp only [step] at hstep
    cases hl : lookup m r with
    | none => simp [hl] at hstep
    | some l =>
      cases he : rEnd l with
      | none => simp [hl, he] at hstep
      | some p =>
        obtain ⟨l1, b⟩ := p
        simp [hl, he] at hstep
        obtain ⟨rfl, -⟩ := hstep
        exact AllLimiters_store P m r l1 hm (hend r l l1 b rfl (hm r l hl) he)
  | rAskCh r =>
    simp only [step] at hstep
    cases hl : lookup m r with
    | none => simp [hl] at hstep
    | some l =>
      simp [hl] at hstep
      obtain ⟨rfl, -⟩ := hstep
      exact AllLimiters_store P m r _ hm (hask r l rfl (hm r l hl))
  | throttleDownCh r t0 => exact hthr _ r (fun l hl => hdown r t0 l rfl hl) hstep
  | throttleUpCh r t0 => exact hthr _ r (fun l hl => hup r t0 l rfl hl) hstep
  | unRegisterCh r =>
    simp [step] at hstep
    obtain ⟨rfl, -⟩ := hstep
    intro q l1 h
    rw [lookup_delete] at h
    by_cases hq : q = r
    · simp [hq] at h
    · simp [hq] at h; exact hm q l1 h
  | ctxDone => simp [step] at hstep

/-- A property of all limiters that each admissible event keeps is kept by a run of
admissible events. -/
theorem run_preserves (P : Limiter → Prop) (Q : Event → Prop)
    (hQ : ∀ e, Q e → ∀ m m1 sent, step m e = .next m1 sent → AllLimiters P m →
      AllLimiters P m1) :
    ∀ (es : List Event) (m m1 : rLimiterMap) (sent : List Routine),
      (∀ e ∈ es, Q e) → run m es = .next m1 sent → AllLimiters P m → AllLimiters P m1 := by
  intro es
  induction es with
  | nil =>
    intro m m1 sent _ h hm
    simp [run] at h
    obtain ⟨rfl, -⟩ := h
    exact hm
  | cons e es ih =>
    intro m m1 sent hq h hm
    cases hs : step m e with
    | next ma sa =>
      rw [run_cons_next m ma e es sa hs] at h
      cases hr : run ma es with
      | next mb sb =>
        rw [hr] at h
        simp at h
        obtain ⟨rfl, -⟩ := h
        exact ih ma mb sb (fun e1 h1 => hq e1 (List.mem_cons_of_mem _ h1)) hr
          (hQ e (hq e (List.mem_cons_self _ _)) m ma sa hs hm)
      | stop mb => rw [hr] at h; simp at h
      | panic => rw [hr] at h; simp at h
      | diverge => rw [hr] at h; simp at h
    | stop ma => simp [run, hs] at h
    | panic => simp [run, hs] at h
    | diverge => simp [run, hs] at h

theorem AllLimiters_nil (P : Limiter → Prop) : AllLimiters P [] := by
  intro r l h
  simp [lookup] at h

/-! ## Counter and ceiling bounds that the code does not keep -/

/-- C4 fails on the code, against the comment on `rCntMap` that the count "varies between 0
and ceiling".  A ThrottleDown applied while three callers are admitted leaves `rCnt = 3`
above the new ceiling `c = 1`; a limiter registered with ceiling `-1` reaches `rCnt = -1`
after one Acquire and one Release; and a limiter registered with the largest `int` as its
ceiling has `c = minInt` after one ThrottleUp, below `rCnt = 0`. -/
theorem active_within_ceiling_counterexample :
    (PowerOn [.register "a" 3 2 1 1 30000000000 0, .rAskCh "a", .rAskCh "a", .rAskCh "a",
        .throttleDownCh "a" 30000000000] =
      .next [("a", { newLimiter "a" 3 2 1 1 30000000000 0 with
          c := 1, wg := 3, rCnt := 3, throttleDownActioned := 30000000000 })]
        ["a", "a", "a"] ∧
      ¬ ((3 : Int) ≤ 1)) ∧
    (PowerOn [.register "b" (-1) 2 1 1 30000000000 0, .rAskCh "b", .EndCh "b"] =
      .next [("b", { newLimiter "b" (-1) 2 1 1 30000000000 0 with rCnt := -1, rWait := 1 })]
        [] ∧
      ¬ ((0 : Int) ≤ -1)) ∧
    (PowerOn [.register "a" 9223372036854775807 2 1 1 30000000000 0,
        .throttleUpCh "a" 30000000000, .rAskCh "a"] =
      .next [("a", { newLimiter "a" 9223372036854775807 2 1 1 30000000000 0 with
          c := -9223372036854775808, wg := 1, rWait := 1,
          throttleUpActioned := 30000000000 })] [] ∧
      ¬ ((0 : Int) ≤ -9223372036854775808)) := by
  decide

/-- C5 fails on the code, against the comments of `NewConfig` that `c` is "also the maximum
value for the throttle" and `min` the "minimum value of ceiling".  `New("a", 0)` builds a
limiter with `minc = 1` above `c = 0`, and after one applied ThrottleDown its ceiling `1` is
above `maxc = 0`; `NewConfig` with the largest `int` as ceiling, floor 1 and steps 2 and 1
builds a limiter whose ceiling is `minInt`, below `minc = 1`, after one applied
ThrottleUp. -/
theorem ceiling_bounds_any_arguments_counterexample :
    New (fun _ => some 30000000000) 0 "a" 0 [] = some (newLimiter "a" 0 2 1 1 30000000000 0) ∧
    ¬ ((newLimiter "a" 0 2 1 1 30000000000 0).minc ≤ (newLimiter "a" 0 2 1 1 30000000000 0).c) ∧
    PowerOn [.register "a" 0 2 1 1 30000000000 0, .throttleDownCh "a" 30000000000] =
      .next [("a", { newLimiter "a" 0 2 1 1 30000000000 0 with
          c := 1, throttleDownActioned := 30000000000 })] [] ∧
    ¬ ((1 : Int) ≤ (newLimiter "a" 0 2 1 1 30000000000 0).maxc) ∧
    NewConfig (fun _ => some 30000000000) 0 "a" 9223372036854775807 2 1 1 "30s" =
      some (newLimiter "a" 9223372036854775807 2 1 1 30000000000 0) ∧
    PowerOn [.register "a" 9223372036854775807 2 1 1 30000000000 0,
        .throttleUpCh "a" 30000000000] =
      .next [("a", { newLimiter "a" 9223372036854775807 2 1 1 30000000000 0 with
          c := -9223372036854775808, throttleUpActioned := 30000000000 })] [] ∧
    ¬ ((newLimiter "a" 9223372036854775807 2 1 1 30000000000 0).minc ≤
      -9223372036854775808) := by
  decide

/-! ## Throttling -/

/-- A result within the 64-bit range is not changed by the wrap. -/
theorem wrapInt_eq (x : Int) (h1 : minInt ≤ x) (h2 : x ≤ maxInt) : wrapInt x = x := by
  unfold wrapInt
  unfold minInt at h1
  unfold maxInt at h2
  omega

theorem throttleDown_applied_eq (t0 : Int) (l : Limiter)
    (h1 : l.hold ≤ t0 - l.throttleDownActioned) (h2 : l.hold ≤ t0 - l.throttleUpActioned) :
    throttleDown t0 l =
      { l with c := max (l.c - l.down) l.minc, throttleDownActioned := t0 } := by
  simp only [throttleDown, if_neg (not_lt.mpr h1), if_neg (not_lt.mpr h2)]
  by_cases hlt : l.c - l.down < l.minc
  · simp [hlt, max_eq_right (le_of_lt hlt)]
  · simp [hlt, max_eq_left (not_lt.mp hlt)]

theorem throttleUp_applied_eq (t0 : Int) (l : Limiter)
    (h1 : l.hold ≤ t0 - l.throttleDownActioned) (h2 : l.hold ≤ t0 - l.throttleUpActioned) :
    throttleUp t0 l =
      { l with c := min (wrapInt (l.c + l.up)) l.maxc, throttleUpActioned := t0 } := by
  simp only [throttleUp, if_neg (not_lt.mpr h1), if_neg (not_lt.mpr h2)]
  by_cases hlt : l.maxc < wrapInt (l.c + l.up)
  · simp [hlt, min_eq_right (le_of_lt hlt)]
  · simp [hlt, min_eq_left (not_lt.mp hlt)]

theorem throttleDown_rejected_eq (t0 : Int) (l : Limiter)
    (h : t0 - l.throttleDownActioned < l.hold ∨ t0 - l.throttleUpActioned < l.hold) :
    throttleDown t0 l = l := by
  simp only [throttleDown]
  split_ifs <;> first | rfl | omega

theorem throttleUp_rejected_eq (t0 : Int) (l : Limiter)
    (h : t0 - l.throttleDownActioned < l.hold ∨ t0 - l.throttleUpActioned < l.hold) :
    throttleUp t0 l = l := by
  simp only [throttleUp]
  split_ifs <;> first | rfl | omega

/-- A throttle message naming `r` or `"__all"` runs the loop body on the limiter stored
under `r`, sends nothing, and the loop continues. -/
theorem throttle_targeted (f : Limiter → Limiter) (m : rLimiterMap) (r q : Routine)
    (l : Limiter) (hl : lookup m r = some l) (hq : q = r ∨ q = "__all") :
    ∃ m1, throttle f m q = .next m1 [] ∧ lookup m1 r = some (f l) := by
  by_cases hall : q = "__all"
  · refine ⟨m.map (fun p => (p.1, f p.2)), by simp [throttle, hall], ?_⟩
    rw [lookup_map, hl]
    rfl
  · have hqr : q = r := hq.resolve_right hall
    subst hqr
    exact ⟨store m q (f l), by simp [throttle, hall, hl], lookup_store_self _ _ _⟩

/-- C6 (ThrottleDown applied): for a limiter `l` stored under `r` and a ThrottleDown naming
`r` or `"__all"` processed at `t0` with both hold checks passed, the loop continues with the
limiter equal to `l` except `c = max (c - down) minc` and `throttleDownActioned = t0`; so
`throttleUpActioned`, `maxc`, `minc`, `rCnt` and `rWait` are unchanged. -/
theorem throttleDown_applied (m : rLimiterMap) (r q : Routine) (l : Limiter) (t0 : Int)
    (hl : lookup m r = some l) (hq : q = r ∨ q = "__all")
    (h1 : l.hold ≤ t0 - l.throttleDownActioned) (h2 : l.hold ≤ t0 - l.throttleUpActioned) :
    ∃ m1, step m (.throttleDownCh q t0) = .next m1 [] ∧
      lookup m1 r =
        some { l with c := max (l.c - l.down) l.minc, throttleDownActioned := t0 } := by
  obtain ⟨m1, hs, hl1⟩ := throttle_targeted (throttleDown t0) m r q l hl hq
  exact ⟨m1, hs, by rw [hl1, throttleDown_applied_eq t0 l h1 h2]⟩

/-- Witness for C6: ceiling 5, step 2, 30 s after registration. -/
theorem throttleDown_applied_witness :
    (lookup [("a", newLimiter "a" 5 2 1 1 30000000000 0)] "a" =
        some (newLimiter "a" 5 2 1 1 30000000000 0) ∧
      ("a" = "a" ∨ "a" = "__all") ∧
      (newLimiter "a" 5 2 1 1 30000000000 0).hold ≤
        30000000000 - (newLimiter "a" 5 2 1 1 30000000000 0).throttleDownActioned ∧
      (newLimiter "a" 5 2 1 1 30000000000 0).hold ≤
        30000000000 - (newLimiter "a" 5 2 1 1 30000000000 0).throttleUpActioned) ∧
    step [("a", newLimiter "a" 5 2 1 1 30000000000 0)] (.throttleDownCh "a" 30000000000) =
      .next [("a", { newLimiter "a" 5 2 1 1 30000000000 0 with
        c := 3, throttleDownActioned := 30000000000 })] [] ∧
    ∃ m1, step [("a", newLimiter "a" 5 2 1 1 30000000000 0)]
        (.throttleDownCh "a" 30000000000) = .next m1 [] ∧
      lookup m1 "a" =
        some { newLimiter "a" 5 2 1 1 30000000000 0 with
          c := max ((newLimiter "a" 5 2 1 1 30000000000 0).c -
            (newLimiter "a" 5 2 1 1 30000000000 0).down)
            (newLimiter "a" 5 2 1 1 30000000000 0).minc,
          throttleDownActioned := 30000000000 } :=
  ⟨⟨by decide, by decide, by decide, by decide⟩, by decide,
    throttleDown_applied [("a", newLimiter "a" 5 2 1 1 30000000000 0)] "a" "a"
      (newLimiter "a" 5 2 1 1 30000000000 0) 30000000000
      (by decide) (by decide) (by decide) (by decide)⟩

/-- C7 fails on the code: `v.c += v.up` wraps at 64 bits before `v.c` is compared with
`v.maxc`.  For a limiter `l` stored under `r` and a ThrottleUp naming `r` or `"__all"` processed
at `t0` with both hold checks passed, the limiter becomes `l` with
`c = min (wrapInt (c + up)) maxc` and `throttleUpActioned = t0`, which is `min (c + up) maxc`
when `c + up` is an `int`.  A limiter registered with the largest `int` as ceiling and
`up = 1` has `c = minInt` after its first ThrottleUp, where `min (c + up) maxc` is
`maxInt`. -/
theorem throttleUp_applied_wraps :
    (∀ (m : rLimiterMap) (r q : Routine) (l : Limiter) (t0 : Int),
      lookup m r = some l → (q = r ∨ q = "__all") →
      l.hold ≤ t0 - l.throttleDownActioned → l.hold ≤ t0 - l.throttleUpActioned →
      ∃ m1, step m (.throttleUpCh q t0) = .next m1 [] ∧
        lookup m1 r =
          some { l with c := min (wrapInt (l.c + l.up)) l.maxc, throttleUpActioned := t0 } ∧
        (minInt ≤ l.c + l.up → l.c + l.up ≤ maxInt →
          min (wrapInt (l.c + l.up)) l.maxc = min (l.c + l.up) l.maxc)) ∧
    PowerOn [.register "a" 9223372036854775807 2 1 1 30000000000 0,
        .throttleUpCh "a" 30000000000] =
      .next [("a", { newLimiter "a" 9223372036854775807 2 1 1 30000000000 0 with
          c := -9223372036854775808, throttleUpActioned := 30000000000 })] [] ∧
    min ((9223372036854775807 : Int) + 1) 9223372036854775807 = 9223372036854775807 ∧
    wrapInt (9223372036854775807 + 1) = minInt := by
  refine ⟨?_, by decide, by decide, by decide⟩
  intro m r q l t0 hl hq h1 h2
  obtain ⟨m1, hs, hl1⟩ := throttle_targeted (throttleUp t0) m r q l hl hq
  refine ⟨m1, hs, by rw [hl1, throttleUp_applied_eq t0 l h1 h2], ?_⟩
  intro h3 h4
  rw [wrapInt_eq _ h3 h4]

/-- C8 (hold-window rejection): for a limiter `l` stored under `r`, a ThrottleDown or a
ThrottleUp naming `r` or `"__all"` processed at `t0` with `t0 - throttleDownActioned < hold`
or `t0 - throttleUpActioned < hold` sends nothing and leaves the limiter stored under `r`
equal to `l`: ceiling, both timestamps and the counters are as before. -/
theorem throttle_rejected (m : rLimiterMap) (r q : Routine) (l : Limiter) (t0 : Int)
    (hl : lookup m r = some l) (hq : q = r ∨ q = "__all")
    (h : t0 - l.throttleDownActioned < l.hold ∨ t0 - l.throttleUpActioned < l.hold) :
    (∃ m1, step m (.throttleDownCh q t0) = .next m1 [] ∧ lookup m1 r = some l) ∧
    (∃ m1, step m (.throttleUpCh q t0) = .next m1 [] ∧ lookup m1 r = some l) := by
  obtain ⟨m1, hs1, hl1⟩ := throttle_targeted (throttleDown t0) m r q l hl hq
  obtain ⟨m2, hs2, hl2⟩ := throttle_targeted (throttleUp t0) m r q l hl hq
  rw [throttleDown_rejected_eq t0 l h] at hl1
  rw [throttleUp_rejected_eq t0 l h] at hl2
  exact ⟨⟨m1, hs1, hl1⟩, ⟨m2, hs2, hl2⟩⟩

/-- Witness for C8: a throttle 10 s after registration with a 30 s hold. -/
theorem throttle_rejected_witness :
    (lookup [("a", newLimiter "a" 5 2 1 1 30000000000 0)] "a" =
        some (newLimiter "a" 5 2 1 1 30000000000 0) ∧
      ("a" = "a" ∨ "a" = "__all") ∧
      (10000000000 - (newLimiter "a" 5 2 1 1 30000000000 0).throttleDownActioned <
          (newLimiter "a" 5 2 1 1 30000000000 0).hold ∨
        10000000000 - (newLimiter "a" 5 2 1 1 30000000000 0).throttleUpActioned <
          (newLimiter "a" 5 2 1 1 30000000000 0).hold)) ∧
    (step [("a", newLimiter "a" 5 2 1 1 30000000000 0)] (.throttleDownCh "a" 10000000000) =
        .next [("a", newLimiter "a" 5 2 1 1 30000000000 0)] [] ∧
      step [("a", newLimiter "a" 5 2 1 1 30000000000 0)] (.throttleUpCh "a" 10000000000) =
        .next [("a", newLimiter "a" 5 2 1 1 30000000000 0)] []) ∧
    (∃ m1, step [("a", newLimiter "a" 5 2 1 1 30000000000 0)]
        (.throttleDownCh "a" 10000000000) = .next m1 [] ∧
      lookup m1 "a" = some (newLimiter "a" 5 2 1 1 30000000000 0)) ∧
    (∃ m1, step [("a", newLimiter "a" 5 2 1 1 30000000000 0)]
        (.throttleUpCh "a" 10000000000) = .next m1 [] ∧
      lookup m1 "a" = some (newLimiter "a" 5 2 1 1 30000000000 0)) :=
  ⟨⟨by decide, by decide, by decide⟩, ⟨by decide, by decide⟩,
    throttle_rejected [("a", newLimiter "a" 5 2 1 1 30000000000 0)] "a" "a"
      (newLimiter "a" 5 2 1 1 30000000000 0) 10000000000
      (by decide) (by decide) (by decide)⟩

/-! ## One limiter along a run -/

/-- One loop iteration other than the Unregister of `r` keeps the limiter stored under `r`
in place, and keeps a property of it that every handler body keeps. -/
theorem step_preserves_at (P : Limiter → Prop) (m m1 : rLimiterMap) (e : Event)
    (sent : List Routine) (r : Routine) (l : Limiter)
    (hstep : step m e = .next m1 sent) (hl : lookup m r = some l) (hP : P l)
    (hne : e ≠ .unRegisterCh r)
    (hask : ∀ l, P l → P (rAsk l).1)
    (hend : ∀ l l1 b, P l → rEnd l = some (l1, b) → P l1)
    (hdown : ∀ t l, P l → P (throttleDown t l))
    (hup : ∀ t l, P l → P (throttleUp t l)) :
    ∃ l1, lookup m1 r = some l1 ∧ P l1 := by
  have hthr : ∀ (f : Limiter → Limiter) (q : Routine), (∀ l, P l → P (f l)) →
      throttle f m q = .next m1 sent → ∃ l1, lookup m1 r = some l1 ∧ P l1 := by
    intro f q hf ht
    unfold throttle at ht
    by_cases hq : q = "__all"
    · simp [hq] at ht
      obtain ⟨rfl, -⟩ := ht
      exact ⟨f l, by rw [lookup_map, hl]; rfl, hf l hP⟩
    · cases hlq : lookup m q with
      | none => simp [hq, hlq] at ht
      | some v =>
        simp [hq, hlq] at ht
        obtain ⟨rfl, -⟩ := ht
        by_cases hqr : r = q
        · subst hqr
          rw [hl] at hlq
          cases hlq
          exact ⟨f l, lookup_store_self _ _ _, hf l hP⟩
        · exact ⟨l, by rw [lookup_store_ne _ _ _ _ hqr, hl], hP⟩
  cases e with
  | register q c down up min hold t0 =>
    obtain ⟨r1, -, hfree, h1⟩ := step_register m q c down up min hold t0
    rw [h1] at hstep
    simp at hstep
    obtain ⟨rfl, -⟩ := hstep
    have hqr : r ≠ r1 := by
      intro h
      subst h
      rw [hl] at hfree
      cases hfree
    exact ⟨l, by rw [lookup_store_ne _ _ _ _ hqr, hl], hP⟩
  | EndCh q =>
    simp only [step] at hstep
    cases hlq : lookup m q with
    | none => simp [hlq] at hstep
    | some v =>
      cases he : rEnd v with
      | none => simp [hlq, he] at hstep
      | some p =>
        obtain ⟨l1, b⟩ := p
        simp [hlq, he] at hstep
        obtain ⟨rfl, -⟩ := hstep
        by_cases hqr : r = q
        · subst hqr
          rw [hl] at hlq
          cases hlq
          exact ⟨l1, lookup_store_self _ _ _, hend l l1 b hP he⟩
        · exact ⟨l, by rw [lookup_store_ne _ _ _ _ hqr, hl], hP⟩
  | rAskCh q =>
    simp only [step] at hstep
    cases hlq : lookup m q with
    | none => simp [hlq] at hstep
    | some v =>
      simp [hlq] at hstep
      obtain ⟨rfl, -⟩ := hstep
      by_cases hqr : r = q
      · subst hqr
        rw [hl] at hlq
        cases hlq
        exact ⟨_, lookup_store_self _ _ _, hask l hP⟩
      · exact ⟨l, by rw [lookup_store_ne _ _ _ _ hqr, hl], hP⟩
  | throttleDownCh q t0 => exact hthr _ q (hdown t0) hstep
  | throttleUpCh q t0 => exact hthr _ q (hup t0) hstep
  | unRegisterCh q =>
    simp [step] at hstep
    obtain ⟨rfl, -⟩ := hstep
    have hqr : r ≠ q := by
      intro h
      subst h
      exact hne rfl
    exact ⟨l, by rw [lookup_delete_ne _ _ _ hqr, hl], hP⟩
  | ctxDone => simp [step] at hstep

/-- A run without the Unregister of `r` keeps the limiter stored under `r` in place, and
keeps a property of it that every handler body keeps. -/
theorem run_preserves_at (P : Limiter → Prop) (r : Routine)
    (hask : ∀ l, P l → P (rAsk l).1)
    (hend : ∀ l l1 b, P l → rEnd l = some (l1, b) → P l1)
    (hdown : ∀ t l, P l → P (throttleDown t l))
    (hup : ∀ t l, P l → P (throttleUp t l)) :
    ∀ (es : List Event) (m m1 : rLimiterMap) (sent : List Routine) (l : Limiter),
      (∀ e ∈ es, e ≠ .unRegisterCh r) → run m es = .next m1 sent → lookup m r = some l →
      P l → ∃ l1, lookup m1 r = some l1 ∧ P l1 := by
  intro es
  induction es with
  | nil =>
    intro m m1 sent l _ h hl hP
    simp [run] at h
    obtain ⟨rfl, -⟩ := h
    exact ⟨l, hl, hP⟩
  | cons e es ih =>
    intro m m1 sent l hne h hl hP
    cases hs : step m e with
    | next ma sa =>
      rw [run_cons_next m ma e es sa hs] at h
      cases hr : run ma es with
      | next mb sb =>
        rw [hr] at h
        simp at h
        obtain ⟨rfl, -⟩ := h
        obtain ⟨la, hla, hPa⟩ := step_preserves_at P m ma e sa r l hs hl hP
          (hne e (List.mem_cons_self _ _)) hask hend hdown hup
        exact ih ma mb sb la (fun e1 h1 => hne e1 (List.mem_cons_of_mem _ h1)) hr hla hPa
      | stop mb => rw [hr] at h; simp at h
      | panic => rw [hr] at h; simp at h
      | diverge => rw [hr] at h; simp at h
    | stop ma => simp [run, hs] at h
    | panic => simp [run, hs] at h
    | diverge => simp [run, hs] at h

theorem HeldSince_rAsk (h t1 : Int) (l : Limiter) (hl : HeldSince h t1 l) :
    HeldSince h t1 (rAsk l).1 := by
  unfold HeldSince at *
  simp only [rAsk]
  split_ifs <;> exact hl

theorem HeldSince_rEnd (h t1 : Int) (l l1 : Limiter) (b : Bool) (hl : HeldSince h t1 l)
    (he : rEnd l = some (l1, b)) : HeldSince h t1 l1 := by
  unfold HeldSince at *
  simp only [rEnd] at he
  split_ifs at he <;> simp only [Option.some.injEq, Prod.mk.injEq] at he <;>
    obtain ⟨rfl, -⟩ := he <;> exact hl

theorem HeldSince_throttleDown (h t1 t : Int) (l : Limiter) (hl : HeldSince h t1 l) :
    HeldSince h t1 (throttleDown t l) := by
  unfold HeldSince at *
  simp only [throttleDown]
  split_ifs <;> (try simp only []) <;> omega

theorem HeldSince_throttleUp (h t1 t : Int) (l : Limiter) (hl : HeldSince h t1 l) :
    HeldSince h t1 (throttleUp t l) := by
  unfold HeldSince at *
  simp only [throttleUp]
  split_ifs <;> (try simp only []) <;> omega

theorem run_cons_inv (m m2 : rLimiterMap) (e : Event) (es : List Event) (sent : List Routine)
    (h : run m (e :: es) = .next m2 sent) :
    ∃ m1 s1 s2, step m e = .next m1 s1 ∧ run m1 es = .next m2 s2 ∧ sent = s1 ++ s2 := by
  cases hs : step m e with
  | next ma sa =>
    rw [run_cons_next m ma e es sa hs] at h
    cases hr : run ma es with
    | next mb sb =>
      rw [hr] at h
      simp at h
      obtain ⟨rfl, rfl⟩ := h
      exact ⟨ma, sa, sb, rfl, hr, rfl⟩
    | stop mb => rw [hr] at h; simp at h
    | panic => rw [hr] at h; simp at h
    | diverge => rw [hr] at h; simp at h
  | stop ma => simp [run, hs] at h
  | panic => simp [run, hs] at h
  | diverge => simp [run, hs] at h

/-- A throttle request inside the hold window opened at `t1` is rejected. -/
theorem HeldSince_rejects (h t1 t2 : Int) (l : Limiter) (hl : HeldSince h t1 l)
    (ht : t2 < t1 + h) :
    t2 - l.throttleDownActioned < l.hold ∨ t2 - l.throttleUpActioned < l.hold := by
  unfold HeldSince at hl
  omega

/-- The limiter a throttle message of either direction leaves under `r` when its hold checks
pass at `t1` has a timestamp equal to `t1`. -/
theorem HeldSince_applied (up : Bool) (m m1 : rLimiterMap) (r q : Routine) (l : Limiter)
    (t1 : Int) (sent : List Routine) (hl : lookup m r = some l) (hq : q = r ∨ q = "__all")
    (h1 : l.hold ≤ t1 - l.throttleDownActioned) (h2 : l.hold ≤ t1 - l.throttleUpActioned)
    (h0 : 0 ≤ l.hold) (hs : step m (throttleMsg up q t1) = .next m1 sent) :
    ∃ l1, lookup m1 r = some l1 ∧ HeldSince l.hold t1 l1 := by
  cases up with
  | true =>
    obtain ⟨ma, hsa, hla⟩ := throttle_targeted (throttleUp t1) m r q l hl hq
    have hsa1 : step m (.throttleUpCh q t1) = .next ma [] := hsa
    rw [throttleUp_applied_eq t1 l h1 h2] at hla
    simp only [throttleMsg, if_true] at hs
    rw [hsa1] at hs
    simp at hs
    obtain ⟨rfl, -⟩ := hs
    exact ⟨_, hla, rfl, h0, Or.inr (le_refl _)⟩
  | false =>
    obtain ⟨ma, hsa, hla⟩ := throttle_targeted (throttleDown t1) m r q l hl hq
    have hsa1 : step m (.throttleDownCh q t1) = .next ma [] := hsa
    rw [throttleDown_applied_eq t1 l h1 h2] at hla
    simp only [throttleMsg, Bool.false_eq_true, if_false] at hs
    rw [hsa1] at hs
    simp at hs
    obtain ⟨rfl, -⟩ := hs
    exact ⟨_, hla, rfl, h0, Or.inl (le_refl _)⟩

/-- C9 (hysteresis along a run): let a throttle request of either direction, naming `r` or
`"__all"`, be applied at `t1` to the limiter `l0` stored under `r` (both hold checks pass),
followed by any messages `es` other than the Unregister of `r`, and let `t1 ≤ t2`.  Then the
limiter `l2` stored under `r` after the run is such that (a) a throttle request of either
direction targeting `r` at `t2 < t1 + hold` sends nothing and leaves `l2` unchanged, and
(b) if the hold checks of `l2` pass at `t2` then `t2 - t1 ≥ hold`.  Moreover (c) of two
consecutive ThrottleDown requests at `t1 ≤ t2 < t1 + hold` targeting a limiter, one leaves
the limiter unchanged, so the ceiling changes at most once. -/
theorem hysteresis (m0 m2 : rLimiterMap) (r q1 q2 : Routine) (l0 : Limiter) (d1 d2 : Bool)
    (t1 t2 : Int) (es : List Event) (sent : List Routine)
    (hl : lookup m0 r = some l0) (hq1 : q1 = r ∨ q1 = "__all") (hq2 : q2 = r ∨ q2 = "__all")
    (h1 : l0.hold ≤ t1 - l0.throttleDownActioned) (h2 : l0.hold ≤ t1 - l0.throttleUpActioned)
    (hes : ∀ e ∈ es, e ≠ .unRegisterCh r)
    (hrun : run m0 (throttleMsg d1 q1 t1 :: es) = .next m2 sent) (ht : t1 ≤ t2) :
    (∃ l2, lookup m2 r = some l2 ∧
      (t2 < t1 + l0.hold →
        ∃ m3, step m2 (throttleMsg d2 q2 t2) = .next m3 [] ∧ lookup m3 r = some l2) ∧
      (l2.hold ≤ t2 - l2.throttleDownActioned ∧ l2.hold ≤ t2 - l2.throttleUpActioned →
        l0.hold ≤ t2 - t1)) ∧
    (∀ (m : rLimiterMap) (l : Limiter), lookup m r = some l → t2 < t1 + l.hold →
      ∃ ma la mb lb, step m (.throttleDownCh q1 t1) = .next ma [] ∧ lookup ma r = some la ∧
        step ma (.throttleDownCh q2 t2) = .next mb [] ∧ lookup mb r = some lb ∧
        (la = l ∨ lb = la)) := by
  constructor
  · obtain ⟨m1, s1, s2, hs1, hr1, -⟩ := run_cons_inv m0 m2 _ es sent hrun
    by_cases h0 : 0 ≤ l0.hold
    · obtain ⟨l1, hl1, hH1⟩ := HeldSince_applied d1 m0 m1 r q1 l0 t1 s1 hl hq1 h1 h2 h0 hs1
      obtain ⟨l2, hl2, hH2⟩ := run_preserves_at (HeldSince l0.hold t1) r
        (HeldSince_rAsk _ _) (HeldSince_rEnd _ _) (fun t l => HeldSince_throttleDown _ _ t l)
        (fun t l => HeldSince_throttleUp _ _ t l) es m1 m2 s2 l1 hes hr1 hl1 hH1
      refine ⟨l2, hl2, ?_, ?_⟩
      · intro hwin
        have hrej := HeldSince_rejects _ _ t2 l2 hH2 hwin
        cases d2 with
        | true =>
          obtain ⟨m3, hs3, hl3⟩ := throttle_targeted (throttleUp t2) m2 r q2 l2 hl2 hq2
          rw [throttleUp_rejected_eq t2 l2 hrej] at hl3
          exact ⟨m3, by simpa [throttleMsg, step] using hs3, hl3⟩
        | false =>
          obtain ⟨m3, hs3, hl3⟩ := throttle_targeted (throttleDown t2) m2 r q2 l2 hl2 hq2
          rw [throttleDown_rejected_eq t2 l2 hrej] at hl3
          exact ⟨m3, by simpa [throttleMsg, step] using hs3, hl3⟩
      · intro happ
        unfold HeldSince at hH2
        omega
    · -- a negative hold: the limiter is still there, and `t1 ≤ t2` is already enough
      have hstep1 : ∃ l1, lookup m1 r = some l1 ∧ True := by
        cases d1 with
        | true =>
          exact step_preserves_at (fun _ => True) m0 m1 _ s1 r l0 hs1 hl trivial
            (by simp [throttleMsg]) (fun _ _ => trivial) (fun _ _ _ _ _ => trivial)
            (fun _ _ _ => trivial) (fun _ _ _ => trivial)
        | false =>
          exact step_preserves_at (fun _ => True) m0 m1 _ s1 r l0 hs1 hl trivial
            (by simp [throttleMsg]) (fun _ _ => trivial) (fun _ _ _ _ _ => trivial)
            (fun _ _ _ => trivial) (fun _ _ _ => trivial)
      obtain ⟨l1, hl1, -⟩ := hstep1
      obtain ⟨l2, hl2, -⟩ := run_preserves_at (fun _ => True) r
        (fun _ _ => trivial) (fun _ _ _ _ _ => trivial) (fun _ _ _ => trivial)
        (fun _ _ _ => trivial) es m1 m2 s2 l1 hes hr1 hl1 trivial
      refine ⟨l2, hl2, ?_, ?_⟩
      · intro hwin
        omega
      · intro _
        omega
  · intro m l hlm hwin
    obtain ⟨ma, hsa, hla⟩ := throttle_targeted (throttleDown t1) m r q1 l hlm hq1
    obtain ⟨mb, hsb, hlb⟩ := throttle_targeted (throttleDown t2) ma r q2 _ hla hq2
    refine ⟨ma, _, mb, _, hsa, hla, hsb, hlb, ?_⟩
    by_cases happ : l.hold ≤ t1 - l.throttleDownActioned ∧ l.hold ≤ t1 - l.throttleUpActioned
    · right
      rw [throttleDown_applied_eq t1 l happ.1 happ.2]
      apply throttleDown_rejected_eq
      left
      show t2 - t1 < l.hold
      omega
    · left
      apply throttleDown_rejected_eq
      omega

/-- Witness for C9: a ThrottleDown applied at 30, an Acquire and a rejected
ThrottleUp at 35, then a ThrottleUp through `"__all"` at 40, with a hold of 30. -/
theorem hysteresis_witness :
    (lookup [("a", newLimiter "a" 5 2 1 1 30 0)] "a" = some (newLimiter "a" 5 2 1 1 30 0) ∧
      ("a" = "a" ∨ "a" = "__all") ∧ ("__all" = "a" ∨ "__all" = "__all") ∧
      (newLimiter "a" 5 2 1 1 30 0).hold ≤ 30 - (newLimiter "a" 5 2 1 1 30 0).throttleDownActioned ∧
      (newLimiter "a" 5 2 1 1 30 0).hold ≤ 30 - (newLimiter "a" 5 2 1 1 30 0).throttleUpActioned ∧
      (∀ e ∈ [Event.rAskCh "a", .throttleUpCh "a" 35], e ≠ .unRegisterCh "a") ∧
      run [("a", newLimiter "a" 5 2 1 1 30 0)]
          (throttleMsg false "a" 30 :: [Event.rAskCh "a", .throttleUpCh "a" 35]) =
        .next [("a", { newLimiter "a" 5 2 1 1 30 0 with
            c := 3, wg := 1, rCnt := 1, throttleDownActioned := 30 })] ["a"] ∧
      (30 : Int) ≤ 40) ∧
    step [("a", { newLimiter "a" 5 2 1 1 30 0 with
        c := 3, wg := 1, rCnt := 1, throttleDownActioned := 30 })] (throttleMsg true "__all" 40) =
      .next [("a", { newLimiter "a" 5 2 1 1 30 0 with
        c := 3, wg := 1, rCnt := 1, throttleDownActioned := 30 })] [] ∧
    ∃ l2, lookup [("a", { newLimiter "a" 5 2 1 1 30 0 with
          c := 3, wg := 1, rCnt := 1, throttleDownActioned := 30 })] "a" = some l2 ∧
      (40 < 30 + (newLimiter "a" 5 2 1 1 30 0).hold →
        ∃ m3, step [("a", { newLimiter "a" 5 2 1 1 30 0 with
            c := 3, wg := 1, rCnt := 1, throttleDownActioned := 30 })]
            (throttleMsg true "__all" 40) = .next m3 [] ∧ lookup m3 "a" = some l2) ∧
      (l2.hold ≤ 40 - l2.throttleDownActioned ∧ l2.hold ≤ 40 - l2.throttleUpActioned →
        (newLimiter "a" 5 2 1 1 30 0).hold ≤ 40 - 30) :=
  ⟨⟨by decide, by decide, by decide, by decide, by decide, by decide, by decide, by decide⟩,
    by decide,
    (hysteresis [("a", newLimiter "a" 5 2 1 1 30 0)]
      [("a", { newLimiter "a" 5 2 1 1 30 0 with
        c := 3, wg := 1, rCnt := 1, throttleDownActioned := 30 })]
      "a" "a" "__all" (newLimiter "a" 5 2 1 1 30 0) false true 30 40
      [.rAskCh "a", .throttleUpCh "a" 35] ["a"]
      (by decide) (by decide) (by decide) (by decide) (by decide) (by decide) (by decide)
      (by decide)).1⟩

theorem throttleDowns_fields (ts : List Int) : ∀ (l : Limiter), 0 ≤ l.down →
    downsApplied l ts = true →
    (throttleDowns l ts).down = l.down ∧ (throttleDowns l ts).minc = l.minc ∧
      (throttleDowns l ts).c =
        if ts = [] then l.c else max (l.c - ts.length * l.down) l.minc := by
  induction ts with
  | nil => intro l _ _; simp [throttleDowns]
  | cons t ts ih =>
    intro l hd happ
    simp only [downsApplied, Bool.and_eq_true, decide_eq_true_eq] at happ
    obtain ⟨⟨h1, h2⟩, hrest⟩ := happ
    have heq := throttleDown_applied_eq t l h1 h2
    have ih1 := ih (throttleDown t l) (by rw [heq]; exact hd) hrest
    rw [heq] at ih1
    simp only [] at ih1
    obtain ⟨i1, i2, i3⟩ := ih1
    have hfold : throttleDowns l (t :: ts) =
        throttleDowns { l with c := max (l.c - l.down) l.minc, throttleDownActioned := t } ts := by
      simp only [throttleDowns, List.foldl_cons, heq]
    rw [hfold]
    refine ⟨i1, i2, ?_⟩
    rw [i3]
    simp only [List.cons_ne_nil, if_false, List.length_cons, Nat.cast_add, Nat.cast_one]
    by_cases hts : ts = []
    · subst hts
      simp
    · simp only [hts, if_false]
      have hn : 0 ≤ (ts.length : Int) * l.down := mul_nonneg (Int.ofNat_nonneg _) hd
      have hmul : ((ts.length : Int) + 1) * l.down = (ts.length : Int) * l.down + l.down := by
        ring
      rw [hmul]
      generalize (ts.length : Int) * l.down = n at hn ⊢
      omega

theorem run_throttleDowns (r q : Routine) (hq : q = r ∨ q = "__all") (ts : List Int) :
    ∀ (m : rLimiterMap) (l : Limiter), lookup m r = some l →
    ∃ m1, run m (ts.map (fun t => Event.throttleDownCh q t)) = .next m1 [] ∧
      lookup m1 r = some (throttleDowns l ts) := by
  induction ts with
  | nil =>
    intro m l hl
    exact ⟨m, by simp [run], by simpa [throttleDowns] using hl⟩
  | cons t ts ih =>
    intro m l hl
    obtain ⟨ma, hsa, hla⟩ := throttle_targeted (throttleDown t) m r q l hl hq
    obtain ⟨mb, hsb, hlb⟩ := ih ma (throttleDown t l) hla
    refine ⟨mb, ?_, by simpa [throttleDowns] using hlb⟩
    have hsa1 : step m (Event.throttleDownCh q t) = .next ma [] := hsa
    rw [List.map_cons, run_cons_next m ma _ _ [] hsa1, hsb]
    simp

/-- C10 (repeated ThrottleDown): for a limiter `l` stored under `r` with `down ≥ 0`, after
`k ≥ 1` consecutive ThrottleDown messages naming `r` or `"__all"`, each processed with both
hold checks passed, the loop has sent nothing and the limiter stored under `r` has
`c = max (c0 - k * down) minc`, which is at least `minc`. -/
theorem repeated_throttleDown (m : rLimiterMap) (r q : Routine) (l : Limiter) (ts : List Int)
    (hl : lookup m r = some l) (hq : q = r ∨ q = "__all") (hd : 0 ≤ l.down)
    (hk : 1 ≤ ts.length) (happ : downsApplied l ts = true) :
    ∃ m1 l1, run m (ts.map (fun t => Event.throttleDownCh q t)) = .next m1 [] ∧
      lookup m1 r = some l1 ∧
      l1.c = max (l.c - ts.length * l.down) l.minc ∧ l.minc ≤ l1.c := by
  obtain ⟨m1, hrun, hl1⟩ := run_throttleDowns r q hq ts m l hl
  obtain ⟨-, -, hc⟩ := throttleDowns_fields ts l hd happ
  have hne : ts ≠ [] := by
    intro h
    subst h
    simp at hk
  simp only [hne, if_false] at hc
  exact ⟨m1, _, hrun, hl1, hc, by rw [hc]; exact le_max_right _ _⟩

/-- Witness for C10: ceiling 5, step 2, floor 1, hold 30 s; ThrottleDown
at 30 s, 60 s, 90 s and 120 s drives the ceiling 5, 3, 1, 1, 1. -/
theorem repeated_throttleDown_witness :
    (lookup [("a", newLimiter "a" 5 2 1 1 30000000000 0)] "a" =
        some (newLimiter "a" 5 2 1 1 30000000000 0) ∧
      ("a" = "a" ∨ "a" = "__all") ∧ 0 ≤ (newLimiter "a" 5 2 1 1 30000000000 0).down ∧
      1 ≤ [(30000000000 : Int), 60000000000, 90000000000, 120000000000].length ∧
      downsApplied (newLimiter "a" 5 2 1 1 30000000000 0)
        [30000000000, 60000000000, 90000000000, 120000000000] = true) ∧
    (List.map (fun ts => (throttleDowns (newLimiter "a" 5 2 1 1 30000000000 0) ts).c)
        [[], [30000000000], [30000000000, 60000000000],
          [30000000000, 60000000000, 90000000000],
          [30000000000, 60000000000, 90000000000, 120000000000]] = [5, 3, 1, 1, 1]) ∧
    PowerOn [.register "a" 5 2 1 1 30000000000 0, .throttleDownCh "a" 30000000000,
        .throttleDownCh "a" 60000000000, .throttleDownCh "a" 90000000000,
        .throttleDownCh "a" 120000000000] =
      .next [("a", { newLimiter "a" 5 2 1 1 30000000000 0 with
        c := 1, throttleDownActioned := 120000000000 })] [] ∧
    ∃ m1 l1, run [("a", newLimiter "a" 5 2 1 1 30000000000 0)]
        ([(30000000000 : Int), 60000000000, 90000000000, 120000000000].map
          (fun t => Event.throttleDownCh "a" t)) = .next m1 [] ∧
      lookup m1 "a" = some l1 ∧
      l1.c = max ((newLimiter "a" 5 2 1 1 30000000000 0).c -
          ([(30000000000 : Int), 60000000000, 90000000000, 120000000000].length : Int) *
            (newLimiter "a" 5 2 1 1 30000000000 0).down)
        (newLimiter "a" 5 2 1 1 30000000000 0).minc ∧
      (newLimiter "a" 5 2 1 1 30000000000 0).minc ≤ l1.c :=
  ⟨⟨by decide, by decide, by decide, by decide, by decide⟩, by decide, by decide,
    repeated_throttleDown [("a", newLimiter "a" 5 2 1 1 30000000000 0)] "a" "a"
      (newLimiter "a" 5 2 1 1 30000000000 0)
      [30000000000, 60000000000, 90000000000, 120000000000]
      (by decide) (by decide) (by decide) (by decide) (by decide)⟩

/-! ## Which limiters a throttle message reaches -/

/-- C11 (target resolution): a ThrottleDown or ThrottleUp naming one registered limiter `x`
other than `"__all"` sends nothing and leaves the entry of every other name exactly as it
was, whether the hold checks of `x` pass or not. -/
theorem throttle_named_frame (m : rLimiterMap) (x : Routine) (l : Limiter) (t0 : Int)
    (hx : x ≠ "__all") (hl : lookup m x = some l) :
    (∃ m1, step m (.throttleDownCh x t0) = .next m1 [] ∧
      ∀ q, q ≠ x → lookup m1 q = lookup m q) ∧
    (∃ m1, step m (.throttleUpCh x t0) = .next m1 [] ∧
      ∀ q, q ≠ x → lookup m1 q = lookup m q) := by
  constructor
  · refine ⟨store m x (throttleDown t0 l), ?_, fun q hq => lookup_store_ne m x q _ hq⟩
    simp [step, throttle, hx, hl]
  · refine ⟨store m x (throttleUp t0 l), ?_, fun q hq => lookup_store_ne m x q _ hq⟩
    simp [step, throttle, hx, hl]

/-- Witness for C11: two limiters, a ThrottleDown naming `"a"` applied at 30 s; `"b"` keeps
its ceiling and timestamps. -/
theorem throttle_named_frame_witness :
    ("a" ≠ "__all" ∧
      lookup [("a", newLimiter "a" 5 2 1 1 30000000000 0),
          ("b", newLimiter "b" 7 2 1 1 30000000000 0)] "a" =
        some (newLimiter "a" 5 2 1 1 30000000000 0)) ∧
    step [("a", newLimiter "a" 5 2 1 1 30000000000 0),
        ("b", newLimiter "b" 7 2 1 1 30000000000 0)] (.throttleDownCh "a" 30000000000) =
      .next [("a", { newLimiter "a" 5 2 1 1 30000000000 0 with
          c := 3, throttleDownActioned := 30000000000 }),
        ("b", newLimiter "b" 7 2 1 1 30000000000 0)] [] ∧
    ∃ m1, step [("a", newLimiter "a" 5 2 1 1 30000000000 0),
          ("b", newLimiter "b" 7 2 1 1 30000000000 0)] (.throttleDownCh "a" 30000000000) =
        .next m1 [] ∧
      ∀ q, q ≠ "a" → lookup m1 q =
        lookup [("a", newLimiter "a" 5 2 1 1 30000000000 0),
          ("b", newLimiter "b" 7 2 1 1 30000000000 0)] q :=
  ⟨⟨by decide, by decide⟩, by decide,
    (throttle_named_frame [("a", newLimiter "a" 5 2 1 1 30000000000 0),
        ("b", newLimiter "b" 7 2 1 1 30000000000 0)] "a"
      (newLimiter "a" 5 2 1 1 30000000000 0) 30000000000 (by decide) (by decide)).1⟩

/-- C12 (broadcast throttle): a ThrottleDown (ThrottleUp) for `"__all"` at `t0` sends nothing
and leaves under every registered name `r` the limiter that a ThrottleDown (ThrottleUp)
naming `r` at the same `t0` leaves there, namely the loop body run on the limiter of `r`
alone: acceptance depends on that limiter's own timestamps and hold. -/
theorem throttle_broadcast (m : rLimiterMap) (r : Routine) (l : Limiter) (t0 : Int)
    (hl : lookup m r = some l) :
    (∃ mAll mOne, step m (.throttleDownCh "__all" t0) = .next mAll [] ∧
      step m (.throttleDownCh r t0) = .next mOne [] ∧
      lookup mAll r = lookup mOne r ∧ lookup mAll r = some (throttleDown t0 l)) ∧
    (∃ mAll mOne, step m (.throttleUpCh "__all" t0) = .next mAll [] ∧
      step m (.throttleUpCh r t0) = .next mOne [] ∧
      lookup mAll r = lookup mOne r ∧ lookup mAll r = some (throttleUp t0 l)) := by
  constructor
  · obtain ⟨mAll, hA, hlA⟩ :=
      throttle_targeted (throttleDown t0) m r "__all" l hl (Or.inr rfl)
    obtain ⟨mOne, hO, hlO⟩ := throttle_targeted (throttleDown t0) m r r l hl (Or.inl rfl)
    exact ⟨mAll, mOne, hA, hO, by rw [hlA, hlO], hlA⟩
  · obtain ⟨mAll, hA, hlA⟩ := throttle_targeted (throttleUp t0) m r "__all" l hl (Or.inr rfl)
    obtain ⟨mOne, hO, hlO⟩ := throttle_targeted (throttleUp t0) m r r l hl (Or.inl rfl)
    exact ⟨mAll, mOne, hA, hO, by rw [hlA, hlO], hlA⟩

/-- Witness for C12: at 40 s a broadcast ThrottleDown is applied to `"a"` (hold 30 s) and
rejected for `"b"` (hold 60 s). -/
theorem throttle_broadcast_witness :
    lookup [("a", newLimiter "a" 5 2 1 1 30000000000 0),
        ("b", newLimiter "b" 7 2 1 1 60000000000 0)] "b" =
      some (newLimiter "b" 7 2 1 1 60000000000 0) ∧
    step [("a", newLimiter "a" 5 2 1 1 30000000000 0),
        ("b", newLimiter "b" 7 2 1 1 60000000000 0)] (.throttleDownCh "__all" 40000000000) =
      .next [("a", { newLimiter "a" 5 2 1 1 30000000000 0 with
          c := 3, throttleDownActioned := 40000000000 }),
        ("b", newLimiter "b" 7 2 1 1 60000000000 0)] [] ∧
    ∃ mAll mOne, step [("a", newLimiter "a" 5 2 1 1 30000000000 0),
          ("b", newLimiter "b" 7 2 1 1 60000000000 0)] (.throttleDownCh "__all" 40000000000) =
        .next mAll [] ∧
      step [("a", newLimiter "a" 5 2 1 1 30000000000 0),
          ("b", newLimiter "b" 7 2 1 1 60000000000 0)] (.throttleDownCh "b" 40000000000) =
        .next mOne [] ∧
      lookup mAll "b" = lookup mOne "b" ∧
      lookup mAll "b" = some (throttleDown 40000000000 (newLimiter "b" 7 2 1 1 60000000000 0)) :=
  ⟨by decide, by decide,
    (throttle_broadcast [("a", newLimiter "a" 5 2 1 1 30000000000 0),
        ("b", newLimiter "b" 7 2 1 1 60000000000 0)] "b"
      (newLimiter "b" 7 2 1 1 60000000000 0) 40000000000 (by decide)).1⟩

/-! ## Registration -/

/-- C13 (registration state): with `time.ParseDuration "30s"` equal to 30 s, `New name c`
with an optional minimum builds, and its registration stores under some name `r1`, a limiter
with `c = maxc = c`, `minc` the given minimum (1 when omitted), `down = 2`, `up = 1`,
`hold` = 30 s, `or = name`, `rCnt = 0` and `rWait = 0`; `NewConfig name c down up min h` with
`h` parsing to `hold` does the same with the given `down`, `up`, `min` and `hold`. -/
theorem registration_state (parseDuration : String → Option Int)
    (hp : parseDuration "30s" = some 30000000000) (m : rLimiterMap) (t0 : Int)
    (name : String) (c : Int) (min : List Int) :
    (∃ l r1 l1, New parseDuration t0 name c min = some l ∧
      step m (.register name c 2 1 (min.headD 1) 30000000000 t0) =
        .next (store m r1 { l with r := r1 }) [] ∧
      lookup (store m r1 { l with r := r1 }) r1 = some l1 ∧
      l1.c = c ∧ l1.maxc = c ∧ l1.minc = min.headD 1 ∧ l1.down = 2 ∧ l1.up = 1 ∧
      l1.hold = 30000000000 ∧ l1.or = name ∧ l1.rCnt = 0 ∧ l1.rWait = 0) ∧
    (∀ (down up mn hold : Int) (h : String), parseDuration h = some hold →
      ∃ l r1 l1, NewConfig parseDuration t0 name c down up mn h = some l ∧
        step m (.register name c down up mn hold t0) =
          .next (store m r1 { l with r := r1 }) [] ∧
        lookup (store m r1 { l with r := r1 }) r1 = some l1 ∧
        l1.c = c ∧ l1.maxc = c ∧ l1.minc = mn ∧ l1.down = down ∧ l1.up = up ∧
        l1.hold = hold ∧ l1.or = name ∧ l1.rCnt = 0 ∧ l1.rWait = 0) := by
  have hcfg : ∀ (down up mn hold : Int) (h : String), parseDuration h = some hold →
      ∃ l r1 l1, NewConfig parseDuration t0 name c down up mn h = some l ∧
        step m (.register name c down up mn hold t0) =
          .next (store m r1 { l with r := r1 }) [] ∧
        lookup (store m r1 { l with r := r1 }) r1 = some l1 ∧
        l1.c = c ∧ l1.maxc = c ∧ l1.minc = mn ∧ l1.down = down ∧ l1.up = up ∧
        l1.hold = hold ∧ l1.or = name ∧ l1.rCnt = 0 ∧ l1.rWait = 0 := by
    intro down up mn hold h hh
    obtain ⟨r1, -, -, hs⟩ := step_register m name c down up mn hold t0
    exact ⟨newLimiter name c down up mn hold t0, r1, _, by simp [NewConfig, hh], hs,
      lookup_store_self _ _ _, rfl, rfl, rfl, rfl, rfl, rfl, rfl, rfl, rfl⟩
  refine ⟨?_, hcfg⟩
  obtain ⟨l, r1, l1, hl, hrest⟩ := hcfg 2 1 (min.headD 1) 30000000000 "30s" hp
  refine ⟨l, r1, l1, ?_, hrest⟩
  rw [← hl]
  cases min <;> rfl

/-- Witness for C13: `New("fetch", 5)` and `New("fetch", 5, 3)` in the empty registry. -/
theorem registration_state_witness :
    (fun h => if h = "30s" then some (30000000000 : Int) else none) "30s" =
      some 30000000000 ∧
    New (fun h => if h = "30s" then some (30000000000 : Int) else none) 7 "fetch" 5 [] =
      some (newLimiter "fetch" 5 2 1 1 30000000000 7) ∧
    New (fun h => if h = "30s" then some (30000000000 : Int) else none) 7 "fetch" 5 [3] =
      some (newLimiter "fetch" 5 2 1 3 30000000000 7) ∧
    PowerOn [.register "fetch" 5 2 1 1 30000000000 7] =
      .next [("fetch", newLimiter "fetch" 5 2 1 1 30000000000 7)] [] ∧
    ∃ l r1 l1, New (fun h => if h = "30s" then some (30000000000 : Int) else none) 7
          "fetch" 5 [] = some l ∧
      step [] (.register "fetch" 5 2 1 (([] : List Int).headD 1) 30000000000 7) =
        .next (store [] r1 { l with r := r1 }) [] ∧
      lookup (store [] r1 { l with r := r1 }) r1 = some l1 ∧
      l1.c = 5 ∧ l1.maxc = 5 ∧ l1.minc = ([] : List Int).headD 1 ∧ l1.down = 2 ∧ l1.up = 1 ∧
      l1.hold = 30000000000 ∧ l1.or = "fetch" ∧ l1.rCnt = 0 ∧ l1.rWait = 0 :=
  ⟨by decide, by decide, by decide, by decide,
    (registration_state (fun h => if h = "30s" then some (30000000000 : Int) else none)
      (by decide) [] 7 "fetch" 5 []).1⟩

theorem suffixed_zero (n : Routine) : suffixed n 0 = n := by
  simp [suffixed]

theorem suffixed_succ (n : Routine) (k : Nat) :
    (suffixed n k).push (Char.ofNat ((65 + k) % 256)) = suffixed n (k + 1) := by
  simp [suffixed, String.push, List.range_succ]

/-- The uniqueness loop entered at the `j`-th candidate returns the first candidate from
`j` on that is not a key. -/
theorem uniqueLabel_suffixed (m : rLimiterMap) (n : Routine) :
    ∀ (fuel j : Nat) (r1 : Routine),
      uniqueLabel m fuel (suffixed n j) ((65 + j) % 256) = some r1 →
      ∃ k, j ≤ k ∧ r1 = suffixed n k ∧ lookup m r1 = none ∧
        ∀ i, j ≤ i → i < k → lookup m (suffixed n i) ≠ none := by
  intro fuel
  induction fuel with
  | zero => intro j r1 h; simp [uniqueLabel] at h
  | succ fuel ih =>
    intro j r1 h
    cases hl : lookup m (suffixed n j) with
    | none =>
      simp [uniqueLabel, hl] at h
      subst h
      exact ⟨j, le_refl _, rfl, hl, fun i h1 h2 => absurd h1 (by omega)⟩
    | some v =>
      simp only [uniqueLabel, hl] at h
      have he : ((65 + j) % 256 + 1) % 256 = (65 + (j + 1)) % 256 := by omega
      rw [suffixed_succ, he] at h
      obtain ⟨k, hk, hr, hn, hmin⟩ := ih (j + 1) r1 h
      refine ⟨k, by omega, hr, hn, ?_⟩
      intro i h1 h2
      by_cases hij : i = j
      · subst hij
        rw [hl]
        simp
      · exact hmin i (by omega) h2

theorem lookup_eq_none_iff (m : rLimiterMap) (r : Routine) :
    lookup m r = none ↔ r ∉ keys m := by
  induction m with
  | nil => simp [lookup, keys]
  | cons p m ih =>
    obtain ⟨k, v⟩ := p
    by_cases hk : k = r
    · simp [lookup, keys, hk]
    · have hk1 : ¬ r = k := fun e => hk e.symm
      simp only [keys] at ih
      simp [lookup, keys, hk, hk1, ih]

theorem store_of_none (m : rLimiterMap) (r : Routine) (l : Limiter)
    (h : lookup m r = none) : store m r l = m ++ [(r, l)] := by
  induction m with
  | nil => simp [store]
  | cons p m ih =>
    obtain ⟨k, v⟩ := p
    by_cases hk : k = r
    · simp [lookup, hk] at h
    · simp [lookup, hk] at h
      simp [store, hk, ih h]

theorem keys_store_of_some (m : rLimiterMap) (r : Routine) (l v : Limiter)
    (h : lookup m r = some v) : keys (store m r l) = keys m := by
  induction m with
  | nil => simp [lookup] at h
  | cons p m ih =>
    obtain ⟨k, w⟩ := p
    by_cases hk : k = r
    · simp [store, keys, hk]
    · simp [lookup, hk] at h
      simp only [keys] at ih
      simp [store, keys, hk, ih h]

theorem keys_map (f : Limiter → Limiter) (m : rLimiterMap) :
    keys (m.map (fun p => (p.1, f p.2))) = keys m := by
  simp [keys, List.map_map, Function.comp_def]

theorem keys_delete (m : rLimiterMap) (r : Routine) :
    keys (delete m r) = (keys m).filter (fun k => decide (k ≠ r)) := by
  induction m with
  | nil => simp [delete, keys]
  | cons p m ih =>
    obtain ⟨k, v⟩ := p
    simp only [keys] at ih
    by_cases hk : k = r
    · simp [delete, keys, hk, ih]
    · simp [delete, keys, hk, ih]

theorem delete_of_none (m : rLimiterMap) (r : Routine) (h : lookup m r = none) :
    delete m r = m := by
  induction m with
  | nil => simp [delete]
  | cons p m ih =>
    obtain ⟨k, v⟩ := p
    by_cases hk : k = r
    · simp [lookup, hk] at h
    · simp [lookup, hk] at h
      simp [delete, hk, ih h]

theorem delete_append_single (m : rLimiterMap) (r : Routine) (l : Limiter) :
    delete (m ++ [(r, l)]) r = delete m r := by
  induction m with
  | nil => simp [delete]
  | cons p m ih =>
    obtain ⟨k, v⟩ := p
    by_cases hk : k = r
    · simp [delete, hk, ih]
    · simp [delete, hk, ih]

/-- C14 (name-collision resolution): the registration of a limiter requested as `n` stores it
under `n` followed by the first `k` characters of the sequence with values 65, 66, ...
modulo 256, for the least `k` whose name is not a key (`k = 0` when `n` is free), with the
original name `or = n`.  Three registrations of `"fetch"` are stored as `"fetch"`,
`"fetchA"` and `"fetchAB"`, each with original name `"fetch"`. -/
theorem name_collision (m : rLimiterMap) (n : Routine) (c down up min hold t0 : Int) :
    (∃ k l, lookup m (suffixed n k) = none ∧
      (∀ i, i < k → lookup m (suffixed n i) ≠ none) ∧
      (lookup m n = none → k = 0) ∧
      step m (.register n c down up min hold t0) = .next (store m (suffixed n k) l) [] ∧
      lookup (store m (suffixed n k) l) (suffixed n k) = some l ∧
      l.r = suffixed n k ∧ l.or = n) ∧
    PowerOn [.register "fetch" 5 2 1 1 30 0, .register "fetch" 6 2 1 1 30 1,
        .register "fetch" 7 2 1 1 30 2] =
      .next [("fetch", newLimiter "fetch" 5 2 1 1 30 0),
        ("fetchA", { newLimiter "fetch" 6 2 1 1 30 1 with r := "fetchA" }),
        ("fetchAB", { newLimiter "fetch" 7 2 1 1 30 2 with r := "fetchAB" })] [] := by
  refine ⟨?_, by decide⟩
  obtain ⟨r1, hu, -, hs⟩ := step_register m n c down up min hold t0
  have hu0 : uniqueLabel m (m.length + 1) (suffixed n 0) ((65 + 0) % 256) = some r1 := by
    rw [suffixed_zero]
    exact hu
  obtain ⟨k, -, hr, hn, hmin⟩ := uniqueLabel_suffixed m n (m.length + 1) 0 r1 hu0
  subst hr
  refine ⟨k, _, hn, fun i hi => hmin i (Nat.zero_le _) hi, ?_, hs, lookup_store_self _ _ _,
    rfl, rfl⟩
  intro hfree
  by_contra hk
  exact hmin 0 (le_refl _) (Nat.pos_of_ne_zero hk) (by rw [suffixed_zero]; exact hfree)

/-- One loop iteration keeps the keys of the map distinct. -/
theorem step_keys_nodup (m m1 : rLimiterMap) (e : Event) (sent : List Routine)
    (hs : step m e = .next m1 sent) (hm : (keys m).Nodup) : (keys m1).Nodup := by
  have hstore : ∀ (r : Routine) (l v : Limiter), lookup m r = some v →
      (keys (store m r l)).Nodup := by
    intro r l v h
    rw [keys_store_of_some m r l v h]
    exact hm
  have hthr : ∀ (f : Limiter → Limiter) (q : Routine),
      throttle f m q = .next m1 sent → (keys m1).Nodup := by
    intro f q ht
    unfold throttle at ht
    by_cases hq : q = "__all"
    · simp [hq] at ht
      obtain ⟨rfl, -⟩ := ht
      rw [keys_map]
      exact hm
    · cases hl : lookup m q with
      | none => simp [hq, hl] at ht
      | some v =>
        simp [hq, hl] at ht
        obtain ⟨rfl, -⟩ := ht
        exact hstore q _ v hl
  cases e with
  | register q c down up min hold t0 =>
    obtain ⟨r1, -, hfree, h1⟩ := step_register m q c down up min hold t0
    rw [h1] at hs
    simp at hs
    obtain ⟨rfl, -⟩ := hs
    rw [store_of_none m r1 _ hfree]
    have hnot : r1 ∉ keys m := (lookup_eq_none_iff m r1).mp hfree
    have hk : ∀ l : Limiter, keys (m ++ [(r1, l)]) = keys m ++ [r1] := by
      intro l
      simp [keys]
    rw [hk]
    refine List.Nodup.append hm (List.nodup_singleton _) ?_
    intro a ha hb
    have hab : a = r1 := by simpa using hb
    subst hab
    exact hnot ha
  | EndCh q =>
    simp only [step] at hs
    cases hl : lookup m q with
    | none => simp [hl] at hs
    | some v =>
      cases he : rEnd v with
      | none => simp [hl, he] at hs
      | some p =>
        obtain ⟨l1, b⟩ := p
        simp [hl, he] at hs
        obtain ⟨rfl, -⟩ := hs
        exact hstore q l1 v hl
  | rAskCh q =>
    simp only [step] at hs
    cases hl : lookup m q with
    | none => simp [hl] at hs
    | some v =>
      simp [hl] at hs
      obtain ⟨rfl, -⟩ := hs
      exact hstore q _ v hl
  | throttleDownCh q t0 => exact hthr _ q hs
  | throttleUpCh q t0 => exact hthr _ q hs
  | unRegisterCh q =>
    simp [step] at hs
    obtain ⟨rfl, -⟩ := hs
    rw [keys_delete]
    exact hm.filter _
  | ctxDone => simp [step] at hs

theorem run_keys_nodup : ∀ (es : List Event) (m m1 : rLimiterMap) (sent : List Routine),
    run m es = .next m1 sent → (keys m).Nodup → (keys m1).Nodup := by
  intro es
  induction es with
  | nil =>
    intro m m1 sent h hm
    simp [run] at h
    obtain ⟨rfl, -⟩ := h
    exact hm
  | cons e es ih =>
    intro m m1 sent h hm
    obtain ⟨ma, s1, s2, hs, hr, -⟩ := run_cons_inv m m1 e es sent h
    exact ih ma m1 s2 hr (step_keys_nodup m ma e s1 hs hm)

/-- C15 (registry uniqueness): a registration stores the new limiter under a name `r1` that
was not a key, as one entry added to the otherwise unchanged registry, so every other name
looks up as before and the registry has one entry more; and in every state the loop reaches
from the empty registry the keys are pairwise distinct. -/
theorem registry_uniqueness (m : rLimiterMap) (n : Routine) (c down up min hold t0 : Int) :
    (∃ r1 l1, lookup m r1 = none ∧
      step m (.register n c down up min hold t0) = .next (m ++ [(r1, l1)]) [] ∧
      l1.r = r1 ∧ (∀ q, q ≠ r1 → lookup (m ++ [(r1, l1)]) q = lookup m q) ∧
      (m ++ [(r1, l1)]).length = m.length + 1) ∧
    (∀ (es : List Event) (m1 : rLimiterMap) (sent : List Routine),
      PowerOn es = .next m1 sent → (keys m1).Nodup) := by
  constructor
  · obtain ⟨r1, -, hfree, hs⟩ := step_register m n c down up min hold t0
    rw [store_of_none m r1 _ hfree] at hs
    refine ⟨r1, _, hfree, hs, rfl, ?_, by simp⟩
    intro q hq
    rw [← store_of_none m r1 _ hfree]
    exact lookup_store_ne m r1 q _ hq
  · intro es m1 sent h
    exact run_keys_nodup es [] m1 sent h (by simp [keys])

/-- Witness for C15: a second `"fetch"` is added as `"fetchA"` after the existing entry, and
the keys of the state reached are distinct. -/
theorem registry_uniqueness_witness :
    step [("fetch", newLimiter "fetch" 5 2 1 1 30 0)] (.register "fetch" 6 2 1 1 30 1) =
      .next ([("fetch", newLimiter "fetch" 5 2 1 1 30 0)] ++
        [("fetchA", { newLimiter "fetch" 6 2 1 1 30 1 with r := "fetchA" })]) [] ∧
    PowerOn [.register "fetch" 5 2 1 1 30 0, .register "fetch" 6 2 1 1 30 1] =
      .next [("fetch", newLimiter "fetch" 5 2 1 1 30 0),
        ("fetchA", { newLimiter "fetch" 6 2 1 1 30 1 with r := "fetchA" })] [] ∧
    (keys [("fetch", newLimiter "fetch" 5 2 1 1 30 0),
        ("fetchA", { newLimiter "fetch" 6 2 1 1 30 1 with r := "fetchA" })]).Nodup :=
  ⟨by decide, by decide,
    (registry_uniqueness [] "fetch" 5 2 1 1 30 0).2
      [.register "fetch" 5 2 1 1 30 0, .register "fetch" 6 2 1 1 30 1]
      [("fetch", newLimiter "fetch" 5 2 1 1 30 0),
        ("fetchA", { newLimiter "fetch" 6 2 1 1 30 1 with r := "fetchA" })] [] (by decide)⟩

/-- C16 (Register and Unregister round trip): a registration requested as `n` in a registry
`R` stores the limiter under some name `r1`, and the Unregister of `r1` gives back exactly
`R`; and when `n` is not a key of `R`, a registration requested as `n` stores the limiter
under `n` itself. -/
theorem register_unregister_roundtrip (R : rLimiterMap) (n : Routine)
    (c down up min hold t0 : Int) :
    (∃ r1 m1, step R (.register n c down up min hold t0) = .next m1 [] ∧
      lookup m1 r1 = some { newLimiter n c down up min hold t0 with r := r1 } ∧
      step m1 (.unRegisterCh r1) = .next R [] ∧
      run R [.register n c down up min hold t0, .unRegisterCh r1] = .next R []) ∧
    (lookup R n = none →
      ∀ (c1 down1 up1 min1 hold1 t1 : Int),
        step R (.register n c1 down1 up1 min1 hold1 t1) =
          .next (R ++ [(n, newLimiter n c1 down1 up1 min1 hold1 t1)]) []) := by
  constructor
  · obtain ⟨r1, -, hfree, hs⟩ := step_register R n c down up min hold t0
    have hdel : step (store R r1 { newLimiter n c down up min hold t0 with r := r1 })
        (.unRegisterCh r1) = .next R [] := by
      simp only [step]
      rw [store_of_none R r1 _ hfree, delete_append_single, delete_of_none R r1 hfree]
    refine ⟨r1, _, hs, lookup_store_self _ _ _, hdel, ?_⟩
    rw [run_cons_next _ _ _ _ _ hs, run_cons_next _ _ _ _ _ hdel]
    simp [run]
  · intro hfree c1 down1 up1 min1 hold1 t1
    have hu : uniqueLabel R (R.length + 1) n 65 = some n := by
      simp [uniqueLabel, hfree]
    simp only [step, hu]
    rw [store_of_none R n _ hfree]
    rfl

/-- Witness for C16: `"fetch"` registered next to `"a"` and unregistered again; `"fetch"` is
free in the registry and would be stored unsuffixed. -/
theorem register_unregister_roundtrip_witness :
    lookup [("a", newLimiter "a" 5 2 1 1 30 0)] "fetch" = none ∧
    run [("a", newLimiter "a" 5 2 1 1 30 0)]
        [.register "fetch" 6 2 1 1 30 1, .unRegisterCh "fetch", .register "fetch" 7 2 1 1 30 2] =
      .next [("a", newLimiter "a" 5 2 1 1 30 0),
        ("fetch", newLimiter "fetch" 7 2 1 1 30 2)] [] ∧
    ∀ (c1 down1 up1 min1 hold1 t1 : Int),
      step [("a", newLimiter "a" 5 2 1 1 30 0)] (.register "fetch" c1 down1 up1 min1 hold1 t1) =
        .next ([("a", newLimiter "a" 5 2 1 1 30 0)] ++
          [("fetch", newLimiter "fetch" c1 down1 up1 min1 hold1 t1)]) [] :=
  ⟨by decide, by decide,
    (register_unregister_roundtrip [("a", newLimiter "a" 5 2 1 1 30 0)] "fetch"
      6 2 1 1 30 1).2 (by decide)⟩

/-- C17 (unknown name): for a name `r` that is not a key, the Acquire and the Release
handlers panic, so there is no next state and no notification; for a name that is a key
the Acquire handler goes on to the next iteration, and the Release handler does so
whenever `wg.Done()` does not panic, a panic of it coming from the WaitGroup counter of the
limiter found and not from the lookup. -/
theorem unknown_name (m : rLimiterMap) (r : Routine) :
    (lookup m r = none →
      step m (.rAskCh r) = .panic ∧ step m (.EndCh r) = .panic ∧
      (¬ ∃ m1 sent, step m (.rAskCh r) = .next m1 sent) ∧
      (¬ ∃ m1 sent, step m (.EndCh r) = .next m1 sent)) ∧
    (∀ l, lookup m r = some l →
      (∃ m1 sent, step m (.rAskCh r) = .next m1 sent) ∧
      (1 ≤ l.wg → ∃ m1 sent, step m (.EndCh r) = .next m1 sent) ∧
      (step m (.EndCh r) = .panic → l.wg - 1 < 0 ∧ rEnd l = none)) := by
  constructor
  · intro h
    have ha : step m (.rAskCh r) = .panic := by simp [step, h]
    have he : step m (.EndCh r) = .panic := by simp [step, h]
    refine ⟨ha, he, ?_, ?_⟩
    · rintro ⟨m1, sent, h1⟩
      rw [ha] at h1
      cases h1
    · rintro ⟨m1, sent, h1⟩
      rw [he] at h1
      cases h1
  · intro l h
    have hask : step m (.rAskCh r) =
        .next (store m r (rAsk l).1) (if (rAsk l).2 then [r] else []) := by
      simp only [step, h]
    have hend : ∀ l1 b, rEnd l = some (l1, b) →
        step m (.EndCh r) = .next (store m r l1) (if b then [r] else []) := by
      intro l1 b he
      simp only [step, h, he]
    have hsome : ¬ l.wg - 1 < 0 → ∃ l1 b, rEnd l = some (l1, b) := by
      intro hw
      by_cases hc : 0 < l.rWait ∧ l.rCnt - 1 < l.c
      · exact ⟨_, _, by simp only [rEnd, if_neg hw, if_pos hc]; exact rfl⟩
      · exact ⟨_, _, by simp only [rEnd, if_neg hw, if_neg hc]; exact rfl⟩
    refine ⟨⟨_, _, hask⟩, ?_, ?_⟩
    · intro hwg
      obtain ⟨l1, b, he⟩ := hsome (by omega)
      exact ⟨_, _, hend l1 b he⟩
    · intro hp
      by_cases hw : l.wg - 1 < 0
      · exact ⟨hw, by simp [rEnd, hw]⟩
      · exfalso
        obtain ⟨l1, b, he⟩ := hsome hw
        rw [hend l1 b he] at hp
        cases hp

/-- Witness for C17: `"b"` is not registered, `"a"` is, with one Acquire outstanding. -/
theorem unknown_name_witness :
    lookup [("a", { newLimiter "a" 5 2 1 1 30 0 with wg := 1, rCnt := 1 })] "b" = none ∧
    (step [("a", { newLimiter "a" 5 2 1 1 30 0 with wg := 1, rCnt := 1 })] (.rAskCh "b") =
        .panic ∧
      step [("a", { newLimiter "a" 5 2 1 1 30 0 with wg := 1, rCnt := 1 })] (.EndCh "b") =
        .panic ∧
      (¬ ∃ m1 sent, step [("a", { newLimiter "a" 5 2 1 1 30 0 with wg := 1, rCnt := 1 })]
        (.rAskCh "b") = .next m1 sent) ∧
      (¬ ∃ m1 sent, step [("a", { newLimiter "a" 5 2 1 1 30 0 with wg := 1, rCnt := 1 })]
        (.EndCh "b") = .next m1 sent)) ∧
    step [("a", { newLimiter "a" 5 2 1 1 30 0 with wg := 1, rCnt := 1 })] (.EndCh "a") =
      .next [("a", newLimiter "a" 5 2 1 1 30 0)] [] :=
  ⟨by decide,
    (unknown_name [("a", { newLimiter "a" 5 2 1 1 30 0 with wg := 1, rCnt := 1 })] "b").1
      (by decide),
    by decide⟩

/-! ## The statistics variant: averages of `report` -/

/-- The loop of `report` does not write an average at a count it has already passed. -/
theorem reportLoop_past (v : List Int) (last n : Nat) :
    ∀ (xs : List Int) (ii : Nat) (sum : Int) (avg : Nat → Option ℚ) (sk : List Int),
      n ≤ ii → (reportLoop v last xs ii sum avg sk).1 n = avg n := by
  intro xs
  induction xs with
  | nil => intro ii sum avg sk _; rfl
  | cons x rest ih =>
    intro ii sum avg sk h
    have hne : n ≠ ii + 1 := by omega
    simp only [reportLoop]
    rw [ih (ii + 1) _ _ _ (by omega)]
    split_ifs
    · exact Function.update_noteq hne _ _
    · rfl

/-- At a key `n` of `reportAvg[k]` that the loop of `report` still reaches, the value
written is the running sum up to the `n`-th newest sample divided by `n`. -/
theorem reportLoop_avg (v : List Int) (last n : Nat) :
    ∀ (xs : List Int) (ii : Nat) (sum : Int) (avg : Nat → Option ℚ) (sk : List Int),
      (avg n).isSome = true → ii < n → n ≤ ii + xs.length →
      (reportLoop v last xs ii sum avg sk).1 n =
        some (((sum + (xs.take (n - ii)).sum : Int) : ℚ) / (n : ℚ)) := by
  intro xs
  induction xs with
  | nil =>
    intro ii sum avg sk _ h1 h2
    simp at h2
    omega
  | cons x rest ih =>
    intro ii sum avg sk hs h1 h2
    simp only [reportLoop]
    by_cases hn : n = ii + 1
    · subst hn
      rw [reportLoop_past v last (ii + 1) rest (ii + 1) _ _ _ (le_refl _), if_pos hs]
      simp
    · have hlen : n ≤ ii + 1 + rest.length := by
        simp only [List.length_cons] at h2
        omega
      have hs1 : ((if (avg (ii + 1)).isSome = true then
          Function.update avg (ii + 1)
            (some (((sum + x : Int) : ℚ) / ((ii + 1 : Nat) : ℚ)))
          else avg) n).isSome = true := by
        split_ifs
        · rw [Function.update_noteq hn]
          exact hs
        · exact hs
      rw [ih (ii + 1) (sum + x) _ _ hs1 (by omega) hlen]
      have hk : n - ii = (n - (ii + 1)) + 1 := by omega
      rw [hk, List.take_succ_cons, List.sum_cons, add_assoc]

/-- The loop of `report` leaves `snap[k] = v[1:]` exactly when it reaches the count `last`. -/
theorem reportLoop_snap (v : List Int) (last : Nat) :
    ∀ (xs : List Int) (ii : Nat) (sum : Int) (avg : Nat → Option ℚ) (sk : List Int),
      (reportLoop v last xs ii sum avg sk).2 =
        if ii < last ∧ last ≤ ii + xs.length then v.tail else sk := by
  intro xs
  induction xs with
  | nil =>
    intro ii sum avg sk
    have h : ¬ (ii < last ∧ last ≤ ii + ([] : List Int).length) := by
      simp only [List.length_nil]
      omega
    rw [if_neg h]
    rfl
  | cons x rest ih =>
    intro ii sum avg sk
    simp only [reportLoop]
    rw [ih (ii + 1)]
    simp only [List.length_cons]
    by_cases h1 : ii + 1 = last
    · have ha : ¬ (ii + 1 < last ∧ last ≤ ii + 1 + rest.length) := by omega
      have hb : ii < last ∧ last ≤ ii + (rest.length + 1) := by omega
      rw [if_neg ha, if_pos h1, if_pos hb]
    · by_cases h2 : ii + 1 < last ∧ last ≤ ii + 1 + rest.length
      · have hb : ii < last ∧ last ≤ ii + (rest.length + 1) := by omega
        rw [if_pos h2, if_pos hb]
      · have hb : ¬ (ii < last ∧ last ≤ ii + (rest.length + 1)) := by omega
        rw [if_neg h2, if_neg h1, if_neg hb]

theorem getLast_numSamples : numSamplesAtRepInterval.getLastD 0 = 3600 := by decide

/-- The average `report` leaves at a key `n ≥ 1` of the sample map for a history of at
least `n` samples. -/
theorem report_avg (snap : Routine → Option (List Int)) (si : Nat) (k : Routine)
    (v : List Int) (n : Nat) (hk : snap k = some v)
    (hkey : n ∈ reportInterval.map (fun h => h / si)) (hpos : 0 < n) (hn : n ≤ v.length) :
    ∃ avg, (report snap si).1 k = some avg ∧
      avg n = some (((v.drop (v.length - n)).sum : ℚ) / (n : ℚ)) := by
  refine ⟨_, by simp only [report, hk, Option.map_some']; rfl, ?_⟩
  have hs : (sampleInit si n).isSome = true := by simp [sampleInit, hkey]
  rw [reportLoop_avg v _ n v.reverse 0 0 _ v hs hpos (by simpa using hn)]
  simp only [Nat.sub_zero, zero_add, List.take_reverse, List.sum_reverse]

/-! ## The statistics variant: the averages as doubles -/

theorem log2Floor_spec : ∀ (fuel n : Nat), n ≤ fuel → 1 ≤ n →
    2 ^ log2Floor fuel n ≤ n ∧ n < 2 ^ (log2Floor fuel n + 1) := by
  intro fuel
  induction fuel with
  | zero => intro n h1 h2; omega
  | succ fuel ih =>
    intro n h1 h2
    by_cases hn : n < 2
    · have : n = 1 := by omega
      subst this
      simp [log2Floor]
    · simp only [log2Floor, if_neg hn]
      obtain ⟨h3, h4⟩ := ih (n / 2) (by omega) (by omega)
      rw [pow_succ, pow_succ]
      rw [pow_succ] at h4
      constructor <;> omega

/-- The scaling by `2 ^ e` as a quotient of natural powers. -/
theorem pow_toNat_ratio (e : Int) :
    ((2 : ℚ) ^ (-e).toNat) / (2 : ℚ) ^ e.toNat = (2 : ℚ) ^ (-e) := by
  rcases le_total 0 e with h | h
  · have h1 : (-e).toNat = 0 := by omega
    have h2 : ((e.toNat : ℕ) : ℤ) = e := Int.toNat_of_nonneg h
    rw [h1, pow_zero, one_div, ← zpow_natCast, h2, zpow_neg]
  · have h1 : e.toNat = 0 := by omega
    have h2 : (((-e).toNat : ℕ) : ℤ) = -e := Int.toNat_of_nonneg (by omega)
    rw [h1, pow_zero, div_one, ← zpow_natCast, h2]

theorem scaled_cast (N D : Nat) (e : Int) :
    ((N * 2 ^ (-e).toNat : ℕ) : ℚ) / ((D * 2 ^ e.toNat : ℕ) : ℚ) =
      (N : ℚ) / (D : ℚ) * (2 : ℚ) ^ (-e) := by
  rw [← pow_toNat_ratio]
  push_cast
  field_simp

theorem log2Floor_cast (n : Nat) (h : 1 ≤ n) :
    (2 : ℚ) ^ log2Floor n n ≤ (n : ℚ) ∧ (n : ℚ) < 2 * (2 : ℚ) ^ log2Floor n n := by
  obtain ⟨h1, h2⟩ := log2Floor_spec n n (le_refl _) h
  constructor
  · exact_mod_cast h1
  · rw [pow_succ] at h2
    have : (n : ℚ) < ((2 ^ log2Floor n n * 2 : ℕ) : ℚ) := by exact_mod_cast h2
    push_cast at this
    linarith

/-- The exponent `f64Exp` brings `N / D` into the range of a 53-bit mantissa. -/
theorem f64Exp_spec (N D : Nat) (hN : 1 ≤ N) (hD : 1 ≤ D) :
    (2 : ℚ) ^ 52 ≤ (N : ℚ) / (D : ℚ) * (2 : ℚ) ^ (-(f64Exp N D)) ∧
      (N : ℚ) / (D : ℚ) * (2 : ℚ) ^ (-(f64Exp N D)) < (2 : ℚ) ^ 53 := by
  obtain ⟨ha1, ha2⟩ := log2Floor_cast N hN
  obtain ⟨hb1, hb2⟩ := log2Floor_cast D hD
  set la := log2Floor N N with hla
  set lb := log2Floor D D with hlb
  have hP : (0 : ℚ) < (2 : ℚ) ^ la := by positivity
  have hQ : (0 : ℚ) < (2 : ℚ) ^ lb := by positivity
  have hDq : (0 : ℚ) < (D : ℚ) := by exact_mod_cast hD
  have hNq : (0 : ℚ) < (N : ℚ) := by exact_mod_cast hN
  set e0 : Int := (la : Int) - (lb : Int) - 52 with he0
  have hpow : (2 : ℚ) ^ (-e0) = (2 : ℚ) ^ 52 * (2 : ℚ) ^ lb / (2 : ℚ) ^ la := by
    have : -e0 = (52 : ℤ) + (lb : ℤ) - (la : ℤ) := by omega
    rw [this, zpow_sub₀ (two_ne_zero), zpow_add₀ (two_ne_zero), zpow_natCast, zpow_natCast]
    norm_num
  have hX0 : (N : ℚ) / (D : ℚ) * (2 : ℚ) ^ (-e0) =
      (N : ℚ) * (2 : ℚ) ^ 52 * (2 : ℚ) ^ lb / ((D : ℚ) * (2 : ℚ) ^ la) := by
    rw [hpow]
    field_simp
    ring
  have hup : (N : ℚ) / (D : ℚ) * (2 : ℚ) ^ (-e0) < (2 : ℚ) ^ 53 := by
    rw [hX0, div_lt_iff₀ (by positivity)]
    have h1 : (N : ℚ) * (2 : ℚ) ^ lb < 2 * (2 : ℚ) ^ la * (D : ℚ) := by
      calc (N : ℚ) * (2 : ℚ) ^ lb < 2 * (2 : ℚ) ^ la * (2 : ℚ) ^ lb := by
            apply mul_lt_mul_of_pos_right ha2 hQ
        _ ≤ 2 * (2 : ℚ) ^ la * (D : ℚ) := by
            apply mul_le_mul_of_nonneg_left hb1 (by positivity)
    nlinarith [h1]
  have hlo : (2 : ℚ) ^ 51 < (N : ℚ) / (D : ℚ) * (2 : ℚ) ^ (-e0) := by
    rw [hX0, lt_div_iff₀ (by positivity)]
    have h1 : (2 : ℚ) ^ la * (D : ℚ) < (N : ℚ) * (2 * (2 : ℚ) ^ lb) := by
      calc (2 : ℚ) ^ la * (D : ℚ) < (2 : ℚ) ^ la * (2 * (2 : ℚ) ^ lb) := by
            apply mul_lt_mul_of_pos_left hb2 hP
        _ ≤ (N : ℚ) * (2 * (2 : ℚ) ^ lb) := by
            apply mul_le_mul_of_nonneg_right ha1 (by positivity)
    nlinarith [h1]
  have hcond : (N * 2 ^ (-e0).toNat < 2 ^ 52 * (D * 2 ^ e0.toNat)) ↔
      (N : ℚ) / (D : ℚ) * (2 : ℚ) ^ (-e0) < (2 : ℚ) ^ 52 := by
    rw [← scaled_cast, div_lt_iff₀ (by positivity)]
    constructor
    · intro h
      exact_mod_cast h
    · intro h
      exact_mod_cast h
  have hexp : f64Exp N D = if N * 2 ^ (-e0).toNat < 2 ^ 52 * (D * 2 ^ e0.toNat)
      then e0 - 1 else e0 := rfl
  by_cases hc : N * 2 ^ (-e0).toNat < 2 ^ 52 * (D * 2 ^ e0.toNat)
  · rw [hexp, if_pos hc]
    have hlt := hcond.1 hc
    have h2 : (2 : ℚ) ^ (-(e0 - 1)) = 2 * (2 : ℚ) ^ (-e0) := by
      have : -(e0 - 1) = 1 + -e0 := by ring
      rw [this, zpow_add₀ (two_ne_zero), zpow_one]
    rw [h2]
    constructor
    · have : (2 : ℚ) ^ 52 = 2 * (2 : ℚ) ^ 51 := by norm_num
      nlinarith [hlo]
    · have : (2 : ℚ) ^ 53 = 2 * (2 : ℚ) ^ 52 := by norm_num
      nlinarith [hlt]
  · rw [hexp, if_neg hc]
    have hge : ¬ ((N : ℚ) / (D : ℚ) * (2 : ℚ) ^ (-e0) < (2 : ℚ) ^ 52) := fun h => hc (hcond.2 h)
    exact ⟨not_lt.1 hge, hup⟩

theorem roundHalfEven_mul (K D : Nat) (hD : 1 ≤ D) : roundHalfEven (K * D) D = K := by
  have h1 : K * D % D = 0 := Nat.mul_mod_left K D
  have h2 : K * D / D = K := Nat.mul_div_cancel K (by omega)
  simp only [roundHalfEven, h1, h2]
  rw [if_pos (by omega)]

/-- A quotient `N / D` that is a natural number below `2 ^ 53` times a power of two is a
double: `f64Pos` returns it unchanged. -/
theorem f64Pos_exact (N D A : Nat) (z : Int) (hN : 1 ≤ N) (hD : 1 ≤ D)
    (hA : A < 2 ^ 53) (h : (N : ℚ) / (D : ℚ) = (A : ℚ) * (2 : ℚ) ^ z) :
    ((f64Pos N D).1 : ℚ) * (2 : ℚ) ^ (f64Pos N D).2 = (N : ℚ) / (D : ℚ) := by
  obtain ⟨h52, h53⟩ := f64Exp_spec N D hN hD
  set e := f64Exp N D with he
  have hX : (N : ℚ) / (D : ℚ) * (2 : ℚ) ^ (-e) = (A : ℚ) * (2 : ℚ) ^ (z - e) := by
    rw [h, mul_assoc, ← zpow_add₀ (two_ne_zero)]
    congr 2
  rw [hX] at h52 h53
  have hAq : (A : ℚ) < (2 : ℚ) ^ 53 := by exact_mod_cast hA
  have hA0 : (0 : ℚ) ≤ (A : ℚ) := Nat.cast_nonneg A
  have hze : 0 ≤ z - e := by
    by_contra hneg
    have hle : z - e ≤ -1 := by omega
    have hp : (2 : ℚ) ^ (z - e) ≤ (2 : ℚ) ^ (-1 : ℤ) :=
      zpow_le_zpow_right₀ (by norm_num) hle
    have hp1 : (2 : ℚ) ^ (-1 : ℤ) = 1 / 2 := by norm_num
    rw [hp1] at hp
    have : (A : ℚ) * (2 : ℚ) ^ (z - e) ≤ (A : ℚ) * (1 / 2) :=
      mul_le_mul_of_nonneg_left hp hA0
    have h2 : (2 : ℚ) ^ 53 = 2 * (2 : ℚ) ^ 52 := by norm_num
    linarith
  obtain ⟨k, hk⟩ : ∃ k : ℕ, z - e = (k : ℤ) := ⟨(z - e).toNat, (Int.toNat_of_nonneg hze).symm⟩
  rw [hk, zpow_natCast] at hX h52 h53
  have hD' : 1 ≤ D * 2 ^ e.toNat := Nat.one_le_iff_ne_zero.2 (by positivity)
  have hmul : N * 2 ^ (-e).toNat = A * 2 ^ k * (D * 2 ^ e.toNat) := by
    have h1 := scaled_cast N D e
    rw [hX] at h1
    have hpos : (0 : ℚ) < ((D * 2 ^ e.toNat : ℕ) : ℚ) := by exact_mod_cast hD'
    rw [div_eq_iff (ne_of_gt hpos)] at h1
    exact_mod_cast h1
  have hK : A * 2 ^ k < 2 ^ 53 := by exact_mod_cast h53
  have hround : roundHalfEven (N * 2 ^ (-e).toNat) (D * 2 ^ e.toNat) = A * 2 ^ k := by
    rw [hmul]
    exact roundHalfEven_mul _ _ hD'
  have hpos : f64Pos N D = (A * 2 ^ k, e) := by
    simp only [f64Pos, ← he, hround]
    rw [if_neg (by omega)]
  rw [hpos]
  simp only
  push_cast
  have : (N : ℚ) / (D : ℚ) = (N : ℚ) / (D : ℚ) * (2 : ℚ) ^ (-e) * (2 : ℚ) ^ e := by
    rw [mul_assoc, ← zpow_add₀ (two_ne_zero)]
    simp
  rw [this, hX]

theorem f64Parts_exact (num : Int) (den A : Nat) (z : Int) (hden : 1 ≤ den)
    (hA : A < 2 ^ 53) (h : |(num : ℚ)| / (den : ℚ) = (A : ℚ) * (2 : ℚ) ^ z) :
    f64Val (f64Parts num den) = (num : ℚ) / (den : ℚ) := by
  by_cases h0 : num = 0
  · subst h0
    simp [f64Parts, f64Val]
  · have hden0 : den ≠ 0 := by omega
    have hN : 1 ≤ num.natAbs := Nat.one_le_iff_ne_zero.2 (Int.natAbs_ne_zero.2 h0)
    have habs : ((num.natAbs : ℕ) : ℚ) = |(num : ℚ)| := by
      rw [Nat.cast_natAbs, Int.cast_abs]
    have hex := f64Pos_exact num.natAbs den A z hN hden hA (by rw [habs]; exact h)
    have hsign : ((num.sign : ℤ) : ℚ) * |(num : ℚ)| = (num : ℚ) := by
      rw [← Int.cast_abs, ← Int.cast_mul, Int.sign_mul_abs]
    simp only [f64Parts, f64Val, h0, hden0, or_self, if_false]
    push_cast
    rw [mul_assoc, hex, habs, ← mul_div_assoc, hsign]

/-- An `int` below `2 ^ 53` in magnitude is converted to a `float64` without change. -/
theorem float64_exact (x : Int) (h : x.natAbs < 2 ^ 53) : f64Val (float64 x) = (x : ℚ) := by
  have habs : ((x.natAbs : ℕ) : ℚ) = |(x : ℚ)| := by
    rw [Nat.cast_natAbs, Int.cast_abs]
  have := f64Parts_exact x 1 x.natAbs 0 (le_refl _) h (by simp [habs])
  simpa [float64] using this

/-- The `float64` of a positive `int` below `2 ^ 53` has a positive mantissa. -/
theorem float64_natCast (n : Nat) (hn : 1 ≤ n) (h : n < 2 ^ 53) :
    ∃ m : Nat, 1 ≤ m ∧ (float64 (n : Int)).1 = (m : Int) ∧
      (m : ℚ) * (2 : ℚ) ^ (float64 (n : Int)).2 = (n : ℚ) := by
  have h0 : (n : Int) ≠ 0 := by omega
  have hs : (n : Int).sign = 1 := Int.sign_eq_one_of_pos (by omega)
  have h1 : (float64 (n : Int)).1 = ((f64Pos (n : Int).natAbs 1).1 : Int) := by
    simp [float64, f64Parts, h0, hs]
  have hv := float64_exact (n : Int) (by simpa using h)
  simp only [f64Val, h1] at hv
  push_cast at hv
  refine ⟨(f64Pos (n : Int).natAbs 1).1, ?_, h1, hv⟩
  by_contra hm
  have hm0 : (f64Pos (n : Int).natAbs 1).1 = 0 := by omega
  rw [hm0] at hv
  have hq : (n : ℚ) = 0 := by
    rw [← hv]
    simp
  have hn0 : n = 0 := by exact_mod_cast hq
  omega

/-- `roundHalfEven N D` is within one half of `N / D`. -/
theorem roundHalfEven_near (N D : Nat) (hD : 1 ≤ D) :
    |((roundHalfEven N D : ℕ) : ℚ) - (N : ℚ) / (D : ℚ)| ≤ 1 / 2 := by
  have hDq : (0 : ℚ) < (D : ℚ) := by exact_mod_cast hD
  have hdm : D * (N / D) + N % D = N := Nat.div_add_mod N D
  have hlt : N % D < D := Nat.mod_lt N (by omega)
  have hN : (N : ℚ) = (D : ℚ) * ((N / D : ℕ) : ℚ) + ((N % D : ℕ) : ℚ) := by exact_mod_cast hdm.symm
  have hr0 : (0 : ℚ) ≤ ((N % D : ℕ) : ℚ) := Nat.cast_nonneg _
  have hquot : (N : ℚ) / (D : ℚ) = ((N / D : ℕ) : ℚ) + ((N % D : ℕ) : ℚ) / (D : ℚ) := by
    rw [hN]
    field_simp
    ring
  rw [hquot, abs_le]
  have hfrac0 : (0 : ℚ) ≤ ((N % D : ℕ) : ℚ) / (D : ℚ) := div_nonneg hr0 hDq.le
  simp only [roundHalfEven]
  split_ifs with h1 h2 h3
  · have : ((N % D : ℕ) : ℚ) / (D : ℚ) ≤ 1 / 2 := by
      rw [div_le_iff₀ hDq]
      have : (2 * (N % D) : ℕ) < D := h1
      have h' : (2 : ℚ) * ((N % D : ℕ) : ℚ) < (D : ℚ) := by exact_mod_cast this
      linarith
    constructor <;> linarith
  · have hge : (1 : ℚ) / 2 ≤ ((N % D : ℕ) : ℚ) / (D : ℚ) := by
      rw [le_div_iff₀ hDq]
      have h' : (D : ℚ) < (2 : ℚ) * ((N % D : ℕ) : ℚ) := by exact_mod_cast h2
      linarith
    have hle : ((N % D : ℕ) : ℚ) / (D : ℚ) ≤ 1 := by
      rw [div_le_one hDq]
      exact_mod_cast hlt.le
    push_cast
    constructor <;> linarith
  · have heq : 2 * (N % D) = D := by omega
    have : ((N % D : ℕ) : ℚ) / (D : ℚ) = 1 / 2 := by
      rw [div_eq_iff (ne_of_gt hDq)]
      have h' : (2 : ℚ) * ((N % D : ℕ) : ℚ) = (D : ℚ) := by exact_mod_cast heq
      linarith
    constructor <;> linarith
  · have heq : 2 * (N % D) = D := by omega
    have : ((N % D : ℕ) : ℚ) / (D : ℚ) = 1 / 2 := by
      rw [div_eq_iff (ne_of_gt hDq)]
      have h' : (2 : ℚ) * ((N % D : ℕ) : ℚ) = (D : ℚ) := by exact_mod_cast heq
      linarith
    push_cast
    constructor <;> linarith

/-- The value of `f64Pos N D` is `roundHalfEven` of the scaled quotient times `2 ^ e`. -/
theorem f64Pos_val (N D : Nat) :
    ((f64Pos N D).1 : ℚ) * (2 : ℚ) ^ (f64Pos N D).2 =
      ((roundHalfEven (N * 2 ^ (-(f64Exp N D)).toNat) (D * 2 ^ (f64Exp N D).toNat) : ℕ) : ℚ) *
        (2 : ℚ) ^ (f64Exp N D) := by
  simp only [f64Pos]
  split_ifs with h
  · rw [h]
    simp only
    rw [zpow_add₀ (two_ne_zero), zpow_one]
    push_cast
    ring
  · rfl

/-- `f64Pos N D` is within half a unit in the last place of `N / D`, which is at most
`N / D` times `2 ^ (-53)`. -/
theorem f64Pos_near (N D : Nat) (hN : 1 ≤ N) (hD : 1 ≤ D) :
    |((f64Pos N D).1 : ℚ) * (2 : ℚ) ^ (f64Pos N D).2 - (N : ℚ) / (D : ℚ)| ≤
      (N : ℚ) / (D : ℚ) / (2 : ℚ) ^ 53 := by
  obtain ⟨h52, -⟩ := f64Exp_spec N D hN hD
  set e := f64Exp N D with he
  have hD' : 1 ≤ D * 2 ^ e.toNat := Nat.one_le_iff_ne_zero.2 (by positivity)
  have hnear := roundHalfEven_near (N * 2 ^ (-e).toNat) (D * 2 ^ e.toNat) hD'
  rw [scaled_cast] at hnear
  rw [f64Pos_val, ← he]
  set m : ℚ := ((roundHalfEven (N * 2 ^ (-e).toNat) (D * 2 ^ e.toNat) : ℕ) : ℚ) with hm
  set X : ℚ := (N : ℚ) / (D : ℚ) * (2 : ℚ) ^ (-e) with hX
  have hpe : (0 : ℚ) < (2 : ℚ) ^ e := by positivity
  have hq : (N : ℚ) / (D : ℚ) = X * (2 : ℚ) ^ e := by
    rw [hX, mul_assoc, ← zpow_add₀ (two_ne_zero)]
    simp
  rw [hq, ← sub_mul, abs_mul, abs_of_pos hpe, mul_div_right_comm]
  apply mul_le_mul_of_nonneg_right _ hpe.le
  have h53 : (2 : ℚ) ^ 53 = 2 * (2 : ℚ) ^ 52 := by norm_num
  rw [le_div_iff₀ (by positivity)]
  have habs : (0 : ℚ) ≤ |m - X| := abs_nonneg _
  nlinarith [hnear, h52, habs]

theorem f64Parts_near (num : Int) (den : Nat) (hden : 1 ≤ den) :
    |f64Val (f64Parts num den) - (num : ℚ) / (den : ℚ)| ≤
      |(num : ℚ) / (den : ℚ)| / (2 : ℚ) ^ 53 := by
  by_cases h0 : num = 0
  · subst h0
    simp [f64Parts, f64Val]
  · have hden0 : den ≠ 0 := by omega
    have hdq : (0 : ℚ) < (den : ℚ) := by exact_mod_cast hden
    have hN : 1 ≤ num.natAbs := Nat.one_le_iff_ne_zero.2 (Int.natAbs_ne_zero.2 h0)
    have habs : ((num.natAbs : ℕ) : ℚ) = |(num : ℚ)| := by
      rw [Nat.cast_natAbs, Int.cast_abs]
    have hnear := f64Pos_near num.natAbs den hN hden
    rw [habs] at hnear
    have hsign : ((num.sign : ℤ) : ℚ) * |(num : ℚ)| = (num : ℚ) := by
      rw [← Int.cast_abs, ← Int.cast_mul, Int.sign_mul_abs]
    have hs1 : |((num.sign : ℤ) : ℚ)| = 1 := by
      rcases lt_or_gt_of_ne h0 with h | h
      · rw [Int.sign_eq_neg_one_of_neg h]
        norm_num
      · rw [Int.sign_eq_one_of_pos h]
        norm_num
    simp only [f64Parts, f64Val, h0, hden0, or_self, if_false]
    push_cast
    have hrew : ((num.sign : ℤ) : ℚ) * ((f64Pos num.natAbs den).1 : ℚ) *
        (2 : ℚ) ^ (f64Pos num.natAbs den).2 - (num : ℚ) / (den : ℚ) =
        ((num.sign : ℤ) : ℚ) * (((f64Pos num.natAbs den).1 : ℚ) *
          (2 : ℚ) ^ (f64Pos num.natAbs den).2 - |(num : ℚ)| / (den : ℚ)) := by
      rw [mul_sub, ← mul_div_assoc, hsign]
      ring
    rw [hrew, abs_mul, hs1, one_mul, abs_div, abs_of_pos hdq]
    exact hnear

/-- `float64(S) / float64(n)` is the double of a quotient of two integers, scaled by a power
of two, whose rational value is `S / n`, when both `S` and `n` are below `2 ^ 53`. -/
theorem avgF64_split (S : Int) (n : Nat) (hn : 1 ≤ n) (hn53 : n < 2 ^ 53)
    (hS : S.natAbs < 2 ^ 53) :
    ∃ (num : Int) (den : Nat) (z : Int), 1 ≤ den ∧
      avgF64 S n = f64Val (f64Parts num den) * (2 : ℚ) ^ z ∧
      (num : ℚ) / (den : ℚ) * (2 : ℚ) ^ z = (S : ℚ) / (n : ℚ) := by
  obtain ⟨m2, hm2, hb1, hbv⟩ := float64_natCast n hn hn53
  have hv1 := float64_exact S hS
  set p1 := float64 S with hp1
  set p2 := float64 (n : Int) with hp2
  simp only [f64Val] at hv1
  have hsign : p2.1.sign = 1 := by
    rw [hb1]
    exact Int.sign_eq_one_of_pos (by omega)
  have hnat : p2.1.natAbs = m2 := by
    rw [hb1]
    simp
  have hm2q : (0 : ℚ) < (m2 : ℚ) := by exact_mod_cast hm2
  have hp2pos : (0 : ℚ) < (2 : ℚ) ^ p2.2 := by positivity
  refine ⟨p1.1, m2, p1.2 - p2.2, hm2, ?_, ?_⟩
  · simp only [avgF64, f64Div, ← hp1, ← hp2, hsign, hnat, mul_one, f64Val]
    have hsplit : (2 : ℚ) ^ ((f64Parts p1.1 m2).2 + p1.2 - p2.2) =
        (2 : ℚ) ^ (f64Parts p1.1 m2).2 * (2 : ℚ) ^ (p1.2 - p2.2) := by
      rw [← zpow_add₀ (two_ne_zero)]
      congr 1
      ring
    rw [hsplit, mul_assoc]
  · rw [← hv1, ← hbv, zpow_sub₀ (two_ne_zero)]
    field_simp

/-- The quotient of two `int`s as `float64` is their exact quotient when that is a whole
number and the sum is below `2 ^ 53` in magnitude. -/
theorem avgF64_exact (a : Int) (n : Nat) (hn : 1 ≤ n) (h : (a * (n : Int)).natAbs < 2 ^ 53) :
    avgF64 (a * (n : Int)) n = (a : ℚ) := by
  by_cases ha : a = 0
  · subst ha
    simp [avgF64, f64Div, float64, f64Parts, f64Val]
  · have hnq : (0 : ℚ) < (n : ℚ) := by exact_mod_cast hn
    have hna : 1 ≤ a.natAbs := Nat.one_le_iff_ne_zero.2 (Int.natAbs_ne_zero.2 ha)
    have hmul : (a * (n : Int)).natAbs = a.natAbs * n := by
      rw [Int.natAbs_mul, Int.natAbs_ofNat]
    have hn53 : n < 2 ^ 53 := by
      have : n ≤ a.natAbs * n := Nat.le_mul_of_pos_left n (by omega)
      omega
    have ha53 : a.natAbs < 2 ^ 53 := by
      have : a.natAbs ≤ a.natAbs * n := Nat.le_mul_of_pos_right _ (by omega)
      omega
    obtain ⟨num, den, z, hden, havg, hval⟩ := avgF64_split (a * (n : Int)) n hn hn53 h
    have hdq : (0 : ℚ) < (den : ℚ) := by exact_mod_cast hden
    have hpz : (0 : ℚ) < (2 : ℚ) ^ z := by positivity
    have hquot : (num : ℚ) / (den : ℚ) = (a : ℚ) * (2 : ℚ) ^ (-z) := by
      have h1 : (num : ℚ) / (den : ℚ) * (2 : ℚ) ^ z = (a : ℚ) := by
        rw [hval]
        push_cast
        field_simp
      rw [← h1, mul_assoc, ← zpow_add₀ (two_ne_zero)]
      simp
    have hex := f64Parts_exact num den a.natAbs (-z) hden ha53 (by
      rw [← abs_of_pos hdq, ← abs_div, hquot, abs_mul,
        abs_of_pos (by positivity : (0 : ℚ) < (2 : ℚ) ^ (-z)), Nat.cast_natAbs, Int.cast_abs])
    rw [havg, hex, hquot, mul_assoc, ← zpow_add₀ (two_ne_zero)]
    simp

/-- `float64(S) / float64(n)` is within `2 ^ (-53)` of `S / n`, relative to `S / n`, when
both are below `2 ^ 53`: no double is nearer to `S / n` than half a unit in the last
place. -/
theorem avgF64_near (S : Int) (n : Nat) (hn : 1 ≤ n) (hn53 : n < 2 ^ 53)
    (hS : S.natAbs < 2 ^ 53) :
    |avgF64 S n - (S : ℚ) / (n : ℚ)| ≤ |(S : ℚ) / (n : ℚ)| / (2 : ℚ) ^ 53 := by
  obtain ⟨num, den, z, hden, havg, hval⟩ := avgF64_split S n hn hn53 hS
  have hpz : (0 : ℚ) < (2 : ℚ) ^ z := by positivity
  have hnear := f64Parts_near num den hden
  rw [havg, ← hval, ← sub_mul, abs_mul, abs_mul, abs_of_pos hpz, mul_div_right_comm]
  exact mul_le_mul_of_nonneg_right hnear hpz.le

/-- Some doubles: 1, 5, an odd integer above `2 ^ 53`, the largest `int`, and the quotients
`1 / 5`, `40 / 5` and `-1 / 3`. -/
theorem f64_examples :
    float64 1 = (4503599627370496, -52) ∧ float64 5 = (5629499534213120, -50) ∧
    float64 9007199254740993 = (4503599627370496, 1) ∧
    float64 9223372036854775807 = (4503599627370496, 11) ∧
    f64Div (float64 1) (float64 5) = (7205759403792794, -55) ∧
    f64Div (float64 40) (float64 5) = (4503599627370496, -49) ∧
    f64Div (float64 (-1)) (float64 3) = (-6004799503160661, -54) := by
  decide

theorem avgF64_one_fifth : avgF64 1 5 = 7205759403792794 / 36028797018963968 := by
  have h : f64Div (float64 1) (float64 ((5 : Nat) : Int)) = (7205759403792794, -55) := by
    decide
  simp only [avgF64, h, f64Val]
  norm_num

theorem avgF64_forty_fifths : avgF64 40 5 = 8 := by
  have h : f64Div (float64 40) (float64 ((5 : Nat) : Int)) = (4503599627370496, -49) := by
    decide
  simp only [avgF64, h, f64Val]
  norm_num

/-- The loop of `report` does not write an average at a count it has already passed. -/
theorem reportLoopF64_past (v : List Int) (last n : Nat) :
    ∀ (xs : List Int) (ii : Nat) (sum : Int) (avg : Nat → Option ℚ) (sk : List Int),
      n ≤ ii → (reportLoopF64 v last xs ii sum avg sk).1 n = avg n := by
  intro xs
  induction xs with
  | nil => intro ii sum avg sk _; rfl
  | cons x rest ih =>
    intro ii sum avg sk h
    have hne : n ≠ ii + 1 := by omega
    simp only [reportLoopF64]
    rw [ih (ii + 1) _ _ _ (by omega)]
    split_ifs
    · exact Function.update_noteq hne _ _
    · rfl

/-- At a key `n` of `reportAvg[k]` that the loop of `report` still reaches, the value
written is `float64(sum) / float64(n)` for the running sum up to the `n`-th newest
sample. -/
theorem reportLoopF64_avg (v : List Int) (last n : Nat) :
    ∀ (xs : List Int) (ii : Nat) (sum : Int) (avg : Nat → Option ℚ) (sk : List Int),
      (avg n).isSome = true → ii < n → n ≤ ii + xs.length →
      (reportLoopF64 v last xs ii sum avg sk).1 n =
        some (avgF64 (sum + (xs.take (n - ii)).sum) n) := by
  intro xs
  induction xs with
  | nil =>
    intro ii sum avg sk _ h1 h2
    simp at h2
    omega
  | cons x rest ih =>
    intro ii sum avg sk hs h1 h2
    simp only [reportLoopF64]
    by_cases hn : n = ii + 1
    · subst hn
      rw [reportLoopF64_past v last (ii + 1) rest (ii + 1) _ _ _ (le_refl _), if_pos hs]
      simp
    · have hlen : n ≤ ii + 1 + rest.length := by
        simp only [List.length_cons] at h2
        omega
      have hs1 : ((if (avg (ii + 1)).isSome = true then
          Function.update avg (ii + 1) (some (avgF64 (sum + x) (ii + 1)))
          else avg) n).isSome = true := by
        split_ifs
        · rw [Function.update_noteq hn]
          exact hs
        · exact hs
      rw [ih (ii + 1) (sum + x) _ _ hs1 (by omega) hlen]
      have hk : n - ii = (n - (ii + 1)) + 1 := by omega
      rw [hk, List.take_succ_cons, List.sum_cons, add_assoc]

/-- The average `report` leaves at a key `n ≥ 1` of the sample map for a history of at
least `n` samples. -/
theorem reportF64_avg (snap : Routine → Option (List Int)) (si : Nat) (k : Routine)
    (v : List Int) (n : Nat) (hk : snap k = some v)
    (hkey : n ∈ reportInterval.map (fun h => h / si)) (hpos : 0 < n) (hn : n ≤ v.length) :
    ∃ avg, (reportF64 snap si).1 k = some avg ∧
      avg n = some (avgF64 (v.drop (v.length - n)).sum n) := by
  refine ⟨_, by simp only [reportF64, hk, Option.map_some']; rfl, ?_⟩
  have hs : (sampleInit si n).isSome = true := by simp [sampleInit, hkey]
  rw [reportLoopF64_avg v _ n v.reverse 0 0 _ v hs hpos (by simpa using hn)]
  simp only [Nat.sub_zero, zero_add, List.take_reverse, List.sum_reverse]

/-- C18 as stated fails: for the history 0, 0, 0, 0, 1 and the 10 s horizon (5 samples) the
average `report` computes is the double `7205759403792794 / 2 ^ 55`, which is not
`1 / 5`. -/
theorem moving_average_rounding_counterexample :
    (10 ∈ reportInterval ∧ 10 / snapInterval = 5 ∧
      10 / snapInterval ≤ [(0 : Int), 0, 0, 0, 1].length ∧
      ([(0 : Int), 0, 0, 0, 1].drop ([(0 : Int), 0, 0, 0, 1].length - 5)).sum = 1) ∧
    (∃ avg, (reportF64 (fun q : Routine => if q = "a" then some [(0 : Int), 0, 0, 0, 1]
          else none) snapInterval).1 "a" = some avg ∧
      avg 5 = some (7205759403792794 / 36028797018963968)) ∧
    (7205759403792794 / 36028797018963968 : ℚ) ≠ 1 / 5 ∧
    (36028797018963968 : ℚ) = 2 ^ 55 := by
  refine ⟨by decide, ?_, by norm_num, by norm_num⟩
  obtain ⟨avg, ha, hv⟩ := reportF64_avg
    (fun q : Routine => if q = "a" then some [(0 : Int), 0, 0, 0, 1] else none) snapInterval
    "a" [0, 0, 0, 0, 1] 5 (by simp) (by decide) (by decide) (by decide)
  refine ⟨avg, ha, ?_⟩
  rw [hv]
  have hsum : ([(0 : Int), 0, 0, 0, 1].drop ([(0 : Int), 0, 0, 0, 1].length - 5)).sum = 1 := by
    decide
  rw [hsum, avgF64_one_fifth]

/-- C18 (moving average, amended): for a history `v` (oldest first) stored under `k` and a
horizon `h` of `reportInterval` whose sample count `n = h / snapInterval` is at most
`len(v)`, the value `report` leaves in `reportAvg[k][n]` is `float64(S) / float64(n)`, the
quotient as a double, for the sum `S` of the `n` newest samples of `v`.  For `S` below
`2 ^ 53` in magnitude it is `S / n` itself when `S / n` is a whole number, and in any case
within `2 ^ (-53)` of `S / n`, relative to `S / n`.  Any other history with the same `n`
newest samples gives the same value. -/
theorem moving_average (snap : Routine → Option (List Int)) (k : Routine) (v : List Int)
    (h : Nat) (hk : snap k = some v) (hh : h ∈ reportInterval)
    (hn : h / snapInterval ≤ v.length) :
    ∃ avg, (reportF64 snap snapInterval).1 k = some avg ∧
      avg (h / snapInterval) =
        some (avgF64 (v.drop (v.length - h / snapInterval)).sum (h / snapInterval)) ∧
      (∀ a : Int, (v.drop (v.length - h / snapInterval)).sum = a * ((h / snapInterval : Nat) : Int) →
        ((v.drop (v.length - h / snapInterval)).sum).natAbs < 2 ^ 53 →
        avg (h / snapInterval) = some (a : ℚ)) ∧
      (((v.drop (v.length - h / snapInterval)).sum).natAbs < 2 ^ 53 →
        |avgF64 (v.drop (v.length - h / snapInterval)).sum (h / snapInterval) -
            (((v.drop (v.length - h / snapInterval)).sum : Int) : ℚ) /
              ((h / snapInterval : Nat) : ℚ)| ≤
          |(((v.drop (v.length - h / snapInterval)).sum : Int) : ℚ) /
              ((h / snapInterval : Nat) : ℚ)| / (2 : ℚ) ^ 53) ∧
      ∀ (snap1 : Routine → Option (List Int)) (v1 : List Int), snap1 k = some v1 →
        h / snapInterval ≤ v1.length →
        v1.drop (v1.length - h / snapInterval) = v.drop (v.length - h / snapInterval) →
        ∃ avg1, (reportF64 snap1 snapInterval).1 k = some avg1 ∧
          avg1 (h / snapInterval) = avg (h / snapInterval) := by
  have hkey : h / snapInterval ∈ reportInterval.map (fun h => h / snapInterval) :=
    List.mem_map_of_mem _ hh
  have hall : ∀ x ∈ reportInterval, 0 < x / snapInterval ∧ x / snapInterval < 2 ^ 53 := by
    decide
  have hpos : 0 < h / snapInterval := (hall h hh).1
  have h53 : h / snapInterval < 2 ^ 53 := (hall h hh).2
  obtain ⟨avg, ha, hv⟩ := reportF64_avg snap snapInterval k v _ hk hkey hpos hn
  refine ⟨avg, ha, hv, ?_, ?_, ?_⟩
  · intro a hsum hlt
    rw [hv, hsum]
    rw [hsum] at hlt
    rw [avgF64_exact a (h / snapInterval) hpos hlt]
  · intro hlt
    exact avgF64_near _ (h / snapInterval) hpos h53 hlt
  · intro snap1 v1 hk1 hn1 hsame
    obtain ⟨avg1, ha1, hv1⟩ := reportF64_avg snap1 snapInterval k v1 _ hk1 hkey hpos hn1
    exact ⟨avg1, ha1, by rw [hv1, hv, hsame]⟩

/-- Witness for C18: the history 1, 2, ..., 10 and the 10 s horizon (5 samples): the
average is `float64(40) / float64(5)`, the sum being 6 + 7 + 8 + 9 + 10, which is 8. -/
theorem moving_average_witness :
    ((fun q : Routine => if q = "a" then some [(1 : Int), 2, 3, 4, 5, 6, 7, 8, 9, 10] else none)
        "a" = some [1, 2, 3, 4, 5, 6, 7, 8, 9, 10] ∧
      10 ∈ reportInterval ∧
      10 / snapInterval ≤ [(1 : Int), 2, 3, 4, 5, 6, 7, 8, 9, 10].length) ∧
    ((([(1 : Int), 2, 3, 4, 5, 6, 7, 8, 9, 10].drop
        ([(1 : Int), 2, 3, 4, 5, 6, 7, 8, 9, 10].length - 10 / snapInterval)).sum : Int) = 40 ∧
      10 / snapInterval = 5 ∧ avgF64 40 5 = 8) ∧
    ∃ avg, (reportF64 (fun q : Routine =>
          if q = "a" then some [(1 : Int), 2, 3, 4, 5, 6, 7, 8, 9, 10] else none)
          snapInterval).1 "a" = some avg ∧
      avg (10 / snapInterval) =
        some (avgF64 ([(1 : Int), 2, 3, 4, 5, 6, 7, 8, 9, 10].drop
            ([(1 : Int), 2, 3, 4, 5, 6, 7, 8, 9, 10].length - 10 / snapInterval)).sum
          (10 / snapInterval)) :=
  ⟨⟨by decide, by decide, by decide⟩, ⟨by decide, by decide, avgF64_forty_fifths⟩,
    let ⟨avg, h1, h2, _⟩ := moving_average
      (fun q : Routine => if q = "a" then some [(1 : Int), 2, 3, 4, 5, 6, 7, 8, 9, 10] else none)
      "a" [1, 2, 3, 4, 5, 6, 7, 8, 9, 10] 10 (by decide) (by decide) (by decide)
    ⟨avg, h1, h2⟩⟩

/-! ## The statistics variant: sampling ticks -/

theorem snapCh_csnap (st : Snapshots) (k : Routine) (a : Int) (hk : st.rCnt k = some a) :
    (snapCh st).1.csnap k = some ((st.csnap k).getD [] ++ [a]) := by
  simp only [snapCh]
  split_ifs <;> simp [hk]

/-- A tick that does not reach the report interval only appends the samples. -/
theorem snapCh_noflush (st : Snapshots) (h : st.rsnap + snapInterval ≠ snapReportInterval) :
    (snapCh st).1.s = st.s + 1 ∧ (snapCh st).1.rsnap = st.rsnap + snapInterval ∧
      (snapCh st).1.csnap_ = st.csnap_ ∧ (snapCh st).2 = none := by
  simp only [snapCh, if_neg h, and_self]

/-- A tick that reaches the report interval copies the last `s` samples of the limiter into
`csnap_`, calls `report` on it and resets `s` and `rsnap`. -/
theorem snapCh_flush (st : Snapshots) (k : Routine) (a : Int) (hk : st.rCnt k = some a)
    (h : st.rsnap + snapInterval = snapReportInterval) :
    (snapCh st).1.s = 0 ∧ (snapCh st).1.rsnap = 0 ∧
      ∃ x : Routine → Option (List Int),
        x k = (if ((st.csnap k).getD [] ++ [a]).length < st.s + 1 then st.csnap_ k
          else some ((st.csnap_ k).getD [] ++
            ((st.csnap k).getD [] ++ [a]).drop
              (((st.csnap k).getD [] ++ [a]).length - (st.s + 1)))) ∧
        (snapCh st).2 = some (report x snapInterval).1 ∧
        (snapCh st).1.csnap_ = (report x snapInterval).2 := by
  simp only [snapCh, if_pos h, true_and]
  refine ⟨_, ?_, rfl, rfl⟩
  simp only [hk]

theorem snapRun_append (xs ys : List (Routine → Option Int)) : ∀ (st : Snapshots),
    snapRun st (xs ++ ys) =
      ((snapRun (snapRun st xs).1 ys).1, (snapRun st xs).2 ++ (snapRun (snapRun st xs).1 ys).2) := by
  induction xs with
  | nil => intro st; simp [snapRun]
  | cons x xs ih =>
    intro st
    rw [List.cons_append]
    simp only [snapRun]
    rw [ih]
    simp

/-- Ticks that stay below the report interval: nothing is reported, the samples of the
limiter are appended to `csnap`, and `csnap_` is untouched. -/
theorem snapRun_noflush (k : Routine) (a : Int) :
    ∀ (rcs : List (Routine → Option Int)) (st : Snapshots),
      (∀ rc ∈ rcs, rc k = some a) →
      st.rsnap + snapInterval * rcs.length < snapReportInterval →
      (snapRun st rcs).2 = List.replicate rcs.length none ∧
      (snapRun st rcs).1.s = st.s + rcs.length ∧
      (snapRun st rcs).1.rsnap = st.rsnap + snapInterval * rcs.length ∧
      (snapRun st rcs).1.csnap_ = st.csnap_ ∧
      ((snapRun st rcs).1.csnap k).getD [] =
        (st.csnap k).getD [] ++ List.replicate rcs.length a := by
  intro rcs
  induction rcs with
  | nil => intro st _ _; simp [snapRun]
  | cons rc rest ih =>
    intro st hk hlt
    have hrc : rc k = some a := hk rc (List.mem_cons_self _ _)
    simp only [List.length_cons, snapInterval, snapReportInterval] at hlt
    have hne : ({ st with rCnt := rc } : Snapshots).rsnap + snapInterval ≠
        snapReportInterval := by
      simp only [snapInterval, snapReportInterval]
      omega
    obtain ⟨h1, h2, h3, h4⟩ := snapCh_noflush { st with rCnt := rc } hne
    have h5 := snapCh_csnap { st with rCnt := rc } k a hrc
    have h1a : (snapCh { st with rCnt := rc }).1.s = st.s + 1 := h1
    have h2a : (snapCh { st with rCnt := rc }).1.rsnap = st.rsnap + 2 := h2
    have h3a : (snapCh { st with rCnt := rc }).1.csnap_ = st.csnap_ := h3
    have h5a : (snapCh { st with rCnt := rc }).1.csnap k =
        some ((st.csnap k).getD [] ++ [a]) := h5
    obtain ⟨i1, i2, i3, i4, i5⟩ := ih (snapCh { st with rCnt := rc }).1
      (fun rc1 h => hk rc1 (List.mem_cons_of_mem _ h))
      (by rw [h2a]; simp only [snapInterval, snapReportInterval]; omega)
    simp only [snapInterval] at i3
    simp only [snapRun, List.length_cons]
    refine ⟨?_, ?_, ?_, ?_, ?_⟩
    · rw [i1, h4, List.replicate_succ]
    · rw [i2, h1a]; omega
    · rw [i3, h2a]; simp only [snapInterval]; omega
    · rw [i4, h3a]
    · rw [i5, h5a]
      simp [List.replicate_succ]

/-- Five ticks from `s = 0`, `rsnap = 0` with the limiter at `a`: four ticks report nothing,
the fifth calls `report` on a `csnap_` that has the five samples appended for the limiter,
and the counters are back at zero. -/
theorem snapRun_cycle (k : Routine) (a : Int) (rcs : List (Routine → Option Int))
    (st : Snapshots) (hlen : rcs.length = 5) (hk : ∀ rc ∈ rcs, rc k = some a)
    (hs : st.s = 0) (hr : st.rsnap = 0) :
    (snapRun st rcs).1.s = 0 ∧ (snapRun st rcs).1.rsnap = 0 ∧
      ((snapRun st rcs).1.csnap k).getD [] = (st.csnap k).getD [] ++ List.replicate 5 a ∧
      ∃ x : Routine → Option (List Int),
        x k = some ((st.csnap_ k).getD [] ++ List.replicate 5 a) ∧
        (snapRun st rcs).2 = [none, none, none, none, some (report x snapInterval).1] ∧
        (snapRun st rcs).1.csnap_ = (report x snapInterval).2 := by
  match rcs, hlen with
  | [r1, r2, r3, r4, r5], _ =>
    have hsplit : [r1, r2, r3, r4, r5] = [r1, r2, r3, r4] ++ [r5] := rfl
    have h4 : ∀ rc ∈ [r1, r2, r3, r4], rc k = some a := by
      intro rc hrc
      apply hk
      simp only [List.mem_cons, List.mem_singleton, List.not_mem_nil, or_false] at hrc ⊢
      tauto
    have h5 : r5 k = some a := hk r5 (by simp)
    obtain ⟨n1, n2, n3, n4, n5⟩ := snapRun_noflush k a [r1, r2, r3, r4] st h4
      (by rw [hr]; simp [snapInterval, snapReportInterval])
    simp only [List.length_cons, List.length_nil, hs, hr, snapInterval] at n1 n2 n3 n5
    -- the state before the fifth tick
    obtain ⟨st4, hst4⟩ : ∃ st4, st4 = (snapRun st [r1, r2, r3, r4]).1 := ⟨_, rfl⟩
    rw [← hst4] at n2 n3 n4 n5
    have hflush : ({ st4 with rCnt := r5 } : Snapshots).rsnap + snapInterval =
        snapReportInterval := by
      show st4.rsnap + snapInterval = snapReportInterval
      rw [n3]
      rfl
    obtain ⟨f1, f2, x, fx, f3, f4⟩ := snapCh_flush { st4 with rCnt := r5 } k a h5 hflush
    have fc := snapCh_csnap { st4 with rCnt := r5 } k a h5
    have fc1 : (snapCh { st4 with rCnt := r5 }).1.csnap k =
        some ((st4.csnap k).getD [] ++ [a]) := fc
    have fx1 : x k = (if ((st4.csnap k).getD [] ++ [a]).length < st4.s + 1 then st4.csnap_ k
          else some ((st4.csnap_ k).getD [] ++
            ((st4.csnap k).getD [] ++ [a]).drop
              (((st4.csnap k).getD [] ++ [a]).length - (st4.s + 1)))) := fx
    rw [n5, n2, n4] at fx1
    have hrun : snapRun st [r1, r2, r3, r4, r5] =
        ((snapCh { st4 with rCnt := r5 }).1,
          (snapRun st [r1, r2, r3, r4]).2 ++ [(snapCh { st4 with rCnt := r5 }).2]) := by
      rw [hsplit, snapRun_append, ← hst4]
      simp [snapRun]
    rw [hrun]
    refine ⟨f1, f2, ?_, x, ?_, ?_, f4⟩
    · show ((snapCh { st4 with rCnt := r5 }).1.csnap k).getD [] = _
      rw [fc1, n5]
      simp [List.replicate_succ]
    · rw [fx1]
      have hnot : ¬ ((st.csnap k).getD [] ++ List.replicate (0 + 1 + 1 + 1 + 1) a ++ [a]).length <
          0 + 1 + 1 + 1 + 1 + 1 := by
        simp only [List.length_append, List.length_replicate, List.length_singleton]
        omega
      rw [if_neg hnot]
      have hd : ((st.csnap k).getD [] ++ List.replicate (0 + 1 + 1 + 1 + 1) a ++ [a]).drop
          (((st.csnap k).getD [] ++ List.replicate (0 + 1 + 1 + 1 + 1) a ++ [a]).length -
            (0 + 1 + 1 + 1 + 1 + 1)) = List.replicate 5 a := by
        have hl : ((st.csnap k).getD [] ++ List.replicate (0 + 1 + 1 + 1 + 1) a ++ [a]).length -
            (0 + 1 + 1 + 1 + 1 + 1) = ((st.csnap k).getD []).length := by
          simp only [List.length_append, List.length_replicate, List.length_singleton]
          omega
        rw [hl, List.append_assoc, List.drop_left]
        simp [List.replicate_succ]
      rw [hd]
    · show (snapRun st [r1, r2, r3, r4]).2 ++ [(snapCh { st4 with rCnt := r5 }).2] = _
      rw [n1, f3]
      rfl

/-- C19 (snapshot scenario): from empty histories and `s = rsnap = 0`, with the sampling
interval 2 and the report interval 10, if `rCnt[k]` is `a` at each of the first five ticks,
then the first four ticks do not call `report`, the fifth does, and the value it leaves in
`reportAvg[k]` for the 10 s horizon (key `10 / snapInterval`, five samples) is `a`. -/
theorem snapshot_scenario (k : Routine) (a : Int) (rcs : List (Routine → Option Int))
    (hlen : rcs.length = 5) (hk : ∀ rc ∈ rcs, rc k = some a) :
    ∃ rep avg, (snapRun Snapshots.init rcs).2 = [none, none, none, none, some rep] ∧
      rep k = some avg ∧ avg (10 / snapInterval) = some (a : ℚ) := by
  obtain ⟨-, -, -, x, hx, hrep, -⟩ :=
    snapRun_cycle k a rcs Snapshots.init hlen hk rfl rfl
  have hx1 : x k = some (List.replicate 5 a) := by
    rw [hx]
    simp [Snapshots.init]
  obtain ⟨avg, ha, hv⟩ := report_avg x snapInterval k (List.replicate 5 a) 5 hx1
    (by decide) (by decide) (by simp)
  refine ⟨_, avg, hrep, ha, ?_⟩
  have h5 : 10 / snapInterval = 5 := by decide
  rw [h5, hv]
  simp only [List.length_replicate, Nat.sub_self, List.drop_zero, List.sum_replicate,
    smul_eq_mul]
  push_cast
  congr 1
  field_simp

/-- Witness for C19: `rCnt["a"] = 3` at five ticks; the fifth reports 3 for the 10 s
horizon. -/
theorem snapshot_scenario_witness :
    ((List.replicate 5 (fun q : Routine => if q = "a" then some (3 : Int) else none)).length = 5 ∧
      ∀ rc ∈ List.replicate 5 (fun q : Routine => if q = "a" then some (3 : Int) else none),
        rc "a" = some 3) ∧
    ∃ rep avg, (snapRun Snapshots.init
          (List.replicate 5 (fun q : Routine => if q = "a" then some (3 : Int) else none))).2 =
        [none, none, none, none, some rep] ∧
      rep "a" = some avg ∧ avg (10 / snapInterval) = some (((3 : Int) : ℚ)) :=
  ⟨⟨by decide, by simp [List.mem_replicate]⟩,
    snapshot_scenario "a" 3
      (List.replicate 5 (fun q : Routine => if q = "a" then some (3 : Int) else none))
      (by decide) (by simp [List.mem_replicate])⟩

/-! ## The statistics variant: how much history is kept -/

/-- The call of `report` drops the oldest sample of a history of 3600 or more samples, and
only that one. -/
theorem report_snap_len (x : Routine → Option (List Int)) (k : Routine) (v : List Int)
    (hx : x k = some v) :
    histLen (report x snapInterval).2 k =
      if 3600 ≤ v.length then v.length - 1 else v.length := by
  simp only [histLen, report, hx, Option.map_some', Option.getD_some, reportLoop_snap,
    getLast_numSamples, List.length_reverse]
  by_cases h : 3600 ≤ v.length
  · have h1 : 0 < 3600 ∧ 3600 ≤ 0 + v.length := by omega
    rw [if_pos h1, if_pos h, List.length_tail]
  · have h1 : ¬ (0 < 3600 ∧ 3600 ≤ 0 + v.length) := by omega
    rw [if_neg h1, if_neg h]

/-- One round of five ticks from `s = 0`, `rsnap = 0`: `csnap` gains five samples for the
limiter; `csnap_` gains five and loses one if that makes 3600 or more. -/
theorem snapRun_cycle_len (k : Routine) (a : Int) (rc : Routine → Option Int)
    (hrc : rc k = some a) (st : Snapshots) (hs : st.s = 0) (hr : st.rsnap = 0) :
    (snapRun st (List.replicate 5 rc)).1.s = 0 ∧
      (snapRun st (List.replicate 5 rc)).1.rsnap = 0 ∧
      histLen (snapRun st (List.replicate 5 rc)).1.csnap k = histLen st.csnap k + 5 ∧
      histLen (snapRun st (List.replicate 5 rc)).1.csnap_ k =
        if 3600 ≤ histLen st.csnap_ k + 5 then histLen st.csnap_ k + 4
        else histLen st.csnap_ k + 5 := by
  obtain ⟨c1, c2, c3, x, hx, -, c4⟩ := snapRun_cycle k a (List.replicate 5 rc) st (by simp)
    (fun r hr => by rw [(List.mem_replicate.mp hr).2]; exact hrc) hs hr
  refine ⟨c1, c2, ?_, ?_⟩
  · simp only [histLen]
    rw [c3, List.length_append, List.length_replicate]
  · rw [c4, report_snap_len x k _ hx]
    simp only [histLen, List.length_append, List.length_replicate]
    split_ifs <;> omega

theorem flushLen_succ (j : Nat) :
    flushLen (j + 1) = if 3600 ≤ flushLen j + 5 then flushLen j + 4 else flushLen j + 5 := rfl

/-- After `j` rounds of five ticks with the limiter sampled at every tick, `csnap` holds
`5 * j` samples for it and `csnap_` holds `flushLen j`. -/
theorem snapRun_cycles (k : Routine) (a : Int) (rc : Routine → Option Int)
    (hrc : rc k = some a) : ∀ j : Nat,
    (snapRun Snapshots.init (List.replicate (5 * j) rc)).1.s = 0 ∧
      (snapRun Snapshots.init (List.replicate (5 * j) rc)).1.rsnap = 0 ∧
      histLen (snapRun Snapshots.init (List.replicate (5 * j) rc)).1.csnap k = 5 * j ∧
      histLen (snapRun Snapshots.init (List.replicate (5 * j) rc)).1.csnap_ k = flushLen j := by
  intro j
  induction j with
  | zero => simp [snapRun, Snapshots.init, histLen, flushLen]
  | succ j ih =>
    have h5 : 5 * (j + 1) = 5 * j + 5 := by ring
    have e : (snapRun Snapshots.init (List.replicate (5 * (j + 1)) rc)).1 =
        (snapRun (snapRun Snapshots.init (List.replicate (5 * j) rc)).1
          (List.replicate 5 rc)).1 := by
      rw [h5, List.replicate_add, snapRun_append]
    rw [e]
    obtain ⟨st, hst⟩ : ∃ st, st = (snapRun Snapshots.init (List.replicate (5 * j) rc)).1 :=
      ⟨_, rfl⟩
    rw [← hst] at ih ⊢
    obtain ⟨i1, i2, i3, i4⟩ := ih
    obtain ⟨c1, c2, c3, c4⟩ := snapRun_cycle_len k a rc hrc st i1 i2
    refine ⟨c1, c2, ?_, ?_⟩
    · rw [c3, i3]
      omega
    · rw [c4, i4, flushLen_succ]

theorem flushLen_small : ∀ j : Nat, j ≤ 719 → flushLen j = 5 * j := by
  intro j
  induction j with
  | zero => intro _; rfl
  | succ j ih =>
    intro h
    rw [flushLen_succ, ih (by omega)]
    have hlt : ¬ 3600 ≤ 5 * j + 5 := by omega
    rw [if_neg hlt]
    omega

theorem flushLen_721 : flushLen 721 = 3603 := by
  have h719 : flushLen 719 = 3595 := flushLen_small 719 (le_refl _)
  have h720 : flushLen 720 = 3599 := by
    have h := flushLen_succ 719
    rw [h719] at h
    exact h
  have h := flushLen_succ 720
  rw [h720] at h
  exact h

/-- C20 fails on the code: for a limiter sampled at every tick from the start, after 3605
ticks (721 calls of `report`) `csnap_`, the history `report` trims, holds 3603 samples and
`csnap` holds all 3605; neither is within 3600. -/
theorem history_not_bounded :
    histLen (snapRun Snapshots.init (List.replicate 3605
        (fun q : Routine => if q = "a" then some (0 : Int) else none))).1.csnap_ "a" = 3603 ∧
    histLen (snapRun Snapshots.init (List.replicate 3605
        (fun q : Routine => if q = "a" then some (0 : Int) else none))).1.csnap "a" = 3605 ∧
    ¬ (3603 ≤ 3600) := by
  obtain ⟨-, -, h3, h4⟩ := snapRun_cycles "a" 0
    (fun q : Routine => if q = "a" then some (0 : Int) else none) (by simp) 721
  rw [flushLen_721] at h4
  exact ⟨h4, h3, by decide⟩

/-! ## The wait count and registration failures -/

/-- C30 (wait count never negative): in every state the loop reaches from the empty
registry, by any messages, every registered limiter has `rWait ≥ 0`. -/
theorem waitCount_nonneg (es : List Event) (m : rLimiterMap) (sent : List Routine)
    (r : Routine) (l : Limiter) (hrun : PowerOn es = .next m sent)
    (hl : lookup m r = some l) : 0 ≤ l.rWait := by
  refine run_preserves (fun v => 0 ≤ v.rWait) (fun _ => True) ?_ es [] m sent
    (fun _ _ => trivial) hrun (AllLimiters_nil _) r l hl
  intro e _ ma mb s1 hs hm
  refine step_preserves _ ma mb e s1 hs hm ?_ ?_ ?_ ?_ ?_
  · intro q c down up min hold t0 r1 _
    simp [newLimiter]
  · intro _ v _ hv
    simp only [rAsk]
    split_ifs <;> (try simp only []) <;> omega
  · intro _ v v1 b _ hv he
    simp only [rEnd] at he
    split_ifs at he <;> simp only [Option.some.injEq, Prod.mk.injEq] at he <;>
      obtain ⟨rfl, -⟩ := he <;> (try simp only []) <;> omega
  · intro _ t v _ hv
    simp only [throttleDown]
    split_ifs <;> exact hv
  · intro _ t v _ hv
    simp only [throttleUp]
    split_ifs <;> exact hv

/-- Witness for C30: ceiling 1, three Acquires and three Releases; the wait count goes
0, 1, 2, 1, 0, 0 and ends at 0. -/
theorem waitCount_nonneg_witness :
    (PowerOn [.register "a" 1 2 1 1 30 0, .rAskCh "a", .rAskCh "a", .rAskCh "a",
        .EndCh "a", .EndCh "a", .EndCh "a"] =
      .next [("a", newLimiter "a" 1 2 1 1 30 0)] ["a", "a", "a"] ∧
      lookup [("a", newLimiter "a" 1 2 1 1 30 0)] "a" = some (newLimiter "a" 1 2 1 1 30 0)) ∧
    0 ≤ (newLimiter "a" 1 2 1 1 30 0).rWait :=
  ⟨⟨by decide, by decide⟩,
    waitCount_nonneg
      [.register "a" 1 2 1 1 30 0, .rAskCh "a", .rAskCh "a", .rAskCh "a",
        .EndCh "a", .EndCh "a", .EndCh "a"]
      [("a", newLimiter "a" 1 2 1 1 30 0)] ["a", "a", "a"] "a" (newLimiter "a" 1 2 1 1 30 0)
      (by decide) (by decide)⟩

/-- C28 (registration failure): when the hold string does not parse, `NewConfig` panics
without a limiter and sends nothing on `registerCh`, so the loop has nothing to process and
the registry stays as it is; when it parses, `NewConfig` returns the limiter and sends
exactly one registration message. -/
theorem registration_failure (parseDuration : String → Option Int) (t0 : Int) (r : String)
    (c down up min : Int) (h : String) (m : rLimiterMap) :
    (parseDuration h = none →
      NewConfig parseDuration t0 r c down up min h = none ∧
      NewConfigSends parseDuration t0 r c down up min h = [] ∧
      run m (NewConfigSends parseDuration t0 r c down up min h) = .next m []) ∧
    (∀ hold, parseDuration h = some hold →
      NewConfig parseDuration t0 r c down up min h =
        some (newLimiter r c down up min hold t0) ∧
      NewConfigSends parseDuration t0 r c down up min h =
        [.register r c down up min hold t0] ∧
      (NewConfigSends parseDuration t0 r c down up min h).length = 1) := by
  constructor
  · intro hp
    have hs : NewConfigSends parseDuration t0 r c down up min h = [] := by
      simp only [NewConfigSends, hp]
    refine ⟨by simp only [NewConfig, hp], hs, ?_⟩
    rw [hs]
    rfl
  · intro hold hp
    have hs : NewConfigSends parseDuration t0 r c down up min h =
        [.register r c down up min hold t0] := by
      simp only [NewConfigSends, hp]
    refine ⟨by simp only [NewConfig, hp], hs, ?_⟩
    rw [hs]
    rfl

/-- Witness for C28: a parser that accepts only `"30s"`; `"soon"` does not parse. -/
theorem registration_failure_witness :
    (fun h => if h = "30s" then some (30000000000 : Int) else none) "soon" = none ∧
    NewConfig (fun h => if h = "30s" then some (30000000000 : Int) else none)
        0 "a" 5 2 1 1 "soon" = none ∧
    NewConfigSends (fun h => if h = "30s" then some (30000000000 : Int) else none)
        0 "a" 5 2 1 1 "soon" = [] ∧
    run [("b", newLimiter "b" 7 2 1 1 30 0)]
        (NewConfigSends (fun h => if h = "30s" then some (30000000000 : Int) else none)
          0 "a" 5 2 1 1 "soon") =
      .next [("b", newLimiter "b" 7 2 1 1 30 0)] [] :=
  ⟨by decide,
    (registration_failure (fun h => if h = "30s" then some (30000000000 : Int) else none)
      0 "a" 5 2 1 1 "soon" [("b", newLimiter "b" 7 2 1 1 30 0)]).1 (by decide)⟩

/-! ## Logging -/

/-- C29 (logger precondition): with `logr` nil, `logAlert`, `logDebug`, `logErr` and `LogFail`
panic for every message and every level, before anything is printed; with `logr` set,
`logAlert` and `logDebug` return; and `SetLogger` with a logger and at most one level sets
`logr`. -/
theorem logger_precondition (st : LogState) (msg : String) :
    (st.logr = none →
      logAlert st msg = .panic ∧ logDebug st msg = .panic ∧ logErr st msg = .panic ∧
        LogFail st msg = .panic) ∧
    (∀ lg, st.logr = some lg →
      (∃ st1, logAlert st msg = .ok st1 ∧ st1.logr = some lg) ∧
      (∃ st1, logDebug st msg = .ok st1 ∧ st1.logr = some lg)) ∧
    (∀ (lg : String) (level : List Int), level.length ≤ 1 →
      ∃ st1, SetLogger st (some lg) level = .ok st1 ∧ st1.logr = some lg) := by
  refine ⟨?_, ?_, ?_⟩
  · intro h
    simp only [logAlert, logDebug, logErr, LogFail, h, and_self]
  · intro lg h
    constructor
    · by_cases hl : st.logLvl ≤ 1
      · refine ⟨{ st with out := st.out ++ ["|alert|" ++ msg] }, ?_, h⟩
        simp only [logAlert, h, if_pos hl]
      · refine ⟨st, ?_, h⟩
        simp only [logAlert, h, if_neg hl]
    · by_cases hl : st.logLvl = 1
      · refine ⟨{ st with out := st.out ++ ["|info|" ++ msg] }, ?_, h⟩
        simp only [logDebug, h, if_pos hl]
      · refine ⟨st, ?_, h⟩
        simp only [logDebug, h, if_neg hl]
  · intro lg level hlen
    have hn : ¬ 1 < level.length := by omega
    exact ⟨_, by simp only [SetLogger, if_neg hn]; exact rfl, rfl⟩

/-- Witness for C29: no logger set, level `NoLog`; then a logger set at level `Debug`. -/
theorem logger_precondition_witness :
    (({ logr := none, logLvl := 2, errlogr := false, out := [], errs := [] } : LogState).logr =
        none) ∧
    (logAlert { logr := none, logLvl := 2, errlogr := false, out := [], errs := [] } "Started." =
        .panic ∧
      logDebug { logr := none, logLvl := 2, errlogr := false, out := [], errs := [] } "Started." =
        .panic ∧
      logErr { logr := none, logLvl := 2, errlogr := false, out := [], errs := [] } "Started." =
        .panic ∧
      LogFail { logr := none, logLvl := 2, errlogr := false, out := [], errs := [] } "Started." =
        .panic) ∧
    SetLogger { logr := none, logLvl := 2, errlogr := false, out := [], errs := [] }
        (some "grmgr") [1] =
      .ok { logr := some "grmgr", logLvl := 1, errlogr := false, out := [], errs := [] } ∧
    logAlert { logr := some "grmgr", logLvl := 1, errlogr := false, out := [], errs := [] }
        "Started." =
      .ok { logr := some "grmgr", logLvl := 1, errlogr := false,
            out := ["|alert|Started."], errs := [] } :=
  ⟨by decide,
    (logger_precondition { logr := none, logLvl := 2, errlogr := false, out := [], errs := [] }
      "Started.").1 (by decide),
    by decide, by decide⟩

/-! ## The statistics variant: horizons longer than the history -/

/-- The loop of `report` does not write an average at a count it does not reach. -/
theorem reportLoop_beyond (v : List Int) (last n : Nat) :
    ∀ (xs : List Int) (ii : Nat) (sum : Int) (avg : Nat → Option ℚ) (sk : List Int),
      ii + xs.length < n → (reportLoop v last xs ii sum avg sk).1 n = avg n := by
  intro xs
  induction xs with
  | nil => intro ii sum avg sk _; rfl
  | cons x rest ih =>
    intro ii sum avg sk h
    simp only [List.length_cons] at h
    have hne : n ≠ ii + 1 := by omega
    simp only [reportLoop]
    rw [ih (ii + 1) _ _ _ (by omega)]
    split_ifs
    · exact Function.update_noteq hne _ _
    · rfl

/-- For a history shorter than `n`, `report` leaves the initial `0` at the key `n` of the
sample map. -/
theorem report_short (snap : Routine → Option (List Int)) (si : Nat) (k : Routine)
    (v : List Int) (n : Nat) (hk : snap k = some v)
    (hkey : n ∈ reportInterval.map (fun h => h / si)) (hn : v.length < n) :
    ∃ avg, (report snap si).1 k = some avg ∧ avg n = some 0 := by
  refine ⟨_, by simp only [report, hk, Option.map_some']; rfl, ?_⟩
  rw [reportLoop_beyond v _ n v.reverse 0 0 _ v (by simpa using hn)]
  simp [sampleInit, hkey]

/-- A member of the merge: the column of a sample count carries the value of the sample
map at that count, `0` where the map has none. -/
theorem mem_mergeMembers (avg : Nat → Option ℚ) (c : String) (n : Nat)
    (h : (c, n) ∈ List.zip col numSamplesAtRepInterval) :
    (c, (avg n).getD 0) ∈ mergeMembers avg :=
  List.mem_map_of_mem (fun p : String × Nat => (p.1, (avg p.2).getD 0)) h

/-- C21 as stated fails: for the one-sample history `[3]` the merge handed over carries
the member `("s10", 0)` for the 10 s horizon (five samples), the same member as for a
history of five zeros, whose average is 0. -/
theorem short_history_counterexample :
    ([(3 : Int)].length < 10 / snapInterval) ∧
    (∃ avg,
      (report (fun q : Routine => if q = "a" then some [(3 : Int)] else none) snapInterval).1
          "a" = some avg ∧
      ("s10", (0 : ℚ)) ∈ mergeMembers avg) ∧
    (∃ avg,
      (report (fun q : Routine => if q = "a" then some [(0 : Int), 0, 0, 0, 0] else none)
          snapInterval).1 "a" = some avg ∧
      ("s10", (0 : ℚ)) ∈ mergeMembers avg) := by
  have hz : ("s10", 5) ∈ List.zip col numSamplesAtRepInterval := by decide
  refine ⟨by decide, ?_, ?_⟩
  · obtain ⟨avg, ha, hv⟩ := report_short
      (fun q : Routine => if q = "a" then some [(3 : Int)] else none) snapInterval "a" [3] 5
      (by simp) (by decide) (by decide)
    refine ⟨avg, ha, ?_⟩
    have hm := mem_mergeMembers avg "s10" 5 hz
    rw [hv] at hm
    exact hm
  · obtain ⟨avg, ha, hv⟩ := report_avg
      (fun q : Routine => if q = "a" then some [(0 : Int), 0, 0, 0, 0] else none)
      snapInterval "a" [0, 0, 0, 0, 0] 5 (by simp) (by decide) (by decide) (by decide)
    refine ⟨avg, ha, ?_⟩
    have hm := mem_mergeMembers avg "s10" 5 hz
    rw [hv] at hm
    simpa using hm

/-- C21 (short history, amended): for a history `v` stored under `k` and a horizon `h` of
`reportInterval` whose sample count `n = h / snapInterval` exceeds `len(v)`, `report` writes
no average for that horizon: `reportAvg[k][n]` keeps its initial `0`, and `0` is the value
of that horizon's column in the merge handed over. -/
theorem short_history (snap : Routine → Option (List Int)) (k : Routine) (v : List Int)
    (h : Nat) (hk : snap k = some v) (hh : h ∈ reportInterval)
    (hn : v.length < h / snapInterval) :
    ∃ avg, (report snap snapInterval).1 k = some avg ∧
      avg (h / snapInterval) = some 0 ∧
      ∀ c, (c, h / snapInterval) ∈ List.zip col numSamplesAtRepInterval →
        (c, (0 : ℚ)) ∈ mergeMembers avg := by
  have hkey : h / snapInterval ∈ reportInterval.map (fun h => h / snapInterval) :=
    List.mem_map_of_mem _ hh
  obtain ⟨avg, ha, hv⟩ := report_short snap snapInterval k v _ hk hkey hn
  refine ⟨avg, ha, hv, ?_⟩
  intro c hc
  have hm := mem_mergeMembers avg c _ hc
  rw [hv] at hm
  exact hm

/-- Witness for C21: the history `[3, 3]` and the 10 s horizon. -/
theorem short_history_witness :
    ((fun q : Routine => if q = "a" then some [(3 : Int), 3] else none) "a" = some [3, 3] ∧
      10 ∈ reportInterval ∧ [(3 : Int), 3].length < 10 / snapInterval) ∧
    ("s10", 10 / snapInterval) ∈ List.zip col numSamplesAtRepInterval ∧
    ∃ avg, (report (fun q : Routine => if q = "a" then some [(3 : Int), 3] else none)
          snapInterval).1 "a" = some avg ∧
      avg (10 / snapInterval) = some 0 ∧
      ∀ c, (c, 10 / snapInterval) ∈ List.zip col numSamplesAtRepInterval →
        (c, (0 : ℚ)) ∈ mergeMembers avg :=
  ⟨⟨by decide, by decide, by decide⟩, by decide,
    short_history (fun q : Routine => if q = "a" then some [(3 : Int), 3] else none)
      "a" [3, 3] 10 (by decide) (by decide) (by decide)⟩

/-! ## The statistics variant: the other cases of its loop -/

namespace Stats

/-- C22 fails on the code: the Unregister case deletes the name from `rLimit`, `rCnt`, `rWait`
and `csnap` and leaves `csnap_` as it is.  After a registration of `"a"`, five ticks, the
Unregister of `"a"` and five more ticks, `csnap_["a"]` still holds the five samples and the
`reportAvg` of the second call of `report` has an entry for `"a"`. -/
theorem unregister_leaves_shadow (st : Actor) (name : Routine) :
    (∃ st1, step st (.unRegisterCh name) = .next st1 [] none ∧
      st1.rLimit name = none ∧ st1.rCnt name = none ∧ st1.rWait name = none ∧
      st1.csnap name = none ∧ st1.csnap_ = st.csnap_) ∧
    ((PowerOn true
        [.register "a" 5 2 1 1 30000000000 (fun _ => "") 1,
          .snapCh, .snapCh, .snapCh, .snapCh, .snapCh, .unRegisterCh "a",
          .snapCh, .snapCh, .snapCh, .snapCh, .snapCh]).state.bind
        (fun s1 => s1.csnap_ "a") = some [0, 0, 0, 0, 0]) ∧
    (((PowerOn true
        [.register "a" 5 2 1 1 30000000000 (fun _ => "") 1,
          .snapCh, .snapCh, .snapCh, .snapCh, .snapCh, .unRegisterCh "a",
          .snapCh, .snapCh, .snapCh, .snapCh, .snapCh]).rep.bind
        (fun rep => rep "a")).isSome = true) := by
  refine ⟨⟨_, rfl, ?_, ?_, ?_, ?_, rfl⟩, by decide, by decide⟩
  · simp [setAt]
  · simp [setAt]
  · simp [setAt]
  · simp [setAt]

/-- C24 fails on the code: both throttle cases run the loop body on every entry of `rLimit`,
whatever name the message carries.  With `"a"` (ceiling 5) and `"b"` (ceiling 7) registered,
a ThrottleDown naming `"a"` lowers the ceiling of `"b"` to 5 as well. -/
theorem throttle_named_reaches_all (st : Actor) (x : Routine) (t0 : Int) :
    (∃ st1, step st (.throttleDownCh x t0) = .next st1 [] none ∧
      ∀ y, st1.rLimit y =
        (st.rLimit y).map (throttleDown st.throttleDownActioned st.throttleUpActioned t0)) ∧
    (∃ st1, step st (.throttleUpCh x t0) = .next st1 [] none ∧
      ∀ y, st1.rLimit y =
        (st.rLimit y).map (throttleUp st.throttleDownActioned st.throttleUpActioned t0)) ∧
    (((PowerOn false
        [.register "a" 5 2 1 1 30000000000 (fun _ => "") 1,
          .register "b" 7 2 1 1 30000000000 (fun _ => "") 1]).state.bind
        (fun s1 => s1.rLimit "b")).map (fun l => l.c) = some 7) ∧
    (((PowerOn false
        [.register "a" 5 2 1 1 30000000000 (fun _ => "") 1,
          .register "b" 7 2 1 1 30000000000 (fun _ => "") 1,
          .throttleDownCh "a" 30000000000]).state.bind
        (fun s1 => s1.rLimit "b")).map (fun l => l.c) = some 5) := by
  refine ⟨⟨_, rfl, fun y => rfl⟩, ⟨_, rfl, fun y => rfl⟩, by decide, by decide⟩

/-- C25 fails on the code: both throttle cases assign the timestamp after the loop, whether
or not any limiter was changed.  With `"a"` (hold 30 s) throttled down at 30 s, a ThrottleDown
at 40 s is rejected (the ceiling stays 3) and moves `throttleDownActioned` from 30 s to
40 s, so that a ThrottleDown at 65 s, more than 30 s after the applied one, is rejected
too. -/
theorem rejected_throttle_moves_timestamp (st : Actor) (r : Routine) (t0 : Int) :
    ((step st (.throttleDownCh r t0)).state.map (fun s1 => s1.throttleDownActioned) =
        some t0) ∧
    ((step st (.throttleUpCh r t0)).state.map (fun s1 => s1.throttleUpActioned) = some t0) ∧
    ((PowerOn false
        [.register "a" 5 2 1 1 30000000000 (fun _ => "") 1,
          .throttleDownCh "a" 30000000000]).state.map
        (fun s1 => ((s1.rLimit "a").map (fun l => l.c), s1.throttleDownActioned)) =
      some (some 3, 30000000000)) ∧
    ((PowerOn false
        [.register "a" 5 2 1 1 30000000000 (fun _ => "") 1,
          .throttleDownCh "a" 30000000000, .throttleDownCh "a" 40000000000]).state.map
        (fun s1 => ((s1.rLimit "a").map (fun l => l.c), s1.throttleDownActioned)) =
      some (some 3, 40000000000)) ∧
    ((PowerOn false
        [.register "a" 5 2 1 1 30000000000 (fun _ => "") 1,
          .throttleDownCh "a" 30000000000, .throttleDownCh "a" 40000000000,
          .throttleDownCh "a" 65000000000]).state.map
        (fun s1 => ((s1.rLimit "a").map (fun l => l.c), s1.throttleDownActioned)) =
      some (some 3, 65000000000)) := by
  refine ⟨rfl, rfl, by decide, by decide, by decide⟩

/-- C27 fails on the code: the `ctx.Done()` case of `grmgr.go` has no `return`.  It never
ends the loop: with the snapshot goroutine running it leaves the state as it is and the
loop goes round again, processing the next message; without it, it blocks for ever in
`wgSnap.Wait()`.  After a registration of `"a"` and the shutdown, an Acquire of `"a"` is
still granted. -/
theorem shutdown_does_not_stop (st : Actor) :
    (∀ st1, step st .ctxDone ≠ .stop st1) ∧
    (st.reportOn = true →
      step st .ctxDone = .next st [] none ∧
      ∀ e st1 sent rep, step st e = .next st1 sent rep →
        run st [.ctxDone, e] = .next st1 sent rep) ∧
    (st.reportOn = false → step st .ctxDone = .hang) ∧
    ((PowerOn true
        [.register "a" 5 2 1 1 30000000000 (fun _ => "") 1, .ctxDone, .rAskCh "a"]).state.bind
        (fun s1 => s1.rCnt "a") = some 1) ∧
    ((PowerOn true
        [.register "a" 5 2 1 1 30000000000 (fun _ => "") 1, .ctxDone, .rAskCh "a"]).sent =
      ["a"]) := by
  refine ⟨?_, ?_, ?_, by decide, by decide⟩
  · intro st1 h
    simp only [step] at h
    split_ifs at h
  · intro hon
    have hs : step st .ctxDone = .next st [] none := by simp only [step, hon, if_true]
    refine ⟨hs, ?_⟩
    intro e st1 sent rep he
    simp only [run, hs, he]
    cases rep <;> simp
  · intro hoff
    simp only [step, hoff]
    rfl

end Stats

/-! ## One iteration, seen from one name -/

theorem after_next (m m1 : rLimiterMap) (e : Event) (sent : List Routine)
    (h : step m e = .next m1 sent) : (step m e).after = some (m1, sent) := by
  rw [h]
  rfl

/-- What a completed iteration does to the limiter held under `r`: the Unregister of `r`
removes it; an Acquire or a Release of `r` runs the handler body on it; a throttle message
runs the loop body on it or leaves it alone; every other message leaves it alone. -/
theorem step_at (m m1 : rLimiterMap) (e : Event) (sent : List Routine) (r : Routine)
    (l : Limiter) (hstep : (step m e).after = some (m1, sent)) (hl : lookup m r = some l) :
    (e = .unRegisterCh r ∧ lookup m1 r = none ∧ sent = []) ∨
    ∃ l1, lookup m1 r = some l1 ∧
      ((e = .rAskCh r ∧ l1 = (rAsk l).1 ∧ sent = if (rAsk l).2 then [r] else []) ∨
       (e = .EndCh r ∧ ∃ b, rEnd l = some (l1, b) ∧ sent = if b then [r] else []) ∨
       (∃ q t, e = .throttleDownCh q t ∧ l1 = throttleDown t l ∧ sent = []) ∨
       (∃ q t, e = .throttleUpCh q t ∧ l1 = throttleUp t l ∧ sent = []) ∨
       (l1 = l ∧ e ≠ .rAskCh r ∧ e ≠ .EndCh r ∧ r ∉ sent)) := by
  have hthr : ∀ (f : Limiter → Limiter) (q : Routine),
      (throttle f m q).after = some (m1, sent) →
      ∃ l1, lookup m1 r = some l1 ∧ sent = [] ∧ (l1 = f l ∨ l1 = l) := by
    intro f q ht
    unfold throttle at ht
    by_cases hq : q = "__all"
    · simp [hq, Step.after] at ht
      obtain ⟨rfl, rfl⟩ := ht
      exact ⟨f l, by rw [lookup_map, hl]; rfl, rfl, Or.inl rfl⟩
    · cases hlq : lookup m q with
      | none => simp [hq, hlq, Step.after] at ht
      | some v =>
        simp [hq, hlq, Step.after] at ht
        obtain ⟨rfl, rfl⟩ := ht
        by_cases hqr : r = q
        · subst hqr
          rw [hl] at hlq
          cases hlq
          exact ⟨f l, lookup_store_self _ _ _, rfl, Or.inl rfl⟩
        · exact ⟨l, by rw [lookup_store_ne _ _ _ _ hqr, hl], rfl, Or.inr rfl⟩
  cases e with
  | register q c down up min hold t0 =>
    obtain ⟨r1, -, hfree, h1⟩ := step_register m q c down up min hold t0
    rw [h1] at hstep
    simp [Step.after] at hstep
    obtain ⟨rfl, rfl⟩ := hstep
    have hqr : r ≠ r1 := by
      intro h
      subst h
      rw [hl] at hfree
      cases hfree
    exact Or.inr ⟨l, by rw [lookup_store_ne _ _ _ _ hqr, hl],
      Or.inr (Or.inr (Or.inr (Or.inr ⟨rfl, by simp, by simp, by simp⟩)))⟩
  | EndCh q =>
    simp only [step] at hstep
    cases hlq : lookup m q with
    | none => simp [hlq, Step.after] at hstep
    | some v =>
      cases he : rEnd v with
      | none => simp [hlq, he, Step.after] at hstep
      | some p =>
        obtain ⟨l1, b⟩ := p
        simp [hlq, he, Step.after] at hstep
        obtain ⟨rfl, rfl⟩ := hstep
        by_cases hqr : r = q
        · subst hqr
          rw [hl] at hlq
          cases hlq
          exact Or.inr ⟨l1, lookup_store_self _ _ _, Or.inr (Or.inl ⟨rfl, b, he, by simp⟩)⟩
        · refine Or.inr ⟨l, by rw [lookup_store_ne _ _ _ _ hqr, hl],
            Or.inr (Or.inr (Or.inr (Or.inr ⟨rfl, by simp, ?_, ?_⟩)))⟩
          · intro h
            injection h with h
            exact hqr h.symm
          · cases b <;> simp [hqr]
  | rAskCh q =>
    simp only [step] at hstep
    cases hlq : lookup m q with
    | none => simp [hlq, Step.after] at hstep
    | some v =>
      simp [hlq, Step.after] at hstep
      obtain ⟨rfl, rfl⟩ := hstep
      by_cases hqr : r = q
      · subst hqr
        rw [hl] at hlq
        cases hlq
        exact Or.inr ⟨_, lookup_store_self _ _ _, Or.inl ⟨rfl, rfl, by simp⟩⟩
      · refine Or.inr ⟨l, by rw [lookup_store_ne _ _ _ _ hqr, hl],
          Or.inr (Or.inr (Or.inr (Or.inr ⟨rfl, ?_, by simp, ?_⟩)))⟩
        · intro h
          injection h with h
          exact hqr h.symm
        · cases (rAsk v).2 <;> simp [hqr]
  | throttleDownCh q t0 =>
    obtain ⟨l1, h1, hs, h | h⟩ := hthr _ q hstep
    · exact Or.inr ⟨l1, h1, Or.inr (Or.inr (Or.inl ⟨q, t0, rfl, h, hs⟩))⟩
    · exact Or.inr ⟨l1, h1, Or.inr (Or.inr (Or.inr (Or.inr ⟨h, by simp, by simp, by simp [hs]⟩)))⟩
  | throttleUpCh q t0 =>
    obtain ⟨l1, h1, hs, h | h⟩ := hthr _ q hstep
    · exact Or.inr ⟨l1, h1, Or.inr (Or.inr (Or.inr (Or.inl ⟨q, t0, rfl, h, hs⟩)))⟩
    · exact Or.inr ⟨l1, h1, Or.inr (Or.inr (Or.inr (Or.inr ⟨h, by simp, by simp, by simp [hs]⟩)))⟩
  | unRegisterCh q =>
    simp [step, Step.after] at hstep
    obtain ⟨rfl, rfl⟩ := hstep
    by_cases hqr : r = q
    · subst hqr
      exact Or.inl ⟨rfl, lookup_delete_self _ _, rfl⟩
    · exact Or.inr ⟨l, by rw [lookup_delete_ne _ _ _ hqr, hl],
        Or.inr (Or.inr (Or.inr (Or.inr ⟨rfl, by simp, by simp, by simp⟩)))⟩
  | ctxDone =>
    simp [step, Step.after] at hstep
    obtain ⟨rfl, rfl⟩ := hstep
    exact Or.inr ⟨l, hl, Or.inr (Or.inr (Or.inr (Or.inr ⟨rfl, by simp, by simp, by simp⟩)))⟩

/-- A completed iteration leaves a name without a limiter as it is, unless it is the
registration that stores a new limiter under that name; it sends nothing for the name. -/
theorem step_at_none (m m1 : rLimiterMap) (e : Event) (sent : List Routine) (r : Routine)
    (hstep : (step m e).after = some (m1, sent)) (hl : lookup m r = none) :
    r ∉ sent ∧
    (lookup m1 r = none ∨
      ∃ q c down up min hold t0, e = .register q c down up min hold t0 ∧
        lookup m1 r = some { newLimiter q c down up min hold t0 with r := r }) := by
  have hthr : ∀ (f : Limiter → Limiter) (q : Routine),
      (throttle f m q).after = some (m1, sent) → sent = [] ∧ lookup m1 r = none := by
    intro f q ht
    unfold throttle at ht
    by_cases hq : q = "__all"
    · simp [hq, Step.after] at ht
      obtain ⟨rfl, rfl⟩ := ht
      exact ⟨rfl, by rw [lookup_map, hl]; rfl⟩
    · cases hlq : lookup m q with
      | none => simp [hq, hlq, Step.after] at ht
      | some v =>
        simp [hq, hlq, Step.after] at ht
        obtain ⟨rfl, rfl⟩ := ht
        have hqr : r ≠ q := by
          intro h
          subst h
          rw [hl] at hlq
          cases hlq
        exact ⟨rfl, by rw [lookup_store_ne _ _ _ _ hqr, hl]⟩
  cases e with
  | register q c down up min hold t0 =>
    obtain ⟨r1, -, -, h1⟩ := step_register m q c down up min hold t0
    rw [h1] at hstep
    simp [Step.after] at hstep
    obtain ⟨rfl, rfl⟩ := hstep
    refine ⟨by simp, ?_⟩
    by_cases hqr : r = r1
    · subst hqr
      exact Or.inr ⟨q, c, down, up, min, hold, t0, rfl, lookup_store_self _ _ _⟩
    · exact Or.inl (by rw [lookup_store_ne _ _ _ _ hqr, hl])
  | EndCh q =>
    simp only [step] at hstep
    cases hlq : lookup m q with
    | none => simp [hlq, Step.after] at hstep
    | some v =>
      cases he : rEnd v with
      | none => simp [hlq, he, Step.after] at hstep
      | some p =>
        obtain ⟨l1, b⟩ := p
        simp [hlq, he, Step.after] at hstep
        obtain ⟨rfl, rfl⟩ := hstep
        have hqr : r ≠ q := by
          intro h
          subst h
          rw [hl] at hlq
          cases hlq
        exact ⟨by cases b <;> simp [hqr], Or.inl (by rw [lookup_store_ne _ _ _ _ hqr, hl])⟩
  | rAskCh q =>
    simp only [step] at hstep
    cases hlq : lookup m q with
    | none => simp [hlq, Step.after] at hstep
    | some v =>
      simp [hlq, Step.after] at hstep
      obtain ⟨rfl, rfl⟩ := hstep
      have hqr : r ≠ q := by
        intro h
        subst h
        rw [hl] at hlq
        cases hlq
      exact ⟨by cases (rAsk v).2 <;> simp [hqr],
        Or.inl (by rw [lookup_store_ne _ _ _ _ hqr, hl])⟩
  | throttleDownCh q t0 =>
    obtain ⟨hs, h1⟩ := hthr _ q hstep
    exact ⟨by simp [hs], Or.inl h1⟩
  | throttleUpCh q t0 =>
    obtain ⟨hs, h1⟩ := hthr _ q hstep
    exact ⟨by simp [hs], Or.inl h1⟩
  | unRegisterCh q =>
    simp [step, Step.after] at hstep
    obtain ⟨rfl, rfl⟩ := hstep
    refine ⟨by simp, Or.inl ?_⟩
    rw [lookup_delete, hl]
    simp
  | ctxDone =>
    simp [step, Step.after] at hstep
    obtain ⟨rfl, rfl⟩ := hstep
    exact ⟨by simp, Or.inl hl⟩

/-! ## The wait count goes down only by an admission -/

/-- C31 as stated fails: with ceiling 1, three Acquires leave one caller admitted and two
waiters recorded for `"a"`; the Unregister of `"a"` then completes, sends no notification,
and leaves no waiter recorded for `"a"`: the number falls from 2 to 0. -/
theorem waitCount_unregister_counterexample :
    PowerOn [.register "a" 1 2 1 1 30 0, .rAskCh "a", .rAskCh "a", .rAskCh "a"] =
      .next [("a", { newLimiter "a" 1 2 1 1 30 0 with wg := 3, rCnt := 1, rWait := 2 })]
        ["a"] ∧
    (step [("a", { newLimiter "a" 1 2 1 1 30 0 with wg := 3, rCnt := 1, rWait := 2 })]
        (.unRegisterCh "a")).after = some ([], []) ∧
    waiters [("a", { newLimiter "a" 1 2 1 1 30 0 with wg := 3, rCnt := 1, rWait := 2 })] "a" =
      2 ∧
    waiters [] "a" = 0 ∧ "a" ∉ ([] : List Routine) := by
  decide

/-- C31 (amended): for every state, every name `r` and every message other than the
Unregister of `r` that the loop processes to the end, if fewer waiters are recorded for `r`
afterwards than before, the message is a Release of `r`, it sent exactly one notification,
to `r`, and the number went down by exactly 1.  The Unregister of `r` sends nothing and
leaves no waiter recorded for `r`. -/
theorem waitCount_decrease (m m1 : rLimiterMap) (e : Event) (sent : List Routine)
    (r : Routine) (hstep : (step m e).after = some (m1, sent)) :
    (e ≠ .unRegisterCh r → waiters m1 r < waiters m r →
      e = .EndCh r ∧ sent = [r] ∧ waiters m1 r = waiters m r - 1) ∧
    (e = .unRegisterCh r → waiters m1 r = 0 ∧ sent = []) := by
  constructor
  · intro hne hlt
    cases hl : lookup m r with
    | none =>
      exfalso
      obtain ⟨-, h1⟩ := step_at_none m m1 e sent r hstep hl
      have h0 : waiters m r = 0 := by simp [waiters, hl]
      have h2 : waiters m1 r = 0 := by
        rcases h1 with h1 | ⟨q, c, down, up, min, hold, t0, -, h1⟩
        · simp [waiters, h1]
        · simp [waiters, h1, newLimiter]
      omega
    | some l =>
      have h0 : waiters m r = l.rWait := by simp [waiters, hl]
      rcases step_at m m1 e sent r l hstep hl with ⟨h, -, -⟩ | ⟨l1, hl1, h⟩
      · exact absurd h hne
      · have h1 : waiters m1 r = l1.rWait := by simp [waiters, hl1]
        rw [h0, h1] at hlt ⊢
        rcases h with ⟨-, rfl, -⟩ | ⟨he, b, hb, hs⟩ | ⟨q, t, -, rfl, -⟩ | ⟨q, t, -, rfl, -⟩ |
          ⟨rfl, -, -, -⟩
        · exfalso
          simp only [rAsk] at hlt
          split_ifs at hlt <;> simp only [] at hlt <;> omega
        · simp only [rEnd] at hb
          split_ifs at hb <;> simp only [Option.some.injEq, Prod.mk.injEq] at hb <;>
            obtain ⟨rfl, rfl⟩ := hb
          · exact ⟨he, by simpa using hs, rfl⟩
          · exfalso
            simp only [] at hlt
            omega
        · exfalso
          simp only [throttleDown] at hlt
          split_ifs at hlt <;> (try simp only [] at hlt) <;> omega
        · exfalso
          simp only [throttleUp] at hlt
          split_ifs at hlt <;> (try simp only [] at hlt) <;> omega
        · omega
  · intro he
    subst he
    simp [step, Step.after] at hstep
    obtain ⟨rfl, rfl⟩ := hstep
    exact ⟨by simp [waiters, lookup_delete_self], rfl⟩

/-- Witness for C31: ceiling 1, one caller admitted and two waiting; a Release of `"a"`
admits one waiter and leaves one recorded. -/
theorem waitCount_decrease_witness :
    (step [("a", { newLimiter "a" 1 2 1 1 30 0 with wg := 3, rCnt := 1, rWait := 2 })]
        (.EndCh "a")).after =
      some ([("a", { newLimiter "a" 1 2 1 1 30 0 with wg := 2, rCnt := 1, rWait := 1 })],
        ["a"]) ∧
    (Event.EndCh "a" ≠ .unRegisterCh "a" ∧
      waiters [("a", { newLimiter "a" 1 2 1 1 30 0 with wg := 2, rCnt := 1, rWait := 1 })] "a" <
        waiters [("a", { newLimiter "a" 1 2 1 1 30 0 with wg := 3, rCnt := 1, rWait := 2 })]
          "a") ∧
    (Event.EndCh "a" = .EndCh "a" ∧ ["a"] = ["a"] ∧
      waiters [("a", { newLimiter "a" 1 2 1 1 30 0 with wg := 2, rCnt := 1, rWait := 1 })] "a" =
        waiters [("a", { newLimiter "a" 1 2 1 1 30 0 with wg := 3, rCnt := 1, rWait := 2 })]
          "a" - 1) :=
  ⟨by decide, ⟨by decide, by decide⟩,
    (waitCount_decrease
      [("a", { newLimiter "a" 1 2 1 1 30 0 with wg := 3, rCnt := 1, rWait := 2 })]
      [("a", { newLimiter "a" 1 2 1 1 30 0 with wg := 2, rCnt := 1, rWait := 1 })]
      (.EndCh "a") ["a"] "a" (by decide)).1 (by decide) (by decide)⟩

/-! ## What changes the active count -/

theorem rAsk_granted (l : Limiter) (h : l.rCnt < l.c) :
    rAsk l = ({ l with wg := l.wg + 1, rCnt := l.rCnt + 1 }, true) := by
  simp [rAsk, h]

theorem rAsk_waits (l : Limiter) (h : ¬ l.rCnt < l.c) :
    rAsk l = ({ l with wg := l.wg + 1, rWait := l.rWait + 1 }, false) := by
  simp [rAsk, h]

/-- C32 (active-count frame): for every state and every limiter held under a name `r`, a
ThrottleUp, a ThrottleDown, a registration, the Unregister of another name, the shutdown
and an Acquire that is not granted leave the limiter in place with its `rCnt` as it was;
and when a message the loop processes to the end leaves it with another `rCnt`, the message
is an Acquire of `r` that was granted (`rCnt` one more) or a Release of `r` that woke no
waiter (`rCnt` one less). -/
theorem activeCount_frame (m m1 : rLimiterMap) (e : Event) (sent : List Routine)
    (r : Routine) (l : Limiter) (hstep : (step m e).after = some (m1, sent))
    (hl : lookup m r = some l) :
    (leavesActive r e sent = true → ∃ l1, lookup m1 r = some l1 ∧ l1.rCnt = l.rCnt) ∧
    (∀ l1, lookup m1 r = some l1 → l1.rCnt ≠ l.rCnt →
      (e = .rAskCh r ∧ sent = [r] ∧ l1.rCnt = l.rCnt + 1) ∨
      (e = .EndCh r ∧ sent = [] ∧ l1.rCnt = l.rCnt - 1)) := by
  rcases step_at m m1 e sent r l hstep hl with ⟨he, hnone, -⟩ | ⟨l1, hl1, h⟩
  · subst he
    refine ⟨?_, ?_⟩
    · intro hk
      simp [leavesActive] at hk
    · intro l1 h1
      rw [hnone] at h1
      cases h1
  · have hdown : ∀ t, (throttleDown t l).rCnt = l.rCnt := by
      intro t
      simp only [throttleDown]
      split_ifs <;> rfl
    have hup : ∀ t, (throttleUp t l).rCnt = l.rCnt := by
      intro t
      simp only [throttleUp]
      split_ifs <;> rfl
    rcases h with ⟨he, rfl, hs⟩ | ⟨he, b, hb, hs⟩ | ⟨q, t, -, rfl, -⟩ | ⟨q, t, -, rfl, -⟩ |
      ⟨rfl, -, -, -⟩
    · subst he
      by_cases hg : l.rCnt < l.c
      · rw [rAsk_granted l hg] at hs hl1
        refine ⟨?_, ?_⟩
        · intro hk
          simp only [leavesActive, decide_eq_true_eq] at hk
          rw [hk] at hs
          simp at hs
        · intro l2 h2 _
          rw [hl1] at h2
          cases h2
          exact Or.inl ⟨rfl, by simpa using hs, rfl⟩
      · rw [rAsk_waits l hg] at hs hl1
        refine ⟨fun _ => ⟨_, hl1, rfl⟩, ?_⟩
        intro l2 h2 hne
        rw [hl1] at h2
        cases h2
        exact absurd rfl hne
    · subst he
      refine ⟨?_, ?_⟩
      · intro hk
        simp [leavesActive] at hk
      · intro l2 h2 hne
        rw [hl1] at h2
        cases h2
        right
        simp only [rEnd] at hb
        split_ifs at hb <;> simp only [Option.some.injEq, Prod.mk.injEq] at hb <;>
          obtain ⟨rfl, rfl⟩ := hb
        · exfalso
          apply hne
          simp only []
          omega
        · exact ⟨rfl, by simpa using hs, rfl⟩
    · exact ⟨fun _ => ⟨_, hl1, hdown t⟩, fun l2 h2 hne => by
        rw [hl1] at h2
        cases h2
        exact absurd (hdown t) hne⟩
    · exact ⟨fun _ => ⟨_, hl1, hup t⟩, fun l2 h2 hne => by
        rw [hl1] at h2
        cases h2
        exact absurd (hup t) hne⟩
    · exact ⟨fun _ => ⟨_, hl1, rfl⟩, fun l2 h2 hne => by
        rw [hl1] at h2
        cases h2
        exact absurd rfl hne⟩

/-- Witness for C32: two limiters, `"a"` with two callers admitted and `"b"` with one; a
ThrottleDown of every limiter leaves `rCnt` of `"a"` at 2. -/
theorem activeCount_frame_witness :
    ((step [("a", { newLimiter "a" 5 2 1 1 30 0 with wg := 2, rCnt := 2 }),
          ("b", { newLimiter "b" 7 2 1 1 30 0 with wg := 1, rCnt := 1 })]
        (.throttleDownCh "__all" 60)).after =
      some ([("a", { newLimiter "a" 5 2 1 1 30 0 with
            c := 3, wg := 2, rCnt := 2, throttleDownActioned := 60 }),
          ("b", { newLimiter "b" 7 2 1 1 30 0 with
            c := 5, wg := 1, rCnt := 1, throttleDownActioned := 60 })], []) ∧
      lookup [("a", { newLimiter "a" 5 2 1 1 30 0 with wg := 2, rCnt := 2 }),
          ("b", { newLimiter "b" 7 2 1 1 30 0 with wg := 1, rCnt := 1 })] "a" =
        some { newLimiter "a" 5 2 1 1 30 0 with wg := 2, rCnt := 2 } ∧
      leavesActive "a" (.throttleDownCh "__all" 60) [] = true) ∧
    ∃ l1, lookup [("a", { newLimiter "a" 5 2 1 1 30 0 with
            c := 3, wg := 2, rCnt := 2, throttleDownActioned := 60 }),
          ("b", { newLimiter "b" 7 2 1 1 30 0 with
            c := 5, wg := 1, rCnt := 1, throttleDownActioned := 60 })] "a" = some l1 ∧
      l1.rCnt = ({ newLimiter "a" 5 2 1 1 30 0 with wg := 2, rCnt := 2 } : Limiter).rCnt :=
  ⟨⟨by decide, by decide, by decide⟩,
    (activeCount_frame
      [("a", { newLimiter "a" 5 2 1 1 30 0 with wg := 2, rCnt := 2 }),
        ("b", { newLimiter "b" 7 2 1 1 30 0 with wg := 1, rCnt := 1 })]
      [("a", { newLimiter "a" 5 2 1 1 30 0 with
          c := 3, wg := 2, rCnt := 2, throttleDownActioned := 60 }),
        ("b", { newLimiter "b" 7 2 1 1 30 0 with
          c := 5, wg := 1, rCnt := 1, throttleDownActioned := 60 })]
      (.throttleDownCh "__all" 60) [] "a"
      { newLimiter "a" 5 2 1 1 30 0 with wg := 2, rCnt := 2 }
      (by decide) (by decide)).1 (by decide)⟩

/-! ## The ceiling of a limiter registered with sound arguments -/

theorem CeilingFixed_rAsk (c min : Int) (l : Limiter) (h : CeilingFixed c min l) :
    CeilingFixed c min (rAsk l).1 := by
  unfold CeilingFixed at *
  simp only [rAsk]
  split_ifs <;> exact h

theorem CeilingFixed_rEnd (c min : Int) (l l1 : Limiter) (b : Bool) (h : CeilingFixed c min l)
    (he : rEnd l = some (l1, b)) : CeilingFixed c min l1 := by
  unfold CeilingFixed at *
  simp only [rEnd] at he
  split_ifs at he <;> simp only [Option.some.injEq, Prod.mk.injEq] at he <;>
    obtain ⟨rfl, -⟩ := he <;> exact h

theorem CeilingFixed_throttleDown (c min t : Int) (l : Limiter) (h : CeilingFixed c min l) :
    CeilingFixed c min (throttleDown t l) := by
  unfold CeilingFixed at *
  simp only [throttleDown]
  split_ifs <;> (try simp only []) <;> omega

theorem CeilingFixed_throttleUp (c min t : Int) (l : Limiter) (h : CeilingFixed c min l) :
    CeilingFixed c min (throttleUp t l) := by
  have hw : wrapInt (l.c + l.up) = l.c + l.up := by
    unfold CeilingFixed at h
    exact wrapInt_eq _ (by omega) (by omega)
  unfold CeilingFixed at *
  simp only [throttleUp, hw]
  split_ifs <;> (try simp only []) <;> omega

/-- C33 fails on the code, against the comments of `NewConfig` that `c` is "also the maximum
value for the throttle" and `min` the "minimum value of ceiling": registered with the
largest `int` as ceiling, floor 1, down 2 and up 1, which has `min ≤ c` and non-negative
steps, the limiter has `c = minInt`, below `minc = 1`, after one applied ThrottleUp.  The
overflow of `v.c += v.up` is the only way out: when also `c + up` is at most the largest
`int` and `min - down` at least the least, the limiter keeps `maxc = c`, `minc = min` and
`minc ≤ c ≤ maxc` in every state the loop reaches by messages other than its Unregister. -/
theorem conditional_ceiling_overflow :
    ((1 : Int) ≤ 9223372036854775807 ∧ (0 : Int) ≤ 2 ∧ (0 : Int) ≤ 1) ∧
    PowerOn [.register "a" 9223372036854775807 2 1 1 30000000000 0,
        .throttleUpCh "a" 30000000000] =
      .next [("a", { newLimiter "a" 9223372036854775807 2 1 1 30000000000 0 with
          c := -9223372036854775808, throttleUpActioned := 30000000000 })] [] ∧
    ¬ ((1 : Int) ≤ -9223372036854775808) ∧
    ∀ (m0 : rLimiterMap) (r : Routine) (c down up min hold t0 : Int),
      min ≤ c → 0 ≤ down → 0 ≤ up → c + up ≤ maxInt → minInt ≤ min - down →
      ∃ r1 m1, step m0 (.register r c down up min hold t0) = .next m1 [] ∧
        lookup m1 r1 = some { newLimiter r c down up min hold t0 with r := r1 } ∧
        ∀ (es : List Event) (m : rLimiterMap) (sent : List Routine),
          (∀ e ∈ es, e ≠ .unRegisterCh r1) → run m1 es = .next m sent →
          ∃ l, lookup m r1 = some l ∧ l.maxc = c ∧ l.minc = min ∧
            l.minc ≤ l.c ∧ l.c ≤ l.maxc := by
  refine ⟨by decide, by decide, by decide, ?_⟩
  intro m0 r c down up min hold t0 h1 h2 h3 h4 h5
  obtain ⟨r1, -, -, hs⟩ := step_register m0 r c down up min hold t0
  refine ⟨r1, _, hs, lookup_store_self _ _ _, ?_⟩
  intro es m sent hes hrun
  have h0 : CeilingFixed c min { newLimiter r c down up min hold t0 with r := r1 } := by
    simp only [CeilingFixed, newLimiter, true_and]
    omega
  obtain ⟨l, hl, hd⟩ := run_preserves_at (CeilingFixed c min) r1 (CeilingFixed_rAsk c min)
    (CeilingFixed_rEnd c min) (fun t => CeilingFixed_throttleDown c min t)
    (fun t => CeilingFixed_throttleUp c min t) es _ m sent _ hes hrun
    (lookup_store_self _ _ _) h0
  unfold CeilingFixed at hd
  refine ⟨l, hl, hd.1, hd.2.1, ?_, ?_⟩
  · omega
  · omega

/-! ## The drain counter -/

theorem DrainOk_throttleDown (t : Int) (l : Limiter) (h : DrainOk l) :
    DrainOk (throttleDown t l) := by
  unfold DrainOk at *
  simp only [throttleDown]
  split_ifs <;> exact h

theorem DrainOk_throttleUp (t : Int) (l : Limiter) (h : DrainOk l) :
    DrainOk (throttleUp t l) := by
  unfold DrainOk at *
  simp only [throttleUp]
  split_ifs <;> exact h

theorem ceilingStays_cons (r : Routine) (m m1 : rLimiterMap) (e : Event) (es : List Event)
    (s1 : List Routine) (hs : step m e = .next m1 s1)
    (h : ceilingStays r m (e :: es) = true) :
    ceilingPositive m r = true ∧ ceilingStays r m1 es = true := by
  simp only [ceilingStays, hs, Bool.and_eq_true] at h
  exact h

/-- Along a run without the Unregister of `r` in which the ceiling of the limiter held
under `r` stays at least 1, the counters keep `DrainOk`. -/
theorem run_drain (r : Routine) :
    ∀ (es : List Event) (m m1 : rLimiterMap) (sent : List Routine) (l : Limiter),
      (∀ e ∈ es, e ≠ .unRegisterCh r) → ceilingStays r m es = true →
      run m es = .next m1 sent → lookup m r = some l → DrainOk l →
      ∃ l1, lookup m1 r = some l1 ∧ DrainOk l1 := by
  intro es
  induction es with
  | nil =>
    intro m m1 sent l _ _ h hl hd
    simp [run] at h
    obtain ⟨rfl, -⟩ := h
    exact ⟨l, hl, hd⟩
  | cons e es ih =>
    intro m m1 sent l hne hc h hl hd
    obtain ⟨ma, s1, s2, hs, hr, -⟩ := run_cons_inv m m1 e es sent h
    obtain ⟨hc0, hc1⟩ := ceilingStays_cons r m ma e es s1 hs hc
    have hpos : 1 ≤ l.c := by
      simp only [ceilingPositive, hl, decide_eq_true_eq] at hc0
      exact hc0
    have hne1 := hne e (List.mem_cons_self _ _)
    rcases step_at m ma e s1 r l (after_next m ma e s1 hs) hl with ⟨h1, -, -⟩ | ⟨la, hla, h1⟩
    · exact absurd h1 hne1
    · refine ih ma m1 s2 la (fun e1 h2 => hne e1 (List.mem_cons_of_mem _ h2)) hc1 hr hla ?_
      rcases h1 with ⟨-, rfl, -⟩ | ⟨-, b, hb, -⟩ | ⟨q, t, -, rfl, -⟩ | ⟨q, t, -, rfl, -⟩ |
        ⟨rfl, -, -, -⟩
      · unfold DrainOk at *
        simp only [rAsk]
        split_ifs <;> (try simp only []) <;> omega
      · unfold DrainOk at *
        simp only [rEnd] at hb
        split_ifs at hb <;> simp only [Option.some.injEq, Prod.mk.injEq] at hb <;>
          obtain ⟨rfl, -⟩ := hb <;> (try simp only []) <;> omega
      · exact DrainOk_throttleDown t l hd
      · exact DrainOk_throttleUp t l hd
      · exact hd

/-- Along a run without the Unregister of `r`, the ceiling of a limiter held under `r` with
`CeilingFixed` and a floor of at least 1 stays at least 1. -/
theorem run_ceilingStays (r : Routine) (c min : Int) (hmin : 1 ≤ min) :
    ∀ (es : List Event) (m m1 : rLimiterMap) (sent : List Routine) (l : Limiter),
      (∀ e ∈ es, e ≠ .unRegisterCh r) → run m es = .next m1 sent → lookup m r = some l →
      CeilingFixed c min l → ceilingStays r m es = true := by
  intro es
  induction es with
  | nil =>
    intro m m1 sent l _ _ hl hf
    unfold CeilingFixed at hf
    simp only [ceilingStays, ceilingPositive, hl, decide_eq_true_eq]
    omega
  | cons e es ih =>
    intro m m1 sent l hne h hl hf
    obtain ⟨ma, s1, s2, hs, hr, -⟩ := run_cons_inv m m1 e es sent h
    obtain ⟨la, hla, hfa⟩ := step_preserves_at (CeilingFixed c min) m ma e s1 r l hs hl hf
      (hne e (List.mem_cons_self _ _)) (CeilingFixed_rAsk c min) (CeilingFixed_rEnd c min)
      (fun t => CeilingFixed_throttleDown c min t) (fun t => CeilingFixed_throttleUp c min t)
    have htail := ih ma m1 s2 la (fun e1 h2 => hne e1 (List.mem_cons_of_mem _ h2)) hr hla hfa
    unfold CeilingFixed at hf
    simp only [ceilingStays, hs, htail, ceilingPositive, hl, Bool.and_true, decide_eq_true_eq]
    omega

/-- C26 (drain counter): register a limiter in any registry, stored under `r1`.  After any
messages other than the Unregister of `r1` that the loop processes without a panic (so `wg`
never goes negative) and during which the ceiling of the limiter stays at least 1, the
limiter is still stored under `r1` and its WaitGroup counter, the one `Wait()` blocks on,
incremented by every Acquire and decremented by every Release, is zero exactly when `rCnt`
is zero.  The ceiling does stay at least 1 for a limiter registered with `1 ≤ min ≤ c`,
non-negative steps and `c + up` at most the largest `int`. -/
theorem drain_counter (m0 : rLimiterMap) (r : Routine) (c down up min hold t0 : Int) :
    ∃ r1 m1, step m0 (.register r c down up min hold t0) = .next m1 [] ∧
      lookup m1 r1 = some { newLimiter r c down up min hold t0 with r := r1 } ∧
      (∀ (es : List Event) (m : rLimiterMap) (sent : List Routine),
        (∀ e ∈ es, e ≠ .unRegisterCh r1) → ceilingStays r1 m1 es = true →
        run m1 es = .next m sent →
        ∃ l, lookup m r1 = some l ∧ l.wg = l.rCnt + l.rWait ∧ (l.wg = 0 ↔ l.rCnt = 0)) ∧
      (1 ≤ min → min ≤ c → 0 ≤ down → 0 ≤ up → c + up ≤ maxInt →
        ∀ (es : List Event) (m : rLimiterMap) (sent : List Routine),
          (∀ e ∈ es, e ≠ .unRegisterCh r1) → run m1 es = .next m sent →
          ceilingStays r1 m1 es = true) := by
  obtain ⟨r1, -, -, hs⟩ := step_register m0 r c down up min hold t0
  refine ⟨r1, _, hs, lookup_store_self _ _ _, ?_, ?_⟩
  · intro es m sent hes hc hrun
    have h0 : DrainOk { newLimiter r c down up min hold t0 with r := r1 } := by
      simp only [DrainOk, newLimiter]
      omega
    obtain ⟨l, hl, hd⟩ := run_drain r1 es _ m sent _ hes hc hrun (lookup_store_self _ _ _) h0
    unfold DrainOk at hd
    refine ⟨l, hl, hd.2.2.1, ?_⟩
    constructor <;> intro h <;> omega
  · intro h1 h2 h3 h4 h5 es m sent hes hrun
    have h0 : CeilingFixed c min { newLimiter r c down up min hold t0 with r := r1 } := by
      simp only [CeilingFixed, newLimiter, true_and]
      unfold minInt
      omega
    exact run_ceilingStays r1 c min h1 es _ m sent _ hes hrun (lookup_store_self _ _ _) h0

/-- Witness for C26: ceiling 1; two Acquires and one Release leave `wg = 1` and `rCnt = 1`,
a second Release leaves both at zero, and the ceiling stays 1 throughout.  With the largest
`int` as ceiling the ceiling does not stay at least 1 past a ThrottleUp. -/
theorem drain_counter_witness :
    PowerOn [.register "a" 1 2 1 1 30 0, .rAskCh "a", .rAskCh "a", .EndCh "a"] =
      .next [("a", { newLimiter "a" 1 2 1 1 30 0 with wg := 1, rCnt := 1 })] ["a", "a"] ∧
    PowerOn [.register "a" 1 2 1 1 30 0, .rAskCh "a", .rAskCh "a", .EndCh "a", .EndCh "a"] =
      .next [("a", newLimiter "a" 1 2 1 1 30 0)] ["a", "a"] ∧
    ceilingStays "a" [("a", newLimiter "a" 1 2 1 1 30 0)]
      [.rAskCh "a", .rAskCh "a", .EndCh "a", .EndCh "a"] = true ∧
    ceilingStays "a" [("a", newLimiter "a" 9223372036854775807 2 1 1 30 0)]
      [.throttleUpCh "a" 30, .rAskCh "a"] = false ∧
    ∃ r1 m1, step [] (.register "a" 1 2 1 1 30 0) = .next m1 [] ∧
      lookup m1 r1 = some { newLimiter "a" 1 2 1 1 30 0 with r := r1 } ∧
      (∀ (es : List Event) (m : rLimiterMap) (sent : List Routine),
        (∀ e ∈ es, e ≠ .unRegisterCh r1) → ceilingStays r1 m1 es = true →
        run m1 es = .next m sent →
        ∃ l, lookup m r1 = some l ∧ l.wg = l.rCnt + l.rWait ∧ (l.wg = 0 ↔ l.rCnt = 0)) ∧
      ((1 : Int) ≤ 1 → (1 : Int) ≤ 1 → (0 : Int) ≤ 2 → (0 : Int) ≤ 1 → (1 : Int) + 1 ≤ maxInt →
        ∀ (es : List Event) (m : rLimiterMap) (sent : List Routine),
          (∀ e ∈ es, e ≠ .unRegisterCh r1) → run m1 es = .next m sent →
          ceilingStays r1 m1 es = true) :=
  ⟨by decide, by decide, by decide, by decide, drain_counter [] "a" 1 2 1 1 30 0⟩

/-! ## Admission against the current ceiling -/

/-- C34 (grants respect the current ceiling): for every state and every message the loop
processes to the end, a notification for `q` is sent only by an Acquire of `q` that finds
`rCnt < c`, or by a Release of `q` that, having given its own slot back (`rCnt - 1`), finds a
waiter and `rCnt - 1 < c`; it is the only notification of the iteration, the ceiling is not
touched, and afterwards `rCnt ≤ c`.  So an Acquire that finds `rCnt ≥ c`, and a Release that
leaves `rCnt - 1 ≥ c`, as after a ThrottleDown below the active count, admit nobody. -/
theorem grants_respect_ceiling (m m1 : rLimiterMap) (e : Event) (sent : List Routine)
    (hstep : (step m e).after = some (m1, sent)) :
    (∀ q, q ∈ sent → ∃ l l1, lookup m q = some l ∧ lookup m1 q = some l1 ∧ sent = [q] ∧
      l1.c = l.c ∧ l1.rCnt ≤ l1.c ∧
      ((e = .rAskCh q ∧ l.rCnt < l.c ∧ l1.rCnt = l.rCnt + 1) ∨
       (e = .EndCh q ∧ 0 < l.rWait ∧ l.rCnt - 1 < l.c ∧ l1.rCnt = l.rCnt - 1 + 1))) ∧
    (∀ q l, lookup m q = some l → l.c ≤ l.rCnt → e = .rAskCh q → sent = []) ∧
    (∀ q l, lookup m q = some l → l.c ≤ l.rCnt - 1 → e = .EndCh q → sent = []) := by
  refine ⟨?_, ?_, ?_⟩
  · intro q hq
    cases hl : lookup m q with
    | none => exact absurd hq (step_at_none m m1 e sent q hstep hl).1
    | some l =>
      rcases step_at m m1 e sent q l hstep hl with ⟨-, -, hs⟩ | ⟨l1, hl1, h⟩
      · rw [hs] at hq
        simp at hq
      · rcases h with ⟨he, h1, hs⟩ | ⟨he, b, hb, hs⟩ | ⟨_, _, -, -, hs⟩ | ⟨_, _, -, -, hs⟩ |
          ⟨-, -, -, hs⟩
        · by_cases hg : l.rCnt < l.c
          · rw [rAsk_granted l hg] at h1 hs
            subst h1
            exact ⟨l, _, rfl, hl1, by simpa using hs, rfl, by simp only []; omega,
              Or.inl ⟨he, hg, rfl⟩⟩
          · rw [rAsk_waits l hg] at hs
            rw [hs] at hq
            simp at hq
        · simp only [rEnd] at hb
          split_ifs at hb with h0 hw <;> simp only [Option.some.injEq, Prod.mk.injEq] at hb <;>
            obtain ⟨rfl, rfl⟩ := hb
          · exact ⟨l, _, rfl, hl1, by simpa using hs, rfl, by simp only []; omega,
              Or.inr ⟨he, hw.1, hw.2, rfl⟩⟩
          · rw [hs] at hq
            simp at hq
        · rw [hs] at hq
          simp at hq
        · rw [hs] at hq
          simp at hq
        · exact absurd hq hs
  · intro q l hl hge he
    subst he
    have hg : ¬ l.rCnt < l.c := by omega
    simp [step, hl, Step.after, rAsk_waits l hg] at hstep
    exact hstep.2
  · intro q l hl hge he
    subst he
    rcases step_at m m1 _ sent q l hstep hl with ⟨h, -, -⟩ | ⟨l1, -, h⟩
    · cases h
    · rcases h with ⟨h, -, -⟩ | ⟨-, b, hb, hs⟩ | ⟨_, _, h, -, -⟩ | ⟨_, _, h, -, -⟩ |
        ⟨-, -, h, -⟩
      · cases h
      · simp only [rEnd] at hb
        split_ifs at hb with h0 hw <;> simp only [Option.some.injEq, Prod.mk.injEq] at hb <;>
          obtain ⟨rfl, rfl⟩ := hb
        · exfalso
          have := hw.2
          simp only [] at this
          omega
        · simpa using hs
      · cases h
      · cases h
      · exact absurd rfl h

/-- Witness for C34: ceiling 3 lowered to 1 by a ThrottleDown while three callers are
admitted; a fourth Acquire waits and two Releases admit nobody; the third Release, which
brings `rCnt - 1` to 0, admits the waiter. -/
theorem grants_respect_ceiling_witness :
    (PowerOn [.register "a" 3 2 1 1 30 0, .rAskCh "a", .rAskCh "a", .rAskCh "a",
        .throttleDownCh "a" 30, .rAskCh "a", .EndCh "a", .EndCh "a"] =
      .next [("a", { newLimiter "a" 3 2 1 1 30 0 with
          c := 1, wg := 2, rCnt := 1, rWait := 1, throttleDownActioned := 30 })]
        ["a", "a", "a"] ∧
      (step [("a", { newLimiter "a" 3 2 1 1 30 0 with
          c := 1, wg := 2, rCnt := 1, rWait := 1, throttleDownActioned := 30 })]
        (.EndCh "a")).after =
      some ([("a", { newLimiter "a" 3 2 1 1 30 0 with
          c := 1, wg := 1, rCnt := 1, rWait := 0, throttleDownActioned := 30 })], ["a"]) ∧
      "a" ∈ ["a"]) ∧
    ∃ l l1,
      lookup [("a", { newLimiter "a" 3 2 1 1 30 0 with
          c := 1, wg := 2, rCnt := 1, rWait := 1, throttleDownActioned := 30 })] "a" = some l ∧
      lookup [("a", { newLimiter "a" 3 2 1 1 30 0 with
          c := 1, wg := 1, rCnt := 1, rWait := 0, throttleDownActioned := 30 })] "a" =
        some l1 ∧
      ["a"] = ["a"] ∧ l1.c = l.c ∧ l1.rCnt ≤ l1.c ∧
      ((Event.EndCh "a" = .rAskCh "a" ∧ l.rCnt < l.c ∧ l1.rCnt = l.rCnt + 1) ∨
       (Event.EndCh "a" = .EndCh "a" ∧ 0 < l.rWait ∧ l.rCnt - 1 < l.c ∧
         l1.rCnt = l.rCnt - 1 + 1)) :=
  ⟨⟨by decide, by decide, by decide⟩,
    (grants_respect_ceiling
      [("a", { newLimiter "a" 3 2 1 1 30 0 with
          c := 1, wg := 2, rCnt := 1, rWait := 1, throttleDownActioned := 30 })]
      [("a", { newLimiter "a" 3 2 1 1 30 0 with
          c := 1, wg := 1, rCnt := 1, rWait := 0, throttleDownActioned := 30 })]
      (.EndCh "a") ["a"] (by decide)).1 "a" (by decide)⟩

/-! ## Conservation of callers -/

theorem count_cons_event (e x : Event) (es : List Event) :
    (e :: es).count x = es.count x + if e = x then 1 else 0 := by
  simp [List.count_cons]

/-- Along a run without the Unregister of `r`, `rCnt + rWait` of the limiter held under `r`
goes up by one for each Acquire of `r` and down by one for each Release of `r`. -/
theorem run_conservation (r : Routine) :
    ∀ (es : List Event) (m m1 : rLimiterMap) (sent : List Routine) (l : Limiter),
      (∀ e ∈ es, e ≠ .unRegisterCh r) → run m es = .next m1 sent → lookup m r = some l →
      ∃ l1, lookup m1 r = some l1 ∧
        l1.rCnt + l1.rWait =
          l.rCnt + l.rWait + (es.count (.rAskCh r) : Int) - (es.count (.EndCh r) : Int) := by
  intro es
  induction es with
  | nil =>
    intro m m1 sent l _ h hl
    simp [run] at h
    obtain ⟨rfl, -⟩ := h
    exact ⟨l, hl, by simp⟩
  | cons e es ih =>
    intro m m1 sent l hne h hl
    obtain ⟨ma, s1, s2, hs, hr, -⟩ := run_cons_inv m m1 e es sent h
    have hne1 := hne e (List.mem_cons_self _ _)
    rcases step_at m ma e s1 r l (after_next m ma e s1 hs) hl with ⟨h1, -, -⟩ | ⟨la, hla, h1⟩
    · exact absurd h1 hne1
    · obtain ⟨l1, hl1, hsum⟩ := ih ma m1 s2 la
        (fun e1 h2 => hne e1 (List.mem_cons_of_mem _ h2)) hr hla
      refine ⟨l1, hl1, ?_⟩
      rw [hsum, count_cons_event, count_cons_event]
      rcases h1 with ⟨he, rfl, -⟩ | ⟨he, b, hb, -⟩ | ⟨q, t, he, rfl, -⟩ | ⟨q, t, he, rfl, -⟩ |
        ⟨rfl, h2, h3, -⟩
      · subst he
        have hd : (rAsk l).1.rCnt + (rAsk l).1.rWait = l.rCnt + l.rWait + 1 := by
          simp only [rAsk]
          split_ifs <;> simp only [] <;> omega
        simp
        omega
      · subst he
        have hd : la.rCnt + la.rWait = l.rCnt + l.rWait - 1 := by
          simp only [rEnd] at hb
          split_ifs at hb <;> simp only [Option.some.injEq, Prod.mk.injEq] at hb <;>
            obtain ⟨rfl, -⟩ := hb <;> simp only [] <;> omega
        simp
        omega
      · subst he
        have hd : (throttleDown t l).rCnt + (throttleDown t l).rWait = l.rCnt + l.rWait := by
          simp only [throttleDown]
          split_ifs <;> rfl
        simp
        omega
      · subst he
        have hd : (throttleUp t l).rCnt + (throttleUp t l).rWait = l.rCnt + l.rWait := by
          simp only [throttleUp]
          split_ifs <;> rfl
        simp
        omega
      · simp [h2, h3]

/-- C35 (conservation): register a limiter in any registry, stored under `r1`.  After any
messages other than the Unregister of `r1` that the loop processes, whatever the throttle
messages among them did to the ceiling, the limiter is still stored under `r1` and its
`rCnt + rWait` is the number of Acquires of `r1` minus the number of Releases of `r1`
processed. -/
theorem conservation (m0 : rLimiterMap) (r : Routine) (c down up min hold t0 : Int) :
    ∃ r1 m1, step m0 (.register r c down up min hold t0) = .next m1 [] ∧
      lookup m1 r1 = some { newLimiter r c down up min hold t0 with r := r1 } ∧
      ∀ (es : List Event) (m : rLimiterMap) (sent : List Routine),
        (∀ e ∈ es, e ≠ .unRegisterCh r1) → run m1 es = .next m sent →
        ∃ l, lookup m r1 = some l ∧
          l.rCnt + l.rWait =
            (es.count (.rAskCh r1) : Int) - (es.count (.EndCh r1) : Int) := by
  obtain ⟨r1, -, -, hs⟩ := step_register m0 r c down up min hold t0
  refine ⟨r1, _, hs, lookup_store_self _ _ _, ?_⟩
  intro es m sent hes hrun
  obtain ⟨l, hl, hsum⟩ := run_conservation r1 es _ m sent _ hes hrun (lookup_store_self _ _ _)
  refine ⟨l, hl, ?_⟩
  rw [hsum]
  simp only [newLimiter]
  omega

/-- Witness for C35: ceiling 2; three Acquires, a ThrottleDown to ceiling 1, a Release and
a fourth Acquire leave one caller admitted and two waiting: `1 + 2 = 4 - 1`. -/
theorem conservation_witness :
    PowerOn [.register "a" 2 1 1 1 30 0, .rAskCh "a", .rAskCh "a", .rAskCh "a",
        .throttleDownCh "a" 30, .EndCh "a", .rAskCh "a"] =
      .next [("a", { newLimiter "a" 2 1 1 1 30 0 with
          c := 1, wg := 3, rCnt := 1, rWait := 2, throttleDownActioned := 30 })] ["a", "a"] ∧
    ([Event.rAskCh "a", .rAskCh "a", .rAskCh "a", .throttleDownCh "a" 30, .EndCh "a",
        .rAskCh "a"].count (.rAskCh "a") = 4 ∧
      [Event.rAskCh "a", .rAskCh "a", .rAskCh "a", .throttleDownCh "a" 30, .EndCh "a",
        .rAskCh "a"].count (.EndCh "a") = 1) ∧
    ∃ r1 m1, step [] (.register "a" 2 1 1 1 30 0) = .next m1 [] ∧
      lookup m1 r1 = some { newLimiter "a" 2 1 1 1 30 0 with r := r1 } ∧
      ∀ (es : List Event) (m : rLimiterMap) (sent : List Routine),
        (∀ e ∈ es, e ≠ .unRegisterCh r1) → run m1 es = .next m sent →
        ∃ l, lookup m r1 = some l ∧
          l.rCnt + l.rWait =
            (es.count (.rAskCh r1) : Int) - (es.count (.EndCh r1) : Int) :=
  ⟨by decide, by decide, conservation [] "a" 2 1 1 1 30 0⟩

/-! ## The uniqueness loop: how many membership tests -/

theorem suffixed_length (n : Routine) (k : Nat) : (suffixed n k).length = n.length + k := by
  show (n.data ++ (List.range k).map (fun i => Char.ofNat ((65 + i) % 256))).length =
    n.data.length + k
  rw [List.length_append, List.length_map, List.length_range]

/-- Entered at the `j`-th candidate with every candidate before the `k`-th a key and the
`k`-th free, the loop returns the `k`-th candidate as soon as it may make `k - j + 1`
membership tests. -/
theorem uniqueLabel_enough (m : rLimiterMap) (n : Routine) (k : Nat)
    (hfree : lookup m (suffixed n k) = none) :
    ∀ (d j fuel : Nat), j + d = k →
      (∀ i, j ≤ i → i < k → lookup m (suffixed n i) ≠ none) → d + 1 ≤ fuel →
      uniqueLabel m fuel (suffixed n j) ((65 + j) % 256) = some (suffixed n k) := by
  intro d
  induction d with
  | zero =>
    intro j fuel hj _ hf
    obtain ⟨f, rfl⟩ : ∃ f, fuel = f + 1 := ⟨fuel - 1, by omega⟩
    have hjk : j = k := by omega
    subst hjk
    simp [uniqueLabel, hfree]
  | succ d ih =>
    intro j fuel hj hkeys hf
    obtain ⟨f, rfl⟩ : ∃ f, fuel = f + 1 := ⟨fuel - 1, by omega⟩
    cases hl : lookup m (suffixed n j) with
    | none => exact absurd hl (hkeys j (le_refl _) (by omega))
    | some v =>
      simp only [uniqueLabel, hl]
      have he : ((65 + j) % 256 + 1) % 256 = (65 + (j + 1)) % 256 := by omega
      rw [suffixed_succ, he]
      exact ih (j + 1) f (by omega) (fun i h1 h2 => hkeys i (by omega) h2) (by omega)

/-- Entered at the `j`-th candidate with every candidate before the `k`-th a key, the loop
has not finished after `k - j` membership tests. -/
theorem uniqueLabel_short (m : rLimiterMap) (n : Routine) (k : Nat) :
    ∀ (fuel j : Nat), (∀ i, j ≤ i → i < k → lookup m (suffixed n i) ≠ none) →
      j + fuel ≤ k → uniqueLabel m fuel (suffixed n j) ((65 + j) % 256) = none := by
  intro fuel
  induction fuel with
  | zero =>
    intro j _ _
    simp [uniqueLabel]
  | succ f ih =>
    intro j hkeys hf
    cases hl : lookup m (suffixed n j) with
    | none => exact absurd hl (hkeys j (le_refl _) (by omega))
    | some v =>
      simp only [uniqueLabel, hl]
      have he : ((65 + j) % 256 + 1) % 256 = (65 + (j + 1)) % 256 := by omega
      rw [suffixed_succ, he]
      exact ih (j + 1) (fun i h1 h2 => hkeys i (by omega) h2) (by omega)

/-- Candidates that are all keys are no more than the distinct keys. -/
theorem candidates_le_keys (m : rLimiterMap) (n : Routine) (k : Nat)
    (hkeys : ∀ i, i < k → lookup m (suffixed n i) ≠ none) : k ≤ (keys m).dedup.length := by
  have hinj : Function.Injective (suffixed n) := by
    intro a b hab
    have h1 := congrArg String.length hab
    rw [suffixed_length, suffixed_length] at h1
    omega
  have hnd : ((List.range k).map (suffixed n)).Nodup := (List.nodup_range k).map hinj
  have hsub : (List.range k).map (suffixed n) ⊆ (keys m).dedup := by
    intro x hx
    obtain ⟨i, hi, rfl⟩ := List.mem_map.1 hx
    rw [List.mem_dedup]
    by_contra hmem
    exact hkeys i (List.mem_range.1 hi) ((lookup_eq_none_iff m _).2 hmem)
  have hlen := (hnd.subperm hsub).length_le
  simpa using hlen

/-- C36 (termination of name resolution): for every registry `m` and requested name `r`
there is a `k`, at most the number of distinct keys of `m` (itself at most the length of
`m`), such that the uniqueness loop of the Register handler, which lengthens the candidate
by one character in each iteration, returns the `k`-th candidate whenever it may make
`k + 1` membership tests or more, and has not returned after `k` tests or fewer: it ends
after exactly `k + 1` tests, and the handler stores the limiter under that candidate.  With
`"fetch"` and `"fetchA"` registered, three tests give `"fetchAB"` and two do not suffice. -/
theorem name_resolution_terminates (m : rLimiterMap) (r : Routine) :
    (∃ k, k ≤ (keys m).dedup.length ∧ (keys m).dedup.length ≤ m.length ∧
      lookup m (suffixed r k) = none ∧ (∀ i, i < k → lookup m (suffixed r i) ≠ none) ∧
      (∀ fuel, k + 1 ≤ fuel → uniqueLabel m fuel r 65 = some (suffixed r k)) ∧
      (∀ fuel, fuel ≤ k → uniqueLabel m fuel r 65 = none) ∧
      (∀ i, (suffixed r (i + 1)).length = (suffixed r i).length + 1) ∧
      ∀ c down up min hold t0, ∃ l,
        step m (.register r c down up min hold t0) = .next (store m (suffixed r k) l) []) ∧
    uniqueLabel [("fetch", newLimiter "fetch" 5 2 1 1 30 0),
        ("fetchA", { newLimiter "fetch" 6 2 1 1 30 1 with r := "fetchA" })] 3 "fetch" 65 =
      some "fetchAB" ∧
    uniqueLabel [("fetch", newLimiter "fetch" 5 2 1 1 30 0),
        ("fetchA", { newLimiter "fetch" 6 2 1 1 30 1 with r := "fetchA" })] 2 "fetch" 65 =
      none := by
  refine ⟨?_, by decide, by decide⟩
  obtain ⟨r1, hu, -, -⟩ := step_register m r 0 0 0 0 0 0
  have hu0 : uniqueLabel m (m.length + 1) (suffixed r 0) ((65 + 0) % 256) = some r1 := by
    rw [suffixed_zero]
    exact hu
  obtain ⟨k, -, hr, hn, hmin⟩ := uniqueLabel_suffixed m r (m.length + 1) 0 r1 hu0
  subst hr
  have hkeys : ∀ i, i < k → lookup m (suffixed r i) ≠ none :=
    fun i hi => hmin i (Nat.zero_le _) hi
  have hk : k ≤ (keys m).dedup.length := candidates_le_keys m r k hkeys
  have hlen : (keys m).dedup.length ≤ m.length := by
    have h1 := (List.dedup_sublist (keys m)).length_le
    simpa [keys] using h1
  have henough : ∀ fuel, k + 1 ≤ fuel → uniqueLabel m fuel r 65 = some (suffixed r k) := by
    intro fuel hf
    have h1 := uniqueLabel_enough m r k hn k 0 fuel (by omega)
      (fun i _ hi => hkeys i hi) hf
    rw [suffixed_zero] at h1
    exact h1
  refine ⟨k, hk, hlen, hn, hkeys, henough, ?_, ?_, ?_⟩
  · intro fuel hf
    have h1 := uniqueLabel_short m r k fuel 0 (fun i _ hi => hkeys i hi) (by omega)
    rw [suffixed_zero] at h1
    exact h1
  · intro i
    rw [suffixed_length, suffixed_length]
    omega
  · intro c down up min hold t0
    have h1 := henough (m.length + 1) (by omega)
    exact ⟨{ newLimiter r c down up min hold t0 with r := suffixed r k },
      by simp only [step, h1]⟩

end Grmgr
